import Mathlib

/-!
# RAJA tensor registers: the matrix register (`MatrixRegisterImpl.hpp`) and the vector
(`VectorImpl.hpp`); the CUDA `forall` (`policy/cuda/forall.hpp`)

A shallow embedding of `TensorRegister<REGISTER_POLICY, T, TensorLayout<ROW_ORD, COL_ORD>,
camp::idx_seq<ROW_SIZE, COL_SIZE>>`, of `VectorImpl<camp::list<REGISTER_TYPES...>,
camp::idx_seq<IDX_SEQ...>, FIXED_LENGTH>` and of the Register contract they are written against.

Conventions of the embedding.

* Element type `T` is a type `α` carrying the arithmetic that an operation needs; arithmetic is
  exact (no rounding).
* Memory is a total map from element addresses (`Int`) to elements; a pointer is an address and
  `ptr + k` is address arithmetic. Strides are `int` in the source and `Int` here; index and
  address arithmetic is unbounded (no wrap-around of `camp::idx_t`).
* A register is the map from lane index to lane value. The static lane count `W` is passed to
  the operations that walk the lanes. Lanes at or beyond `W`, and registers at or beyond
  `s_num_registers`, do not exist in the C++ objects: the embedding gives them no meaning and
  every statement below bounds the indices it speaks about.
* A C++ `for` loop is `forLoop`, a left fold of the loop body over the index range.
* A default-constructed local (`self_type tmp;`, `vector_type result;`) has unspecified contents;
  the embedded function takes that value as its last argument.
* Counts, lengths and indices of type `int` or `camp::idx_t` are natural numbers; negative values
  are outside the embedding.
* A variadic pack expansion over the registers of a vector is a loop, or a list, in register
  order.
* In the CUDA part `unsigned int` arithmetic wraps modulo `2^32` (`uint`); a kernel launch runs
  the kernel once for every block and thread of the configuration, one thread after the other.
-/

namespace RAJA

/-- The loop `for(camp::idx_t i = lo; i < hi; ++i) body(i)`, threading the state `s`. -/
def forLoop {σ : Type} (lo hi : Nat) (body : Nat → σ → σ) (s : σ) : σ :=
  (List.range' lo (hi - lo)).foldl (fun acc i => body i acc) s

/-- Memory addressed in units of one element. -/
abbrev Memory (α : Type) := Int → α

/-- Modelled from the spec: the hardware Register of §3/§4.1 (class `VectorRegister<T, POLICY>`,
not among the sources). A register is its lanes, lane `i` for `i` in `[0, W)`. -/
abbrev Register (α : Type) := Nat → α

namespace Register

variable {α : Type}

/-- Modelled from the spec: `get(i)`, scalar read of lane `i` (§4.1). -/
def get (x : Register α) (i : Nat) : α := x i

/-- Modelled from the spec: `set(v, i)`, scalar write of lane `i` (§4.1); argument order as the
matrix code calls it. -/
def set (x : Register α) (v : α) (i : Nat) : Register α := Function.update x i v

/-- Modelled from the spec: `broadcast(scalar)`, every lane equal to the scalar (§4.1); also the
constructor `vector_type(c)`. -/
def broadcast (c : α) : Register α := fun _ => c

/-- Modelled from the spec: `load_packed(ptr)`, lane `i` read from `ptr[i]` (§4.1). -/
def load_packed (mem : Memory α) (ptr : Int) : Register α := fun i => mem (ptr + i)

/-- Modelled from the spec: `load_packed_n(ptr, n)`, "load `n<W` elements, zero remainder"
(§4.1). -/
def load_packed_n [Zero α] (mem : Memory α) (ptr : Int) (n : Nat) : Register α :=
  fun i => if i < n then mem (ptr + i) else 0

/-- Modelled from the spec: `load_strided(ptr, stride)`, lane `i` read from `ptr[i*stride]`
(§4.1). -/
def load_strided (mem : Memory α) (ptr : Int) (stride : Int) : Register α :=
  fun i => mem (ptr + i * stride)

/-- Modelled from the spec: `load_strided_n(ptr, stride, n)`, the first `n` lanes read from
`ptr[i*stride]`, the remaining lanes zero (§3: lanes beyond the used count are zero). -/
def load_strided_n [Zero α] (mem : Memory α) (ptr : Int) (stride : Int) (n : Nat) : Register α :=
  fun i => if i < n then mem (ptr + i * stride) else 0

/-- Modelled from the spec: `store_strided_n(ptr, stride, n)`, the symmetric store: lane `i` is
written to `ptr[i*stride]` for `i` in `[0, n)`, in lane order (§4.1). -/
def store_strided_n (x : Register α) (ptr : Int) (stride : Int) (n : Nat) (mem : Memory α) :
    Memory α :=
  forLoop 0 n (fun i m => Function.update m (ptr + i * stride) (x i)) mem

/-- Modelled from the spec: `store_packed_n(ptr, n)`, lane `i` written to `ptr[i]` for `i` in
`[0, n)` (§4.1). -/
def store_packed_n (x : Register α) (ptr : Int) (n : Nat) (mem : Memory α) : Memory α :=
  forLoop 0 n (fun i m => Function.update m (ptr + i) (x i)) mem

/-- Modelled from the spec: `store_packed(ptr)`, all `W` lanes written to `ptr[0..W)` (§4.1). -/
def store_packed (W : Nat) (x : Register α) (ptr : Int) (mem : Memory α) : Memory α :=
  store_packed_n x ptr W mem

/-- Modelled from the spec: `store_strided(ptr, stride)`, all `W` lanes written to
`ptr[i*stride]` (§4.1). -/
def store_strided (W : Nat) (x : Register α) (ptr : Int) (stride : Int) (mem : Memory α) :
    Memory α :=
  store_strided_n x ptr stride W mem

/-- Modelled from the spec: elementwise `add` (§4.1); also `operator+=`. -/
def add [Add α] (x y : Register α) : Register α := fun i => x i + y i

/-- Modelled from the spec: elementwise `multiply` (§4.1). -/
def multiply [Mul α] (x y : Register α) : Register α := fun i => x i * y i

/-- Modelled from the spec: `register * scalar`, the elementwise product with the broadcast
scalar (§4.1, §4.2 scalar operator overloads). -/
def scale [Mul α] (x : Register α) (c : α) : Register α := multiply x (broadcast c)

/-- Modelled from the spec: `dot(other)`, "sum of elementwise products" over the `W` lanes
(§4.1). -/
def dot [Add α] [Mul α] [Zero α] (W : Nat) (x y : Register α) : α :=
  forLoop 0 W (fun i acc => acc + x i * y i) 0

/-- Modelled from the spec: `transpose_shuffle_left(lvl, y)`, the shuffle primitive that
"interleaves lanes from two registers at a given power-of-two block size" (§4.1), used on the
lower-indexed register of a pair (§4.4): blocks of `2^lvl` lanes, the even blocks kept from the
register itself, each odd block filled with the even block of `y` to its left. -/
def transpose_shuffle_left (lvl : Nat) (x y : Register α) : Register α :=
  fun i => if (i >>> lvl) &&& 1 = 0 then x i else y (i - (1 <<< lvl))

/-- Modelled from the spec: `transpose_shuffle_right(lvl, y)`, the companion shuffle used on the
higher-indexed register of a pair (§4.4): each even block filled with the odd block of the
register itself to its right, the odd blocks taken from `y` in place. -/
def transpose_shuffle_right (lvl : Nat) (x y : Register α) : Register α :=
  fun i => if (i >>> lvl) &&& 1 = 0 then x ((1 <<< lvl) + i) else y i

end Register

/-- Modelled from the spec: the static layout tag `TensorLayout<ROW_ORD, COL_ORD>` of a matrix,
"row-major or column-major" (§3); the template itself is not among the sources. -/
inductive TensorLayout where
  | row_major
  | column_major
  deriving DecidableEq, Repr

namespace TensorLayout

/-- Modelled from the spec: `layout_type::is_row_major()`. -/
def is_row_major : TensorLayout → Bool
  | row_major => true
  | column_major => false

/-- Modelled from the spec: `layout_type::is_column_major()`. -/
def is_column_major : TensorLayout → Bool
  | row_major => false
  | column_major => true

/-- Modelled from the spec: `TensorLayout<!ROW_ORD, !COL_ORD>`, the opposite layout tag
(row-major to column-major and back, §4.4). -/
def flip : TensorLayout → TensorLayout
  | row_major => column_major
  | column_major => row_major

end TensorLayout

/-- The static (template) parameters of a matrix register type: the register width
`RegisterTraits<REGISTER_POLICY,T>::s_num_elem`, the layout, and `camp::idx_seq<ROW_SIZE, COL_SIZE>`. -/
structure TensorType where
  s_register_width : Nat
  layout : TensorLayout
  ROW_SIZE : Nat
  COL_SIZE : Nat
  deriving DecidableEq, Repr

namespace TensorType

/-- `s_num_registers = (ROW_SIZE*COL_SIZE) / s_register_width`. -/
def s_num_registers (t : TensorType) : Nat :=
  (t.ROW_SIZE * t.COL_SIZE) / t.s_register_width

/-- The `static_assert`: "Matrix must exactly fit into an integer number of registers". -/
def static_assert (t : TensorType) : Prop :=
  t.ROW_SIZE * t.COL_SIZE = t.s_num_registers * t.s_register_width

instance (t : TensorType) : Decidable t.static_assert := by
  unfold static_assert; infer_instance

/-- `s_reg_matrix_size = is_row_major() ? COL_SIZE : ROW_SIZE`. -/
def s_reg_matrix_size (t : TensorType) : Nat :=
  if t.layout.is_row_major then t.COL_SIZE else t.ROW_SIZE

/-- `s_segments_per_register = s_register_width / s_reg_matrix_size`. -/
def s_segments_per_register (t : TensorType) : Nat :=
  t.s_register_width / t.s_reg_matrix_size

/-- `s_registers_per_dim = s_reg_matrix_size / s_register_width`. -/
def s_registers_per_dim (t : TensorType) : Nat :=
  t.s_reg_matrix_size / t.s_register_width

/-- `transpose_tensor_type = TensorRegister<REGISTER_POLICY, T, TensorLayout<!ROW_ORD, !COL_ORD>,
camp::idx_seq<ROW_SIZE, COL_SIZE>>`. -/
def transpose_tensor_type (t : TensorType) : TensorType :=
  { s_register_width := t.s_register_width
    layout := t.layout.flip
    ROW_SIZE := t.ROW_SIZE
    COL_SIZE := t.COL_SIZE }

end TensorType

/-- The matrix register: `vector_type m_registers[s_num_registers]`, tagged with its static
parameters. -/
structure TensorRegister (α : Type) (t : TensorType) where
  m_registers : Nat → Register α

namespace TensorRegister

variable {α : Type} {t : TensorType}

/-- The assignment `m_registers[i] = v`. -/
def setReg (A : TensorRegister α t) (i : Nat) (v : Register α) : TensorRegister α t :=
  ⟨Function.update A.m_registers i v⟩

/-- `clear()`: every register set to `vector_type(0)`. -/
def clear [Zero α] (self : TensorRegister α t) : TensorRegister α t :=
  forLoop 0 t.s_num_registers (fun i m => m.setReg i (Register.broadcast 0)) self

/-- `load_packed(ptr, row_stride, col_stride)`; `self` is the matrix before the call. -/
def load_packed (self : TensorRegister α t) (mem : Memory α) (ptr : Int)
    (row_stride col_stride : Int) : TensorRegister α t :=
  if (t.layout.is_row_major && decide (row_stride = (t.ROW_SIZE : Int))) ||
     (t.layout.is_column_major && decide (col_stride = (t.COL_SIZE : Int))) then
    forLoop 0 t.s_num_registers
      (fun reg m => m.setReg reg
        (Register.load_packed mem (ptr + (reg : Int) * (t.s_register_width : Int)))) self
  else if t.layout.is_row_major then
    if t.s_registers_per_dim ≠ 0 then
      forLoop 0 t.ROW_SIZE (fun row m =>
        forLoop 0 t.s_registers_per_dim (fun dimreg m =>
          let reg := dimreg + row * t.s_registers_per_dim
          let offset : Int := (row : Int) * row_stride + (dimreg : Int) * (t.s_register_width : Int)
          m.setReg reg (Register.load_packed mem (ptr + offset))) m) self
    else
      self
  else
    if t.s_registers_per_dim ≠ 0 then
      forLoop 0 t.COL_SIZE (fun col m =>
        forLoop 0 t.s_registers_per_dim (fun dimreg m =>
          let reg := dimreg + col * t.s_registers_per_dim
          let offset : Int := (col : Int) * col_stride + (dimreg : Int) * (t.s_register_width : Int)
          m.setReg reg (Register.load_packed mem (ptr + offset))) m) self
    else
      self

/-- `load_strided(ptr, row_stride, col_stride)`. -/
def load_strided (self : TensorRegister α t) (mem : Memory α) (ptr : Int)
    (row_stride col_stride : Int) : TensorRegister α t :=
  if t.layout.is_row_major then
    forLoop 0 t.s_num_registers
      (fun i m => m.setReg i (Register.load_strided mem (ptr + (i : Int) * row_stride) col_stride))
      self
  else
    forLoop 0 t.s_num_registers
      (fun i m => m.setReg i (Register.load_strided mem (ptr + (i : Int) * col_stride) row_stride))
      self

/-- `load_packed_nm(ptr, row_stride, col_stride, num_rows, num_cols)`. -/
def load_packed_nm [Zero α] (self : TensorRegister α t) (mem : Memory α) (ptr : Int)
    (row_stride col_stride : Int) (num_rows num_cols : Nat) : TensorRegister α t :=
  if t.layout.is_row_major then
    forLoop num_rows t.s_num_registers (fun i m => m.setReg i (Register.broadcast 0))
      (forLoop 0 num_rows
        (fun i m => m.setReg i
          (Register.load_packed_n mem (ptr + (i : Int) * row_stride) num_cols)) self)
  else
    forLoop num_cols t.s_num_registers (fun i m => m.setReg i (Register.broadcast 0))
      (forLoop 0 num_cols
        (fun i m => m.setReg i
          (Register.load_packed_n mem (ptr + (i : Int) * col_stride) num_rows)) self)

/-- `load_strided_nm(ptr, row_stride, col_stride, num_rows, num_cols)`. -/
def load_strided_nm [Zero α] (self : TensorRegister α t) (mem : Memory α) (ptr : Int)
    (row_stride col_stride : Int) (num_rows num_cols : Nat) : TensorRegister α t :=
  if t.layout.is_row_major then
    forLoop num_rows t.s_num_registers (fun i m => m.setReg i (Register.broadcast 0))
      (forLoop 0 num_rows
        (fun i m => m.setReg i
          (Register.load_strided_n mem (ptr + (i : Int) * row_stride) col_stride num_cols)) self)
  else
    forLoop num_cols t.s_num_registers (fun i m => m.setReg i (Register.broadcast 0))
      (forLoop 0 num_cols
        (fun i m => m.setReg i
          (Register.load_strided_n mem (ptr + (i : Int) * col_stride) row_stride num_rows)) self)

/-- `store_packed(ptr, row_stride, col_stride)`: the memory after the call. -/
def store_packed (self : TensorRegister α t) (ptr : Int) (row_stride col_stride : Int)
    (mem : Memory α) : Memory α :=
  if t.layout.is_row_major then
    forLoop 0 t.s_num_registers
      (fun i m => Register.store_packed t.s_register_width (self.m_registers i)
        (ptr + (i : Int) * row_stride) m) mem
  else
    forLoop 0 t.s_num_registers
      (fun i m => Register.store_packed t.s_register_width (self.m_registers i)
        (ptr + (i : Int) * col_stride) m) mem

/-- `store_strided(ptr, row_stride, col_stride)`: the memory after the call. -/
def store_strided (self : TensorRegister α t) (ptr : Int) (row_stride col_stride : Int)
    (mem : Memory α) : Memory α :=
  if t.layout.is_row_major then
    forLoop 0 t.s_num_registers
      (fun i m => Register.store_strided t.s_register_width (self.m_registers i)
        (ptr + (i : Int) * row_stride) col_stride m) mem
  else
    forLoop 0 t.s_num_registers
      (fun i m => Register.store_strided t.s_register_width (self.m_registers i)
        (ptr + (i : Int) * col_stride) row_stride m) mem

/-- `store_packed_nm(ptr, row_stride, col_stride, num_rows, num_cols)`: the memory after the
call. -/
def store_packed_nm (self : TensorRegister α t) (ptr : Int) (row_stride col_stride : Int)
    (num_rows num_cols : Nat) (mem : Memory α) : Memory α :=
  if t.layout.is_row_major then
    forLoop 0 num_rows
      (fun i m => Register.store_packed_n (self.m_registers i)
        (ptr + (i : Int) * row_stride) num_cols m) mem
  else
    forLoop 0 num_cols
      (fun i m => Register.store_packed_n (self.m_registers i)
        (ptr + (i : Int) * col_stride) num_rows m) mem

/-- `store_strided_nm(ptr, row_stride, col_stride, num_rows, num_cols)`: the memory after the
call. -/
def store_strided_nm (self : TensorRegister α t) (ptr : Int) (row_stride col_stride : Int)
    (num_rows num_cols : Nat) (mem : Memory α) : Memory α :=
  if t.layout.is_row_major then
    forLoop 0 num_rows
      (fun i m => Register.store_strided_n (self.m_registers i)
        (ptr + (i : Int) * row_stride) col_stride num_cols m) mem
  else
    forLoop 0 num_cols
      (fun i m => Register.store_strided_n (self.m_registers i)
        (ptr + (i : Int) * col_stride) row_stride num_rows m) mem

/-- One level of the loop body of `transpose()`: from the registers `vals` of `result`, fill
`tmp` register by register with the left or right shuffle of the pair
`(i - (i&(1<<lvl)), i - (i&(1<<lvl)) + (1<<lvl))`. -/
def transposeLevel (lvl : Nat) (vals : TensorRegister α t) (tmp : TensorRegister α t) :
    TensorRegister α t :=
  forLoop 0 t.s_num_registers (fun i tmp =>
    if (i >>> lvl) &&& 1 = 0 then
      tmp.setReg i (Register.transpose_shuffle_left lvl
        (vals.m_registers (i - (i &&& (1 <<< lvl))))
        (vals.m_registers (i - (i &&& (1 <<< lvl)) + (1 <<< lvl))))
    else
      tmp.setReg i (Register.transpose_shuffle_right lvl
        (vals.m_registers (i - (i &&& (1 <<< lvl))))
        (vals.m_registers (i - (i &&& (1 <<< lvl)) + (1 <<< lvl))))) tmp

/-- The loop `for(lvl = 0; (1<<lvl) < num_elem; ++lvl)` of `transpose()`, from level `lvl` on,
with at most `fuel` iterations. -/
def transposeFrom (tmp : TensorRegister α t) :
    Nat → Nat → TensorRegister α t → TensorRegister α t
  | 0, _, result => result
  | fuel + 1, lvl, result =>
    if (1 <<< lvl) < t.s_register_width then
      transposeFrom tmp fuel (lvl + 1) (transposeLevel lvl result tmp)
    else
      result

/-- `transpose()`: Eklundh block transpose, keeping the layout. The level loop runs while
`(1<<lvl) < num_elem`, hence fewer than `num_elem` times (`transposeFrom_fuel`). `tmp` is the
default-constructed local of the loop body. -/
def transpose (self : TensorRegister α t) (tmp : TensorRegister α t) : TensorRegister α t :=
  transposeFrom tmp t.s_register_width 0 self

/-- `transpose_type()`: the same object reinterpreted as `transpose_tensor_type`. -/
def transpose_type (self : TensorRegister α t) : TensorRegister α t.transpose_tensor_type :=
  ⟨self.m_registers⟩

/-- `right_multiply_vector(v)`; `result` is the default-constructed local of the row-major
branch. -/
def right_multiply_vector [Add α] [Mul α] [Zero α] (self : TensorRegister α t) (v : Register α)
    (result : Register α) : Register α :=
  if t.layout.is_row_major then
    forLoop 0 t.s_num_registers
      (fun i result =>
        Register.set result (Register.dot t.s_register_width v (self.m_registers i)) i) result
  else
    forLoop 0 t.s_num_registers
      (fun i result =>
        Register.add result (Register.scale (self.m_registers i) (Register.get v i)))
      (Register.broadcast 0)

/-- `set(val, row, col)`. -/
def set (self : TensorRegister α t) (val : α) (row col : Nat) : TensorRegister α t :=
  if t.layout.is_row_major then
    self.setReg row (Register.set (self.m_registers row) val col)
  else
    self.setReg col (Register.set (self.m_registers col) val row)

/-- `get(row, col)`. -/
def get (self : TensorRegister α t) (row col : Nat) : α :=
  if t.layout.is_row_major then
    Register.get (self.m_registers row) col
  else
    Register.get (self.m_registers col) row

end TensorRegister

/-! ## Concrete instances used in the examples -/

/-- Memory holding `a + 1` at address `a`: the packed array `{1, 2, 3, ...}` from address 0. -/
def sampleMemory : Memory Int := fun a => a + 1

/-- A matrix of any type whose registers are all zero. -/
def sampleZero (t : TensorType) : TensorRegister Int t := ⟨fun _ => Register.broadcast 0⟩

/-- A matrix of any type whose register `k` holds `k*W + l + 1` in lane `l`. -/
def sampleMatrix (t : TensorType) : TensorRegister Int t :=
  ⟨fun k l => ((k * t.s_register_width + l + 1 : Nat) : Int)⟩

/-- The vector `{1, 0, 0, ...}`. -/
def sampleVector : Register Int := fun i => if i = 0 then 1 else 0

/-- Row-major `4 x 4`, register width 4: one register per row. -/
def sampleType44 : TensorType :=
  { s_register_width := 4, layout := TensorLayout.row_major, ROW_SIZE := 4, COL_SIZE := 4 }

/-- Column-major `2 x 2`, register width 2: one register per column. -/
def sampleType22 : TensorType :=
  { s_register_width := 2, layout := TensorLayout.column_major, ROW_SIZE := 2, COL_SIZE := 2 }

/-- Row-major `2 x 2` with register width 4: both rows in a single register. -/
def sampleTypeTwoRows : TensorType :=
  { s_register_width := 4, layout := TensorLayout.row_major, ROW_SIZE := 2, COL_SIZE := 2 }

/-- Row-major `8 x 4`, register width 4: one register per row, not square. -/
def sampleType84 : TensorType :=
  { s_register_width := 4, layout := TensorLayout.row_major, ROW_SIZE := 8, COL_SIZE := 4 }

/-- Row-major `2 x 4`, register width 4: one register per row, not square. -/
def sampleType24 : TensorType :=
  { s_register_width := 4, layout := TensorLayout.row_major, ROW_SIZE := 2, COL_SIZE := 4 }

end RAJA

namespace RAJA

/-- Modelled from the spec: the size kind `internal::TensorTileSize` of a Tile Reference,
"size_kind ∈ {FULL, PARTIAL}" (§3); the enumeration is not among the sources. -/
inductive TensorTileSize where
  | TENSOR_FULL
  | TENSOR_PARTIAL
  deriving DecidableEq, Repr

/-- Modelled from the spec: the tile of a Tile Reference, `tile_begin[dim]` and `tile_size[dim]`
(§3), read by the matrix code as `ref.m_tile.m_begin[d]` and `ref.m_tile.m_size[d]`. -/
structure TensorTile where
  m_begin : Nat → Int
  m_size : Nat → Nat

/-- Modelled from the spec: the Tile Reference `internal::TensorRef<POINTER_TYPE, INDEX_TYPE,
TENSOR_SIZE, 2, STRIDE_ONE_DIM>` of §3, "{ pointer, stride[dim], tile_begin[dim], tile_size[dim],
size_kind, stride_one_dim }"; the class is not among the sources. The two template parameters
`TENSOR_SIZE` and `STRIDE_ONE_DIM` are carried as fields. -/
structure TensorRef where
  m_pointer : Int
  m_stride : Nat → Int
  m_tile : TensorTile
  TENSOR_SIZE : TensorTileSize
  STRIDE_ONE_DIM : Int

namespace TensorType

/-- `is_ref_packed<STRIDE_ONE_DIM>()`. -/
def is_ref_packed (t : TensorType) (STRIDE_ONE_DIM : Int) : Bool :=
  (decide (STRIDE_ONE_DIM = 0) && t.layout.is_column_major) ||
    (decide (STRIDE_ONE_DIM = 1) && t.layout.is_row_major)

end TensorType

namespace TensorRegister

variable {α : Type} {t : TensorType}

/-- `load_ref(ref)`. -/
def load_ref [Zero α] (self : TensorRegister α t) (mem : Memory α) (ref : TensorRef) :
    TensorRegister α t :=
  let ptr := ref.m_pointer + ref.m_tile.m_begin 0 * ref.m_stride 0 +
    ref.m_tile.m_begin 1 * ref.m_stride 1
  if t.is_ref_packed ref.STRIDE_ONE_DIM then
    if ref.TENSOR_SIZE = TensorTileSize.TENSOR_FULL then
      self.load_packed mem ptr (ref.m_stride 0) (ref.m_stride 1)
    else
      self.load_packed_nm mem ptr (ref.m_stride 0) (ref.m_stride 1)
        (ref.m_tile.m_size 0) (ref.m_tile.m_size 1)
  else
    if ref.TENSOR_SIZE = TensorTileSize.TENSOR_FULL then
      self.load_strided mem ptr (ref.m_stride 0) (ref.m_stride 1)
    else
      self.load_strided_nm mem ptr (ref.m_stride 0) (ref.m_stride 1)
        (ref.m_tile.m_size 0) (ref.m_tile.m_size 1)

/-- `store_ref(ref)`: the memory after the call. -/
def store_ref (self : TensorRegister α t) (ref : TensorRef) (mem : Memory α) : Memory α :=
  let ptr := ref.m_pointer + ref.m_tile.m_begin 0 * ref.m_stride 0 +
    ref.m_tile.m_begin 1 * ref.m_stride 1
  if t.is_ref_packed ref.STRIDE_ONE_DIM then
    if ref.TENSOR_SIZE = TensorTileSize.TENSOR_FULL then
      self.store_packed ptr (ref.m_stride 0) (ref.m_stride 1) mem
    else
      self.store_packed_nm ptr (ref.m_stride 0) (ref.m_stride 1)
        (ref.m_tile.m_size 0) (ref.m_tile.m_size 1) mem
  else
    if ref.TENSOR_SIZE = TensorTileSize.TENSOR_FULL then
      self.store_strided ptr (ref.m_stride 0) (ref.m_stride 1) mem
    else
      self.store_strided_nm ptr (ref.m_stride 0) (ref.m_stride 1)
        (ref.m_tile.m_size 0) (ref.m_tile.m_size 1) mem

/-- `broadcast(v)`: every register set to the scalar; also the constructor
`TensorRegister(element_type c)`, which broadcasts into the fresh object `self`. -/
def broadcast (self : TensorRegister α t) (v : α) : TensorRegister α t :=
  forLoop 0 t.s_num_registers (fun i m => m.setReg i (Register.broadcast v)) self

/-- `left_multiply_vector(v)`; `result` is the default-constructed local of the column-major
branch. -/
def left_multiply_vector [Add α] [Mul α] [Zero α] (self : TensorRegister α t) (v : Register α)
    (result : Register α) : Register α :=
  if t.layout.is_column_major then
    forLoop 0 t.s_num_registers
      (fun i result =>
        Register.set result (Register.dot t.s_register_width v (self.m_registers i)) i) result
  else
    forLoop 0 t.s_num_registers
      (fun i result =>
        Register.add result (Register.scale (self.m_registers i) (Register.get v i)))
      (Register.broadcast 0)

end TensorRegister

namespace MatrixMatrixMultiplyHelper

variable {α : Type}

/-- Modelled from the spec: `MatrixMatrixMultiplyHelper<A, B>::result_type` of the Multiply
Strategy (§4.5; `MatrixMatrixMultiply.hpp` is not among the sources): "the result's shape and
element type are determined solely by the two operand types" (§4.4). The product of an
`R x K` and a `K x C` matrix is `R x C`; the model gives it the register width and the layout of
the left operand, which is what `operator*` of the matrix, returning `self_type`, needs. -/
def result_type (tA tB : TensorType) : TensorType :=
  { s_register_width := tA.s_register_width
    layout := tA.layout
    ROW_SIZE := tA.ROW_SIZE
    COL_SIZE := tB.COL_SIZE }

/-- Modelled from the spec: `MatrixMatrixMultiplyHelper<A, B>::multiply(A, B, result)` of the
Multiply Strategy (§4.5; `MatrixMatrixMultiply.hpp` is not among the sources), which "computes
the product of two Matrix operands into a result Matrix" by "nested accumulation of
`right_multiply_vector`/`left_multiply_vector`-style operations over the contraction dimension":
one matrix-vector product per result register. Register `i` of a row-major result is the left
product of row `i` of `A` with `B`; register `k` of a column-major result is the right product
of `A` with column `k` of `B`. `result` is the caller's matrix, `tmp` the default-constructed
local of the matrix-vector product. -/
def multiply [Add α] [Mul α] [Zero α] {tA tB : TensorType}
    (A : TensorRegister α tA) (B : TensorRegister α tB)
    (result : TensorRegister α (result_type tA tB)) (tmp : Register α) :
    TensorRegister α (result_type tA tB) :=
  if tA.layout.is_row_major then
    forLoop 0 (result_type tA tB).s_num_registers
      (fun i m => m.setReg i (B.left_multiply_vector (fun j => A.get i j) tmp)) result
  else
    forLoop 0 (result_type tA tB).s_num_registers
      (fun k m => m.setReg k (A.right_multiply_vector (fun j => B.get j k) tmp)) result

end MatrixMatrixMultiplyHelper

namespace TensorRegister

variable {α : Type}

end TensorRegister

end RAJA

namespace RAJA

/-- Modelled from the spec: `RAJA::foldl_sum<T>(a, b, ...)`, the left fold `(a + b) + ...` of
its arguments (a RAJA utility, not among the sources). -/
def foldl_sum {α : Type} [Add α] [Zero α] : List α → α
  | [] => 0
  | a :: rest => rest.foldl (fun x y => x + y) a

/-- Modelled from the spec: `RAJA::foldl_max<T>(a, b, ...)`, the left fold of its arguments
under the larger-of-two (a RAJA utility, not among the sources). -/
def foldl_max {α : Type} [Max α] [Zero α] : List α → α
  | [] => 0
  | a :: rest => rest.foldl (fun x y => Max.max x y) a

/-- Modelled from the spec: `RAJA::foldl_min<T>(a, b, ...)`, the left fold of its arguments
under the smaller-of-two (a RAJA utility, not among the sources). -/
def foldl_min {α : Type} [Min α] [Zero α] : List α → α
  | [] => 0
  | a :: rest => rest.foldl (fun x y => Min.min x y) a

namespace Register

variable {α : Type}

/-- Modelled from the spec: `load(ptr, stride)`, the "one packed/strided load" a Register
performs in the vector load (§4.2): lane `i` read from `ptr[i*stride]`. -/
def load (mem : Memory α) (ptr : Int) (stride : Int) : Register α :=
  load_strided mem ptr stride

/-- Modelled from the spec: `store(ptr, stride)`, the symmetric store of the `w` lanes of the
register type: lane `i` written to `ptr[i*stride]` (§4.1, §4.2). -/
def store (w : Nat) (x : Register α) (ptr : Int) (stride : Int) (mem : Memory α) : Memory α :=
  store_strided w x ptr stride mem

/-- Modelled from the spec: elementwise `subtract` (§4.1); also `operator-`. -/
def subtract [Sub α] (x y : Register α) : Register α := fun i => x i - y i

/-- Modelled from the spec: elementwise `divide` (§4.1); also `operator/`. -/
def divide [Div α] (x y : Register α) : Register α := fun i => x i / y i

/-- Modelled from the spec: elementwise `multiply_add` (§4.1), called `fused_multiply_add(b, c)`
by the vector: `(*this)*b + c` in every lane. -/
def fused_multiply_add [Add α] [Mul α] (x b c : Register α) : Register α :=
  fun i => x i * b i + c i

/-- Modelled from the spec: `fused_multiply_subtract(b, c)`: `(*this)*b - c` in every lane
(§4.2). -/
def fused_multiply_subtract [Sub α] [Mul α] (x b c : Register α) : Register α :=
  fun i => x i * b i - c i

/-- Modelled from the spec: elementwise `vmax` (§4.2), the larger of the two lanes. -/
def vmax [Max α] (x y : Register α) : Register α := fun i => Max.max (x i) (y i)

/-- Modelled from the spec: elementwise `vmin` (§4.2), the smaller of the two lanes. -/
def vmin [Min α] (x y : Register α) : Register α := fun i => Min.min (x i) (y i)

/-- Modelled from the spec: `sum()`, the register-level fold of §4.2: the sum of the `w` lanes. -/
def sum [Add α] [Zero α] (w : Nat) (x : Register α) : α :=
  forLoop 0 w (fun i acc => acc + x i) 0

/-- Modelled from the spec: `max()`, the lane reduction of §4.1: the largest of the `w` lanes. -/
def max [Max α] (w : Nat) (x : Register α) : α :=
  forLoop 1 w (fun i acc => Max.max acc (x i)) (x 0)

/-- Modelled from the spec: `min()`, the lane reduction of §4.1: the smallest of the `w`
lanes. -/
def min [Min α] (w : Nat) (x : Register α) : α :=
  forLoop 1 w (fun i acc => Min.min acc (x i)) (x 0)

end Register

/-- The static parameters of a `VectorImpl<camp::list<REGISTER0_TYPE, REGISTER_TYPES...>,
camp::idx_seq<IDX_SEQ...>, FIXED_LENGTH>`: the lane counts `num_elem()` of its register types,
register 0 first, and `FIXED_LENGTH`. `IDX_SEQ` is `0, 1, ..., num_registers-1`, as
`VectorTypeHelper` builds it. -/
structure VectorType where
  num_elems : List Nat
  s_is_fixed : Bool
  deriving DecidableEq, Repr

namespace VectorType

/-- `REGISTER0_TYPE::num_elem()`. -/
def register0_num_elem (vt : VectorType) : Nat := vt.num_elems.headD 0

/-- `num_elem()`: `foldl_sum` of the lane counts of the register types. -/
def num_elem (vt : VectorType) : Nat := foldl_sum vt.num_elems

/-- `num_registers()`: `1 + sizeof...(REGISTER_TYPES)`. -/
def num_registers (vt : VectorType) : Nat := vt.num_elems.length

/-- The lane count `num_elem()` of register type number `k`. -/
def register_num_elem (vt : VectorType) (k : Nat) : Nat := vt.num_elems.getD k 0

/-- Modelled from the spec: the Vector data model of §3, "ordered sequence of `R` Registers"
in which only "the last register may itself be a narrower partial-width Register type": every
register but the last has the lane count of register 0. -/
def full_registers (vt : VectorType) : Prop :=
  ∀ k, k < vt.num_registers - 1 → vt.register_num_elem k = vt.register0_num_elem

instance (vt : VectorType) : Decidable vt.full_registers := by
  unfold full_registers; infer_instance

end VectorType

namespace detail

variable {α : Type}

/-- `detail::VectorGetByIndex<ELEMENT_TYPE>(i, r0, r_rest...)`. The argument pack is the list of
lane counts of the registers still to be searched, with `k` the position of `r0` in
`m_registers`; the empty pack is the termination case returning `ELEMENT_TYPE()`. -/
def VectorGetByIndex [Zero α] (m_registers : Nat → Register α) : List Nat → Nat → Nat → α
  | [], _, _ => 0
  | w :: rest, k, i =>
    if i < w then Register.get (m_registers k) i
    else VectorGetByIndex m_registers rest (k + 1) (i - w)

/-- `detail::VectorSetByIndex(i, value, r0, r_rest...)`, returning the registers after the
call; the empty pack is the termination case, a no-op. `r0.set(i, value)` is the scalar write
of lane `i`. -/
def VectorSetByIndex (value : α) : List Nat → Nat → Nat → (Nat → Register α) → Nat → Register α
  | [], _, _, m_registers => m_registers
  | w :: rest, k, i, m_registers =>
    if i < w then Function.update m_registers k (Register.set (m_registers k) value i)
    else VectorSetByIndex value rest (k + 1) (i - w) m_registers

/-- The pack expansion `f(camp::get<IDX_SEQ>(m_registers))...`: one value per register, in
register order; `f` receives the lane count of the register type and the register. -/
def registerPack {β : Type} (f : Nat → Register α → β) (m_registers : Nat → Register α) :
    List Nat → Nat → List β
  | [], _ => []
  | w :: rest, k => f w (m_registers k) :: registerPack f m_registers rest (k + 1)

end detail

/-- The vector: `register_tuple_t m_registers; camp::idx_t m_length;`, tagged with its static
parameters. -/
structure VectorImpl (α : Type) (vt : VectorType) where
  m_registers : Nat → Register α
  m_length : Nat

namespace VectorImpl

variable {α : Type} {vt : VectorType}

/-- The default constructor `VectorImpl() : m_length(num_elem()){}`; `fresh` are the
default-constructed registers. -/
def init (fresh : Nat → Register α) : VectorImpl α vt :=
  { m_registers := fresh, m_length := vt.num_elem }

/-- The assignment `camp::get<k>(m_registers) = v`. -/
def setReg (self : VectorImpl α vt) (k : Nat) (v : Register α) : VectorImpl α vt :=
  { m_registers := Function.update self.m_registers k v, m_length := self.m_length }

/-- `size()`. -/
def size (self : VectorImpl α vt) : Nat := self.m_length

/-- `get(i)`, also `operator[]`. -/
def get [Zero α] (self : VectorImpl α vt) (i : Nat) : α :=
  detail.VectorGetByIndex self.m_registers vt.num_elems 0 i

/-- `set(i, value)`. -/
def set (self : VectorImpl α vt) (i : Nat) (value : α) : VectorImpl α vt :=
  { m_registers := detail.VectorSetByIndex value vt.num_elems 0 i self.m_registers
    m_length := self.m_length }

/-- `load(ptr, stride, length)`. -/
def load (self : VectorImpl α vt) (mem : Memory α) (ptr : Int) (stride : Int) (length : Nat) :
    VectorImpl α vt :=
  if vt.s_is_fixed || decide (length = vt.num_elem) then
    forLoop 0 vt.num_registers
      (fun k v => v.setReg k
        (Register.load mem (ptr + (k : Int) * stride * (vt.register0_num_elem : Int)) stride))
      { m_registers := self.m_registers, m_length := length }
  else
    forLoop 0 length (fun i v => v.set i (mem (ptr + (i : Int) * stride)))
      { m_registers := self.m_registers, m_length := length }

/-- `store(ptr, stride)`: the memory after the call. -/
def store [Zero α] (self : VectorImpl α vt) (ptr : Int) (stride : Int) (mem : Memory α) :
    Memory α :=
  if vt.s_is_fixed || decide (self.m_length = vt.num_elem) then
    forLoop 0 vt.num_registers
      (fun k m => Register.store (vt.register_num_elem k) (self.m_registers k)
        (ptr + (k : Int) * stride * (vt.register0_num_elem : Int)) stride m) mem
  else
    forLoop 0 self.m_length
      (fun i m => Function.update m (ptr + (i : Int) * stride) (self.get i)) mem

/-- The shape shared by `add`, `subtract`, `multiply`, `divide`, `vmax` and `vmin`:
`self_type result;`, then `camp::get<k>(result.m_registers) = op(camp::get<k>(m_registers),
camp::get<k>(x.m_registers))` for every register, then
`result.m_length = RAJA::min(m_length, x.m_length)`. -/
def elementwise (op : Register α → Register α → Register α) (self x : VectorImpl α vt)
    (fresh : Nat → Register α) : VectorImpl α vt :=
  { m_registers :=
      (forLoop 0 vt.num_registers
        (fun k result => result.setReg k (op (self.m_registers k) (x.m_registers k)))
        (init fresh : VectorImpl α vt)).m_registers
    m_length := Nat.min self.m_length x.m_length }

/-- `add(x)`; `fresh` are the default-constructed registers of `result`. -/
def add [Add α] (self x : VectorImpl α vt) (fresh : Nat → Register α) : VectorImpl α vt :=
  elementwise Register.add self x fresh

/-- `subtract(x)`. -/
def subtract [Sub α] (self x : VectorImpl α vt) (fresh : Nat → Register α) : VectorImpl α vt :=
  elementwise Register.subtract self x fresh

/-- `multiply(x)`. -/
def multiply [Mul α] (self x : VectorImpl α vt) (fresh : Nat → Register α) : VectorImpl α vt :=
  elementwise Register.multiply self x fresh

/-- `divide(x)`. -/
def divide [Div α] (self x : VectorImpl α vt) (fresh : Nat → Register α) : VectorImpl α vt :=
  elementwise Register.divide self x fresh

/-- `vmax(x)`. -/
def vmax [Max α] (self x : VectorImpl α vt) (fresh : Nat → Register α) : VectorImpl α vt :=
  elementwise Register.vmax self x fresh

/-- `vmin(x)`. -/
def vmin [Min α] (self x : VectorImpl α vt) (fresh : Nat → Register α) : VectorImpl α vt :=
  elementwise Register.vmin self x fresh

/-- The shape shared by `fused_multiply_add` and `fused_multiply_subtract`: register by register,
then `result.m_length = RAJA::foldl_min<camp::idx_t>(m_length, b.m_length, c.m_length)`. -/
def elementwise3 (op : Register α → Register α → Register α → Register α)
    (self b c : VectorImpl α vt) (fresh : Nat → Register α) : VectorImpl α vt :=
  { m_registers :=
      (forLoop 0 vt.num_registers
        (fun k result => result.setReg k
          (op (self.m_registers k) (b.m_registers k) (c.m_registers k)))
        (init fresh : VectorImpl α vt)).m_registers
    m_length := foldl_min [self.m_length, b.m_length, c.m_length] }

/-- `fused_multiply_add(b, c)`. -/
def fused_multiply_add [Add α] [Mul α] (self b c : VectorImpl α vt) (fresh : Nat → Register α) :
    VectorImpl α vt :=
  elementwise3 Register.fused_multiply_add self b c fresh

/-- `fused_multiply_subtract(b, c)`. -/
def fused_multiply_subtract [Sub α] [Mul α] (self b c : VectorImpl α vt)
    (fresh : Nat → Register α) : VectorImpl α vt :=
  elementwise3 Register.fused_multiply_subtract self b c fresh

/-- The register-level branch of `sum()`:
`RAJA::foldl_sum<element_type>(camp::get<IDX_SEQ>(m_registers).sum()...)`. -/
def sum_registers [Add α] [Zero α] (self : VectorImpl α vt) : α :=
  foldl_sum (detail.registerPack Register.sum self.m_registers vt.num_elems 0)

/-- The scalar-loop branch of `sum()`: `result = 0; for i < m_length: result += (*this)[i]`. -/
def sum_scalar [Add α] [Zero α] (self : VectorImpl α vt) : α :=
  forLoop 0 self.m_length (fun i result => result + self.get i) 0

/-- `sum()`. -/
def sum [Add α] [Zero α] (self : VectorImpl α vt) : α :=
  if self.m_length = vt.num_elem then self.sum_registers else self.sum_scalar

/-- `max()`. -/
def max [Max α] [LT α] [DecidableRel (fun a b : α => a < b)] [Zero α]
    (self : VectorImpl α vt) : α :=
  if vt.s_is_fixed || decide (self.m_length = vt.num_elem) then
    foldl_max (detail.registerPack Register.max self.m_registers vt.num_elems 0)
  else
    forLoop 1 self.m_length
      (fun i result => if self.get i < result then result else self.get i) (self.get 0)

/-- `min()`. -/
def min [Min α] [LT α] [DecidableRel (fun a b : α => a < b)] [Zero α]
    (self : VectorImpl α vt) : α :=
  if vt.s_is_fixed || decide (self.m_length = vt.num_elem) then
    foldl_min (detail.registerPack Register.min self.m_registers vt.num_elems 0)
  else
    forLoop 1 self.m_length
      (fun i result => if result < self.get i then result else self.get i) (self.get 0)

end VectorImpl

/-- A streaming vector type of capacity 8: two registers of 4 lanes. -/
def sampleStream : VectorType := { num_elems := [4, 4], s_is_fixed := false }

/-- A fixed vector type of 6 elements: a register of 4 lanes and one of 2 lanes. -/
def sampleFixed : VectorType := { num_elems := [4, 2], s_is_fixed := true }

/-- A fixed vector type of 4 elements: one register of 4 lanes. -/
def sampleFixedFour : VectorType := { num_elems := [4], s_is_fixed := true }

/-- A vector of any type whose registers are all zero, with full length. -/
def sampleVectorZero (vt : VectorType) : VectorImpl Int vt :=
  VectorImpl.init (fun _ => Register.broadcast 0)

/-- A vector of any type whose register `k` holds `10*k + l + 1` in lane `l`, with full
length. -/
def sampleVectorIota (vt : VectorType) : VectorImpl Int vt :=
  VectorImpl.init (fun k l => ((10 * k + l + 1 : Nat) : Int))

end RAJA
namespace RAJA

namespace Register

variable {α : Type}

/-- Modelled from the spec: elementwise `multiply_add(b, c)` (§4.1): `(*this)*b + c` in every
lane. -/
def multiply_add [Add α] [Mul α] (x b c : Register α) : Register α :=
  fun i => x i * b i + c i

end Register

namespace TensorRegister

variable {α : Type} {t : TensorType}

/-- The constructor `TensorRegister(element_type c)`: `broadcast(c)` on the fresh object. -/
def init_scalar (fresh : TensorRegister α t) (c : α) : TensorRegister α t :=
  fresh.broadcast c

/-- `operator=(element_type value)`: `broadcast(value); return *this;`. -/
def assign_scalar (self : TensorRegister α t) (value : α) : TensorRegister α t :=
  self.broadcast value

/-- `multiply(mat)`, element-wise; `result` is the default-constructed local. -/
def multiply [Mul α] (self mat : TensorRegister α t) (result : TensorRegister α t) :
    TensorRegister α t :=
  forLoop 0 t.s_num_registers
    (fun i result =>
      result.setReg i (Register.multiply (self.m_registers i) (mat.m_registers i))) result

/-- `multiply_add(mat, add)`, element-wise fused multiply add; `result` is the
default-constructed local. -/
def multiply_add [Add α] [Mul α] (self mat add : TensorRegister α t)
    (result : TensorRegister α t) : TensorRegister α t :=
  forLoop 0 t.s_num_registers
    (fun i result =>
      result.setReg i
        (Register.multiply_add (self.m_registers i) (mat.m_registers i) (add.m_registers i)))
    result

/-- `add(mat)`; `result` is the default-constructed local. -/
def add [Add α] (self mat : TensorRegister α t) (result : TensorRegister α t) :
    TensorRegister α t :=
  forLoop 0 t.s_num_registers
    (fun i result =>
      result.setReg i (Register.add (self.m_registers i) (mat.m_registers i))) result

/-- `subtract(mat)`; `result` is the default-constructed local. -/
def subtract [Sub α] (self mat : TensorRegister α t) (result : TensorRegister α t) :
    TensorRegister α t :=
  forLoop 0 t.s_num_registers
    (fun i result =>
      result.setReg i (Register.subtract (self.m_registers i) (mat.m_registers i))) result

/-- `divide(mat)`; `result` is the default-constructed local. -/
def divide [Div α] (self mat : TensorRegister α t) (result : TensorRegister α t) :
    TensorRegister α t :=
  forLoop 0 t.s_num_registers
    (fun i result =>
      result.setReg i (Register.divide (self.m_registers i) (mat.m_registers i))) result

/-- `toString(one_line)`. `std::to_string` of the lane count is its decimal numeral;
`std::to_string` of an element is the parameter `to_string`. -/
def toString (to_string : α → String) (self : TensorRegister α t) (one_line : Bool) : String :=
  let s := "Matrix(" ++ Nat.repr t.s_register_width ++ "x" ++ Nat.repr t.s_register_width
  let s := if !one_line then s ++ ")\n" else s
  let s := s ++ "[ "
  let s := forLoop 0 t.s_register_width (fun r s =>
    let s := if r > 0 then
        (let s := s ++ ", "
         if !one_line then s ++ "\n  " else s)
      else s
    let s := s ++ "["
    let s := forLoop 0 t.s_register_width (fun c s =>
      let s := if c > 0 then s ++ ", " else s
      s ++ to_string (self.get r c)) s
    s ++ "]") s
  let s := s ++ " ]"
  if !one_line then s ++ "\n" else s

end TensorRegister

namespace VectorImpl

variable {α : Type} {vt : VectorType}

/-- `broadcast(value)`: every register broadcast, then `m_length = num_elem()`. -/
def broadcast (self : VectorImpl α vt) (value : α) : VectorImpl α vt :=
  { m_registers :=
      (forLoop 0 vt.num_registers (fun k v => v.setReg k (Register.broadcast value))
        self).m_registers
    m_length := vt.num_elem }

/-- The scalar constructor `VectorImpl(element_type const &c) : m_length(num_elem())
{ broadcast(c); }`; `fresh` are the default-constructed registers. -/
def init_scalar (fresh : Nat → Register α) (c : α) : VectorImpl α vt :=
  (init fresh : VectorImpl α vt).broadcast c

/-- The copy constructor `VectorImpl(self_type const &c)`. -/
def init_copy (c : VectorImpl α vt) : VectorImpl α vt :=
  { m_registers := c.m_registers, m_length := c.m_length }

/-- `copy(x)`: `m_registers = x.m_registers; m_length = x.m_length;`; also
`operator=(self_type const &x)`. -/
def copy (_self : VectorImpl α vt) (x : VectorImpl α vt) : VectorImpl α vt :=
  { m_registers := x.m_registers, m_length := x.m_length }

/-- `operator=(element_type value)`: `broadcast(value)`. -/
def assign_scalar (self : VectorImpl α vt) (value : α) : VectorImpl α vt :=
  self.broadcast value

/-- `operator+=(x)`: `*this = add(x)`. -/
def add_assign [Add α] (self x : VectorImpl α vt) (fresh : Nat → Register α) :
    VectorImpl α vt :=
  self.copy (self.add x fresh)

/-- `operator-=(x)`: `*this = subtract(x)`. -/
def subtract_assign [Sub α] (self x : VectorImpl α vt) (fresh : Nat → Register α) :
    VectorImpl α vt :=
  self.copy (self.subtract x fresh)

/-- `operator*=(x)`: `(*this) = multiply(x)`. -/
def multiply_assign [Mul α] (self x : VectorImpl α vt) (fresh : Nat → Register α) :
    VectorImpl α vt :=
  self.copy (self.multiply x fresh)

/-- `operator/=(x)`: `(*this) = divide(x)`. -/
def divide_assign [Div α] (self x : VectorImpl α vt) (fresh : Nat → Register α) :
    VectorImpl α vt :=
  self.copy (self.divide x fresh)

/-- Modelled from the spec: `operator*(x)` read as a vector. The source returns the product
reference `VectorProductRef<self_type>(*this, x)`, a class that is not among the sources;
converted to `self_type` (as in `dot`, and in the return of the scalar-left `operator*`) it is
the elementwise product of §4.2, `multiply(x)`. -/
def product [Mul α] (self x : VectorImpl α vt) (fresh : Nat → Register α) : VectorImpl α vt :=
  self.multiply x fresh

/-- `dot(x)`: `self_type z = (*this) * x; return z.sum();`. -/
def dot [Add α] [Mul α] [Zero α] (self x : VectorImpl α vt) (fresh : Nat → Register α) : α :=
  (self.product x fresh).sum

/-- The free `operator+(element_type x, VectorImpl const &y)`: `VectorImpl(x) + y`; `fresh` are
the default-constructed registers of the broadcast temporary, `fresh2` those of the result. -/
def scalar_add [Add α] (x : α) (y : VectorImpl α vt) (fresh fresh2 : Nat → Register α) :
    VectorImpl α vt :=
  (init_scalar fresh x : VectorImpl α vt).add y fresh2

/-- The free `operator-(element_type x, VectorImpl const &y)`: `VectorImpl(x) - y`. -/
def scalar_subtract [Sub α] (x : α) (y : VectorImpl α vt) (fresh fresh2 : Nat → Register α) :
    VectorImpl α vt :=
  (init_scalar fresh x : VectorImpl α vt).subtract y fresh2

/-- The free `operator*(element_type x, VectorImpl const &y)`: `VectorImpl(x) * y`, returned as
a vector. -/
def scalar_multiply [Mul α] (x : α) (y : VectorImpl α vt) (fresh fresh2 : Nat → Register α) :
    VectorImpl α vt :=
  (init_scalar fresh x : VectorImpl α vt).product y fresh2

/-- The free `operator/(element_type x, VectorImpl const &y)`: `VectorImpl(x) / y`. -/
def scalar_divide [Div α] (x : α) (y : VectorImpl α vt) (fresh fresh2 : Nat → Register α) :
    VectorImpl α vt :=
  (init_scalar fresh x : VectorImpl α vt).divide y fresh2

end VectorImpl

/-- Memory holding the array `{1,2,3,4,5,99,99,99}` from address 0 (and 99 beyond it). -/
def sampleArray : Memory Int := fun a => if a < 5 then a + 1 else 99

end RAJA
namespace RAJA

namespace Register

variable {α : Type}

/-- Modelled from the spec: `inplace_add(x)`, the in-place form of the elementwise `add` of
§4.1 (`*this = *this + x`); the value returned is the register after the call. -/
def inplace_add [Add α] (x y : Register α) : Register α := add x y

end Register

namespace TensorRegister

variable {α : Type} {t : TensorType}

/-- `right_multiply_vector_accumulate(acc, v)`: the value of `acc` after the call. The method is
`const` and takes `v` by value, so `acc` is the only object it writes. `result` is the
default-constructed local of `right_multiply_vector`. -/
def right_multiply_vector_accumulate [Add α] [Mul α] [Zero α] (self : TensorRegister α t)
    (acc v : Register α) (result : Register α) : Register α :=
  Register.inplace_add acc (self.right_multiply_vector v result)

/-- `left_multiply_vector_accumulate(acc, v)`: the value of `acc` after the call. The method is
`const` and takes `v` by value, so `acc` is the only object it writes. `result` is the
default-constructed local of `left_multiply_vector`. -/
def left_multiply_vector_accumulate [Add α] [Mul α] [Zero α] (self : TensorRegister α t)
    (acc v : Register α) (result : Register α) : Register α :=
  Register.inplace_add acc (self.left_multiply_vector v result)

/-- The first register index read by the loop body of `transpose()` for output register `i` at
level `lvl`: the expression `i - (i&(1<<lvl))`. -/
def transpose_index_low (lvl i : Nat) : Nat := i - (i &&& (1 <<< lvl))

/-- The second register index read by the loop body of `transpose()` for output register `i` at
level `lvl`: the expression `i - (i&(1<<lvl)) + (1<<lvl)`. -/
def transpose_index_high (lvl i : Nat) : Nat := i - (i &&& (1 <<< lvl)) + (1 <<< lvl)

/-- The level loop `for(lvl = 0; (1<<lvl) < num_elem; ++lvl)` of `transpose()` with its body
left out: the value of `lvl` when the loop started at `lvl` exits, within `fuel` iterations.
Started at 0 this is the number of levels the loop runs. -/
def transposeLevels (num_elem : Nat) : Nat → Nat → Nat
  | 0, lvl => lvl
  | fuel + 1, lvl =>
    if (1 <<< lvl) < num_elem then transposeLevels num_elem fuel (lvl + 1) else lvl

end TensorRegister

namespace VectorTypeHelper

/-- Modelled from the spec: `internal::list_of_n<T, N>`, the type list of `N` copies of `T`
(the helper template is not among the sources). -/
def list_of_n {β : Type} (x : β) (n : Nat) : List β := List.replicate n x

/-- `num_full_registers = VEC_NUM_ELEM / register_traits_t::num_elem()`; `W` is
`register_traits_t::num_elem()`. -/
def num_full_registers (W VEC_NUM_ELEM : Nat) : Nat := VEC_NUM_ELEM / W

/-- `num_partial_elem = VEC_NUM_ELEM - num_full_registers*register_traits_t::num_elem()`. -/
def num_partial_elem (W VEC_NUM_ELEM : Nat) : Nat :=
  VEC_NUM_ELEM - num_full_registers W VEC_NUM_ELEM * W

/-- `num_registers = num_full_registers + (num_partial_elem > 0 ? 1 : 0)`. -/
def num_registers (W VEC_NUM_ELEM : Nat) : Nat :=
  num_full_registers W VEC_NUM_ELEM + (if num_partial_elem W VEC_NUM_ELEM > 0 then 1 else 0)

/-- The lane count of `full_register_type = Register<REGISTER_POLICY, ELEMENT_TYPE>`. -/
def full_register_type (W : Nat) : Nat := W

/-- The lane count of `partial_register_type = Register<REGISTER_POLICY, ELEMENT_TYPE,
num_partial_elem ? num_partial_elem : 1>`. -/
def partial_register_type (W VEC_NUM_ELEM : Nat) : Nat :=
  if num_partial_elem W VEC_NUM_ELEM ≠ 0 then num_partial_elem W VEC_NUM_ELEM else 1

/-- `fixed_full_registers = internal::list_of_n<full_register_type, num_full_registers>`. -/
def fixed_full_registers (W VEC_NUM_ELEM : Nat) : List Nat :=
  list_of_n (full_register_type W) (num_full_registers W VEC_NUM_ELEM)

/-- `fixed_partial_register_list = camp::list<partial_register_type>`. -/
def fixed_partial_register_list (W VEC_NUM_ELEM : Nat) : List Nat :=
  [partial_register_type W VEC_NUM_ELEM]

/-- `fixed_register_list_t`: `fixed_full_registers` when `num_partial_elem == 0`, otherwise
`fixed_full_registers` extended by `fixed_partial_register_list`. -/
def fixed_register_list_t (W VEC_NUM_ELEM : Nat) : List Nat :=
  if num_partial_elem W VEC_NUM_ELEM = 0 then fixed_full_registers W VEC_NUM_ELEM
  else fixed_full_registers W VEC_NUM_ELEM ++ fixed_partial_register_list W VEC_NUM_ELEM

/-- `stream_register_list_t = list_of_n<full_register_type, num_registers>`. -/
def stream_register_list_t (W VEC_NUM_ELEM : Nat) : List Nat :=
  list_of_n (full_register_type W) (num_registers W VEC_NUM_ELEM)

/-- `fixed_type = VectorImpl<fixed_register_list_t, register_idx_seq_t, true>`. -/
def fixed_type (W VEC_NUM_ELEM : Nat) : VectorType :=
  { num_elems := fixed_register_list_t W VEC_NUM_ELEM, s_is_fixed := true }

/-- `stream_type = VectorImpl<stream_register_list_t, register_idx_seq_t, false>`. -/
def stream_type (W VEC_NUM_ELEM : Nat) : VectorType :=
  { num_elems := stream_register_list_t W VEC_NUM_ELEM, s_is_fixed := false }

end VectorTypeHelper

/-! ## CUDA `forall` (`policy/cuda/forall.hpp`) -/

namespace impl

/-- CUDA's `dim3` (also `uint3`): three `unsigned int` components. -/
structure dim3 where
  x : Nat
  y : Nat
  z : Nat
  deriving DecidableEq, Repr

/-- The value of an `unsigned int` expression: 32-bit arithmetic wraps modulo `2^32`. -/
def uint (n : Nat) : Nat := n % 2 ^ 32

/-- The conversion of an integer to `dim3` in a launch configuration: `dim3(n)` is
`(n, 1, 1)` with `n` converted to `unsigned int`. -/
def dim3.ofNat (n : Nat) : dim3 := { x := uint n, y := 1, z := 1 }

namespace INTERNAL

/-- `getGlobalIdx_1D_1D()`, as a function of the built-in variables `blockDim`, `blockIdx` and
`threadIdx` of the calling thread. -/
def getGlobalIdx_1D_1D (blockDim blockIdx threadIdx : dim3) : Nat :=
  let blockId := blockIdx.x
  let threadId := uint (uint (blockId * blockDim.x) + threadIdx.x)
  threadId

/-- `getGlobalNumThreads_1D_1D()`. -/
def getGlobalNumThreads_1D_1D (gridDim blockDim : dim3) : Nat :=
  let numThreads := uint (blockDim.x * gridDim.x)
  numThreads

/-- `getGlobalIdx_3D_3D()`, as a function of `gridDim`, `blockDim`, `blockIdx` and `threadIdx`;
every `unsigned int` operation of the source expression wraps separately. -/
def getGlobalIdx_3D_3D (gridDim blockDim blockIdx threadIdx : dim3) : Nat :=
  let blockId :=
    uint (uint (blockIdx.x + uint (blockIdx.y * gridDim.x)) +
      uint (uint (gridDim.x * gridDim.y) * blockIdx.z))
  let threadId :=
    uint (uint (uint (uint (blockId * uint (uint (blockDim.x * blockDim.y) * blockDim.z)) +
      uint (threadIdx.z * uint (blockDim.x * blockDim.y))) +
      uint (threadIdx.y * blockDim.x)) + threadIdx.x)
  threadId

/-- `getGlobalNumThreads_3D_3D()`. -/
def getGlobalNumThreads_3D_3D (gridDim blockDim : dim3) : Nat :=
  let numThreads :=
    uint (uint (uint (uint (uint (blockDim.x * blockDim.y) * blockDim.z) * gridDim.x) *
      gridDim.y) * gridDim.z)
  numThreads

end INTERNAL

/-- `forall_cuda_kernel(loop_body, idx, length)` as run by the thread with the given built-in
variables: the state after the thread. The iterator `idx` is the map from position to element,
the body acts on a state `σ`. -/
def forall_cuda_kernel {ι σ : Type} (loop_body : ι → σ → σ) (idx : Nat → ι) (length : Int)
    (blockDim blockIdx threadIdx : dim3) (s : σ) : σ :=
  let body := loop_body
  let ii : Int := (INTERNAL.getGlobalIdx_1D_1D blockDim blockIdx threadIdx : Nat)
  if ii < length then body (idx ii.toNat) s else s

/-- The CUDA execution of `kernel<<<gridDim, blockDim>>>(...)`: the kernel runs once for every
block index below `gridDim` and every thread index below `blockDim`. The threads are taken one
after the other, blocks and threads in increasing order, `x` fastest. -/
def cudaLaunch {σ : Type} (gridDim blockDim : dim3) (kernel : dim3 → dim3 → dim3 → σ → σ)
    (s : σ) : σ :=
  forLoop 0 gridDim.z (fun blkz s =>
    forLoop 0 gridDim.y (fun blky s =>
      forLoop 0 gridDim.x (fun blkx s =>
        forLoop 0 blockDim.z (fun tz s =>
          forLoop 0 blockDim.y (fun ty s =>
            forLoop 0 blockDim.x (fun tx s =>
              kernel blockDim { x := blkx, y := blky, z := blkz }
                { x := tx, y := ty, z := tz } s) s) s) s) s) s) s

/-- Modelled from the spec: the macro `RAJA_DIVIDE_CEILING_INT(dividend, divisor)` of
`RAJA/util/defines.hpp` (not among the sources), the quotient rounded up,
`(dividend + divisor - 1) / divisor`. -/
def RAJA_DIVIDE_CEILING_INT (dividend divisor : Nat) : Nat :=
  (dividend + divisor - 1) / divisor

/-- `forall(cuda_exec<BLOCK_SIZE, Async>, iter, loop_body)`: the state after the call. The
iterable is given by `idx` (`std::begin(iter)`, as the map from position to element) and `len`
(`std::distance(begin, end)`). `RAJA_CUDA_LAUNCH_PARAMS(gridSize, BLOCK_SIZE)` (a macro that is
not among the sources) is the launch configuration `gridSize, BLOCK_SIZE`, each converted to
`dim3`; the launch bookkeeping, the fault-tolerance markers and the synchronisation do not act
on the state. -/
def forall_cuda_exec {ι σ : Type} (BLOCK_SIZE : Nat) (idx : Nat → ι) (len : Int)
    (loop_body : ι → σ → σ) (s : σ) : σ :=
  if len > 0 ∧ BLOCK_SIZE > 0 then
    let gridSize := RAJA_DIVIDE_CEILING_INT len.toNat BLOCK_SIZE
    cudaLaunch (dim3.ofNat gridSize) (dim3.ofNat BLOCK_SIZE)
      (forall_cuda_kernel loop_body idx len) s
  else
    s

/-- A loop body that records the element it is invoked with. -/
def recordBody (i : Nat) (trace : List Nat) : List Nat := trace ++ [i]

end impl

end RAJA
namespace RAJA
namespace impl

/-- The index `idx` (a `blockIdx` or `threadIdx`) lies within the extents `dims` (the `gridDim`
or `blockDim`), as CUDA provides. -/
def dim3.within (idx dims : dim3) : Prop := idx.x < dims.x ∧ idx.y < dims.y ∧ idx.z < dims.z

instance (idx dims : dim3) : Decidable (dim3.within idx dims) := by
  unfold dim3.within; infer_instance

/-- The number of threads of a launch: `blockDim.x * blockDim.y * blockDim.z * gridDim.x *
gridDim.y * gridDim.z`, without wrap. -/
def dim3.numThreads (gridDim blockDim : dim3) : Nat :=
  blockDim.x * blockDim.y * blockDim.z * gridDim.x * gridDim.y * gridDim.z

end impl
end RAJA
namespace RAJA

theorem forLoop_empty {σ : Type} (lo hi : Nat) (h : hi ≤ lo) (body : Nat → σ → σ) (s : σ) :
    forLoop lo hi body s = s := by
  simp [forLoop, Nat.sub_eq_zero_of_le h]

theorem forLoop_succ {σ : Type} (lo hi : Nat) (h : lo ≤ hi) (body : Nat → σ → σ) (s : σ) :
    forLoop lo (hi + 1) body s = body hi (forLoop lo hi body s) := by
  unfold forLoop
  have e : hi + 1 - lo = (hi - lo) + 1 := by omega
  rw [e, List.range'_concat, List.foldl_append]
  have e2 : lo + (hi - lo) = hi := by omega
  simp [e2]

theorem forLoop_frame {σ β : Type} (obs : σ → β) (body : Nat → σ → σ) (lo : Nat) :
    ∀ (hi : Nat), (∀ i, lo ≤ i → i < hi → ∀ s, obs (body i s) = obs s) →
      ∀ s, obs (forLoop lo hi body s) = obs s := by
  intro hi
  induction hi with
  | zero => intro _ s; rw [forLoop_empty _ _ (Nat.zero_le _)]
  | succ n ih =>
    intro h s
    by_cases hn : lo ≤ n
    · rw [forLoop_succ _ _ hn, h n hn (Nat.lt_succ_self n)]
      exact ih (fun i hi1 hi2 => h i hi1 (Nat.lt_succ_of_lt hi2)) s
    · rw [forLoop_empty _ _ (by omega)]

theorem forLoop_hit {σ β : Type} (obs : σ → β) (body : Nat → σ → σ) (lo k : Nat) (v : β)
    (hlo : lo ≤ k) (hhit : ∀ s, obs (body k s) = v) :
    ∀ (hi : Nat), k < hi → (∀ i, k < i → i < hi → ∀ s, obs (body i s) = obs s) →
      ∀ s, obs (forLoop lo hi body s) = v := by
  intro hi
  induction hi with
  | zero => intro hk; omega
  | succ n ih =>
    intro hk h s
    have hn : lo ≤ n := by omega
    rw [forLoop_succ _ _ hn]
    by_cases hkn : k = n
    · subst hkn; exact hhit _
    · rw [h n (by omega) (Nat.lt_succ_self n)]
      exact ih (by omega) (fun i hi1 hi2 => h i hi1 (Nat.lt_succ_of_lt hi2)) s

theorem and_one_shiftLeft (r lvl : Nat) : r &&& (1 <<< lvl) = 2 ^ lvl * (r / 2 ^ lvl % 2) := by
  apply Nat.eq_of_testBit_eq
  intro i
  rw [Nat.testBit_and, Nat.one_shiftLeft, Nat.testBit_two_pow]
  rcases Nat.mod_two_eq_zero_or_one (r / 2 ^ lvl) with h | h
  · rw [h]
    by_cases e : lvl = i
    · subst e; simp [Nat.testBit_to_div_mod, h]
    · simp [e]
  · rw [h, Nat.mul_one, Nat.testBit_two_pow]
    by_cases e : lvl = i
    · subst e; simp [Nat.testBit_to_div_mod, h]
    · simp [e]

namespace TensorRegister

variable {α : Type} {t : TensorType}

theorem setReg_m_registers (A : TensorRegister α t) (i : Nat) (v : Register α) (k : Nat) :
    (A.setReg i v).m_registers k = if k = i then v else A.m_registers k := by
  simp [setReg, Function.update_apply]

/-- A register-filling loop `for i in [lo, hi): m_registers[i] = f i`, read back at register
`k`. -/
theorem forLoop_setReg (f : Nat → Register α) (lo hi : Nat) (A : TensorRegister α t) (k : Nat) :
    (forLoop lo hi (fun i m => m.setReg i (f i)) A).m_registers k =
      if lo ≤ k ∧ k < hi then f k else A.m_registers k := by
  split_ifs with h
  · exact forLoop_hit (fun m : TensorRegister α t => m.m_registers k) _ lo k (f k) h.1
      (fun s => by simp [setReg_m_registers]) hi h.2
      (fun i hi1 _ s => by simp [setReg_m_registers]; omega) A
  · exact forLoop_frame (fun m : TensorRegister α t => m.m_registers k) _ lo hi
      (fun i hi1 hi2 s => by simp [setReg_m_registers]; omega) A

theorem transposeLevel_m_registers (lvl : Nat) (vals tmp : TensorRegister α t) (r l : Nat) :
    (transposeLevel lvl vals tmp).m_registers r l =
      if r < t.s_num_registers then
        if r / 2 ^ lvl % 2 = 0 then
          if l / 2 ^ lvl % 2 = 0 then vals.m_registers (r - 2 ^ lvl * (r / 2 ^ lvl % 2)) l
          else vals.m_registers (r - 2 ^ lvl * (r / 2 ^ lvl % 2) + 2 ^ lvl) (l - 2 ^ lvl)
        else
          if l / 2 ^ lvl % 2 = 0 then
            vals.m_registers (r - 2 ^ lvl * (r / 2 ^ lvl % 2)) (2 ^ lvl + l)
          else vals.m_registers (r - 2 ^ lvl * (r / 2 ^ lvl % 2) + 2 ^ lvl) l
      else tmp.m_registers r l := by
  have key : transposeLevel lvl vals tmp =
      forLoop 0 t.s_num_registers (fun i m => m.setReg i
        (if (i >>> lvl) &&& 1 = 0 then
          Register.transpose_shuffle_left lvl
            (vals.m_registers (i - (i &&& (1 <<< lvl))))
            (vals.m_registers (i - (i &&& (1 <<< lvl)) + (1 <<< lvl)))
        else
          Register.transpose_shuffle_right lvl
            (vals.m_registers (i - (i &&& (1 <<< lvl))))
            (vals.m_registers (i - (i &&& (1 <<< lvl)) + (1 <<< lvl))))) tmp := by
    unfold transposeLevel
    congr 1
    funext i m
    split_ifs <;> rfl
  rw [key, forLoop_setReg]
  simp only [and_one_shiftLeft]
  simp only [Nat.zero_le, true_and, Nat.shiftRight_eq_div_pow,
    Nat.and_one_is_mod, Nat.one_shiftLeft]
  by_cases hr : r < t.s_num_registers
  · simp only [hr, if_true]
    by_cases hb : r / 2 ^ lvl % 2 = 0
    · simp only [hb, if_true, Register.transpose_shuffle_left, Nat.shiftRight_eq_div_pow,
        Nat.and_one_is_mod, Nat.one_shiftLeft]
    · simp only [hb, if_false, Register.transpose_shuffle_right, Nat.shiftRight_eq_div_pow,
        Nat.and_one_is_mod, Nat.one_shiftLeft]
  · simp only [hr, if_false]

/-- One transpose level swaps bit `lvl` of the register index with bit `lvl` of the lane. -/
theorem transposeLevel_swap (lvl : Nat) (vals tmp : TensorRegister α t) (r l : Nat)
    (hr : r < t.s_num_registers) :
    (transposeLevel lvl vals tmp).m_registers r l =
      vals.m_registers (r + 2 ^ lvl * (l / 2 ^ lvl % 2) - 2 ^ lvl * (r / 2 ^ lvl % 2))
        (l + 2 ^ lvl * (r / 2 ^ lvl % 2) - 2 ^ lvl * (l / 2 ^ lvl % 2)) := by
  rw [transposeLevel_m_registers, if_pos hr]
  rcases Nat.mod_two_eq_zero_or_one (r / 2 ^ lvl) with h | h <;>
    rcases Nat.mod_two_eq_zero_or_one (l / 2 ^ lvl) with h2 | h2
  · simp [h, h2]
  · have hl : 2 ^ lvl ≤ l := by
      by_contra hc
      rw [Nat.div_eq_of_lt (Nat.lt_of_not_le hc)] at h2
      simp at h2
    simp [h, h2]
  · have hl : 2 ^ lvl ≤ r := by
      by_contra hc
      rw [Nat.div_eq_of_lt (Nat.lt_of_not_le hc)] at h
      simp at h
    simp [h, h2, Nat.add_comm]
  · have hl : 2 ^ lvl ≤ r := by
      by_contra hc
      rw [Nat.div_eq_of_lt (Nat.lt_of_not_le hc)] at h
      simp at h
    simp [h, h2, Nat.sub_add_cancel hl]

theorem transpose_width_eight (ht : t.s_register_width = 8) (hN : 8 ∣ t.s_num_registers)
    (A tmp : TensorRegister α t) (r l : Nat) (hr : r < t.s_num_registers) (hl : l < 8) :
    (A.transpose tmp).m_registers r l = A.m_registers (r / 8 * 8 + l) (r % 8) := by
  obtain ⟨q, hq⟩ := hN
  simp only [transpose, ht, transposeFrom, Nat.reduceShiftLeft, Nat.reduceLT, Nat.reduceAdd,
    if_true, if_false, Nat.lt_irrefl]
  rw [transposeLevel_swap 2 _ _ _ _ hr]
  simp only [Nat.reducePow]
  rw [transposeLevel_swap 1 _ _ _ _ (by omega)]
  simp only [Nat.reducePow]
  rw [transposeLevel_swap 0 _ _ _ _ (by omega)]
  simp only [Nat.reducePow]
  congr 1 <;> omega

theorem transpose_width_four (ht : t.s_register_width = 4) (hN : 4 ∣ t.s_num_registers)
    (A tmp : TensorRegister α t) (r l : Nat) (hr : r < t.s_num_registers) (hl : l < 4) :
    (A.transpose tmp).m_registers r l = A.m_registers (r / 4 * 4 + l) (r % 4) := by
  obtain ⟨q, hq⟩ := hN
  simp only [transpose, ht, transposeFrom, Nat.reduceShiftLeft, Nat.reduceLT, Nat.reduceAdd,
    if_true, if_false, Nat.lt_irrefl]
  rw [transposeLevel_swap 1 _ _ _ _ hr]
  simp only [Nat.reducePow]
  rw [transposeLevel_swap 0 _ _ _ _ (by omega)]
  simp only [Nat.reducePow]
  congr 1 <;> omega

theorem transpose_width_two (ht : t.s_register_width = 2) (hN : 2 ∣ t.s_num_registers)
    (A tmp : TensorRegister α t) (r l : Nat) (hr : r < t.s_num_registers) (hl : l < 2) :
    (A.transpose tmp).m_registers r l = A.m_registers (r / 2 * 2 + l) (r % 2) := by
  obtain ⟨q, hq⟩ := hN
  simp only [transpose, ht, transposeFrom, Nat.reduceShiftLeft, Nat.reduceLT, Nat.reduceAdd,
    if_true, if_false, Nat.lt_irrefl]
  rw [transposeLevel_swap 0 _ _ _ _ hr]
  simp only [Nat.reducePow]
  congr 1 <;> omega

theorem transpose_width_one (ht : t.s_register_width = 1)
    (A tmp : TensorRegister α t) (r l : Nat) (hl : l < 1) :
    (A.transpose tmp).m_registers r l = A.m_registers (r / 1 * 1 + l) (r % 1) := by
  simp only [transpose, ht, transposeFrom, Nat.reduceShiftLeft, Nat.lt_irrefl, if_false]
  congr 1 <;> omega

/-- For the supported widths and a register count that is a multiple of the width, `transpose()`
transposes every aligned block of `W` registers: lane `l` of register `r` comes from lane
`r % W` of register `(r / W) * W + l`. -/
theorem transpose_m_registers
    (hW : t.s_register_width = 1 ∨ t.s_register_width = 2 ∨ t.s_register_width = 4 ∨
      t.s_register_width = 8)
    (hN : t.s_register_width ∣ t.s_num_registers)
    (A tmp : TensorRegister α t) (r l : Nat) (hr : r < t.s_num_registers)
    (hl : l < t.s_register_width) :
    (A.transpose tmp).m_registers r l =
      A.m_registers (r / t.s_register_width * t.s_register_width + l)
        (r % t.s_register_width) := by
  rcases hW with h | h | h | h
  · rw [h] at hl ⊢; exact transpose_width_one h A tmp r l hl
  · rw [h] at hl hN ⊢; exact transpose_width_two h hN A tmp r l hr hl
  · rw [h] at hl hN ⊢; exact transpose_width_four h hN A tmp r l hr hl
  · rw [h] at hl hN ⊢; exact transpose_width_eight h hN A tmp r l hr hl

theorem transposeFrom_succ (tmp : TensorRegister α t) (fuel lvl : Nat)
    (result : TensorRegister α t) :
    transposeFrom tmp (fuel + 1) lvl result =
      if (1 <<< lvl) < t.s_register_width then
        transposeFrom tmp fuel (lvl + 1) (transposeLevel lvl result tmp)
      else result := rfl

/-- The level loop of `transpose()` leaves through its own condition `(1<<lvl) < num_elem`:
once `num_elem ≤ lvl + fuel`, one more unit of fuel changes nothing. -/
theorem transposeFrom_fuel (tmp : TensorRegister α t) :
    ∀ (fuel lvl : Nat) (result : TensorRegister α t), t.s_register_width ≤ lvl + fuel →
      transposeFrom tmp (fuel + 1) lvl result = transposeFrom tmp fuel lvl result := by
  intro fuel
  induction fuel with
  | zero =>
    intro lvl result h
    have h2 : ¬ (1 <<< lvl < t.s_register_width) := by
      rw [Nat.one_shiftLeft]
      have := Nat.lt_two_pow lvl
      omega
    simp [transposeFrom, h2]
  | succ n ih =>
    intro lvl result h
    rw [transposeFrom_succ tmp (n + 1) lvl result, transposeFrom_succ tmp n lvl result]
    split_ifs with hc
    · exact ih (lvl + 1) _ (by omega)
    · rfl

/-- Any fuel from `num_elem` upwards gives the result of `transpose()`. -/
theorem transposeFrom_fuel_add (A tmp : TensorRegister α t) (n : Nat) :
    transposeFrom tmp (t.s_register_width + n) 0 A = A.transpose tmp := by
  induction n with
  | zero => rfl
  | succ n ih =>
    rw [← ih]
    exact transposeFrom_fuel tmp (t.s_register_width + n) 0 A (by omega)

theorem square_num_registers (hR : t.ROW_SIZE = t.s_register_width)
    (hC : t.COL_SIZE = t.s_register_width) : t.s_num_registers = t.s_register_width := by
  unfold TensorType.s_num_registers
  rw [hR, hC]
  rcases Nat.eq_zero_or_pos t.s_register_width with h | h
  · rw [h]
  · exact Nat.mul_div_cancel _ h

/-- C1. Transpose equivalence: for register width `W` in {1,2,4,8} and a `W x W` matrix of either
layout (one register per row or column), `A.transpose().get(i,j) == A.get(j,i)` for all
`i, j < W`, over the shuffle primitives of the Register contract. -/
theorem transpose_get
    (hW : t.s_register_width = 1 ∨ t.s_register_width = 2 ∨ t.s_register_width = 4 ∨
      t.s_register_width = 8)
    (hR : t.ROW_SIZE = t.s_register_width) (hC : t.COL_SIZE = t.s_register_width)
    (A tmp : TensorRegister α t) (i j : Nat)
    (hi : i < t.s_register_width) (hj : j < t.s_register_width) :
    (A.transpose tmp).get i j = A.get j i := by
  have hN := square_num_registers hR hC
  have hdvd : t.s_register_width ∣ t.s_num_registers := by rw [hN]
  have key : ∀ r l, r < t.s_register_width → l < t.s_register_width →
      (A.transpose tmp).m_registers r l = A.m_registers l r := by
    intro r l hr hl
    rw [transpose_m_registers hW hdvd A tmp r l (by rw [hN]; exact hr) hl,
      Nat.div_eq_of_lt hr, Nat.mod_eq_of_lt hr, Nat.zero_mul, Nat.zero_add]
  unfold get Register.get
  split_ifs
  · exact key i j hi hj
  · exact key j i hj hi

/-- C2. Transpose involution: for register width `W` in {1,2,4,8} and a register count `N` that
is a multiple of `W`, `A.transpose().transpose()` equals `A` register by register, lane by
lane. -/
theorem transpose_transpose
    (hW : t.s_register_width = 1 ∨ t.s_register_width = 2 ∨ t.s_register_width = 4 ∨
      t.s_register_width = 8)
    (hN : t.s_register_width ∣ t.s_num_registers)
    (A tmp tmp2 : TensorRegister α t) (k l : Nat) (hk : k < t.s_num_registers)
    (hl : l < t.s_register_width) :
    ((A.transpose tmp).transpose tmp2).m_registers k l = A.m_registers k l := by
  have hpos : 0 < t.s_register_width := by omega
  have hk2 : k / t.s_register_width * t.s_register_width + l < t.s_num_registers := by
    obtain ⟨q, hq⟩ := hN
    rw [hq, Nat.mul_comm] at hk
    have h1 : k / t.s_register_width < q := Nat.div_lt_of_lt_mul (by rwa [Nat.mul_comm] at hk)
    calc k / t.s_register_width * t.s_register_width + l
        < k / t.s_register_width * t.s_register_width + t.s_register_width := by omega
      _ = (k / t.s_register_width + 1) * t.s_register_width := by ring
      _ ≤ q * t.s_register_width := Nat.mul_le_mul_right _ h1
      _ = t.s_num_registers := by rw [hq, Nat.mul_comm]
  rw [transpose_m_registers hW hN _ tmp2 k l hk hl,
    transpose_m_registers hW hN A tmp _ _ hk2 (Nat.mod_lt _ hpos)]
  have e1 : (k / t.s_register_width * t.s_register_width + l) / t.s_register_width =
      k / t.s_register_width := by
    rw [Nat.add_comm, Nat.add_mul_div_right _ _ hpos, Nat.div_eq_of_lt hl, Nat.zero_add]
  have e2 : (k / t.s_register_width * t.s_register_width + l) % t.s_register_width = l := by
    rw [Nat.add_comm, Nat.add_mul_mod_self_right, Nat.mod_eq_of_lt hl]
  rw [e1, e2, Nat.mul_comm, Nat.div_add_mod]

theorem dot_eq_sum [CommSemiring α] (W : Nat) (x y : Register α) :
    Register.dot W x y = ∑ j ∈ Finset.range W, x j * y j := by
  unfold Register.dot
  induction W with
  | zero => simp [forLoop_empty]
  | succ n ih => rw [forLoop_succ _ _ (Nat.zero_le n), ih, Finset.sum_range_succ]

theorem accumulate_scaled [CommSemiring α] (regs : Nat → Register α) (v : Register α)
    (n l : Nat) :
    (forLoop 0 n (fun i result =>
        Register.add result (Register.scale (regs i) (Register.get v i)))
      (Register.broadcast 0)) l = ∑ i ∈ Finset.range n, regs i l * v i := by
  induction n with
  | zero => simp [forLoop_empty, Register.broadcast]
  | succ n ih =>
    rw [forLoop_succ _ _ (Nat.zero_le n), Finset.sum_range_succ, ← ih]
    simp [Register.add, Register.scale, Register.multiply, Register.broadcast, Register.get]

/-- C3. Matrix-vector consistency: for a `W x W` matrix `A` (one register per row when row-major,
one per column when column-major) and every vector `v` of `W` lanes,
`A.right_multiply_vector(v).get(i) == sum over j in [0,W) of A.get(i,j) * v.get(j)` for every
`i < W`, for both layouts, in exact arithmetic. -/
theorem right_multiply_vector_get [CommSemiring α]
    (hR : t.ROW_SIZE = t.s_register_width) (hC : t.COL_SIZE = t.s_register_width)
    (A : TensorRegister α t) (v result : Register α) (i : Nat) (hi : i < t.s_register_width) :
    Register.get (A.right_multiply_vector v result) i =
      ∑ j ∈ Finset.range t.s_register_width, A.get i j * Register.get v j := by
  have hN := square_num_registers hR hC
  unfold right_multiply_vector get
  rw [hN]
  by_cases hrm : t.layout.is_row_major = true
  · simp only [hrm, if_true]
    have h := forLoop_hit (fun r : Register α => r i)
      (fun i result =>
        Register.set result (Register.dot t.s_register_width v (A.m_registers i)) i)
      0 i (Register.dot t.s_register_width v (A.m_registers i)) (Nat.zero_le i)
      (fun s => by simp [Register.set]) t.s_register_width hi
      (fun k hk1 _ s => by
        have hne : i ≠ k := by omega
        simp [Register.set, Function.update_noteq hne]) result
    simp only [Register.get]
    rw [h, dot_eq_sum]
    exact Finset.sum_congr rfl (fun j _ => mul_comm _ _)
  · simp only [hrm]
    simp only [Register.get, Bool.false_eq_true, if_false]
    exact accumulate_scaled A.m_registers v t.s_register_width i

theorem store_packed_n_eq_strided (x : Register α) (ptr : Int) (n : Nat) (mem : Memory α) :
    Register.store_packed_n x ptr n mem = Register.store_strided_n x ptr 1 n mem := by
  simp [Register.store_packed_n, Register.store_strided_n]

theorem load_packed_eq_strided (mem : Memory α) (ptr : Int) :
    Register.load_packed mem ptr = Register.load_strided mem ptr 1 := by
  funext i
  simp [Register.load_packed, Register.load_strided]

theorem load_packed_n_eq_strided [Zero α] (mem : Memory α) (ptr : Int) (n : Nat) :
    Register.load_packed_n mem ptr n = Register.load_strided_n mem ptr 1 n := by
  funext i
  simp [Register.load_packed_n, Register.load_strided_n]

/-- A register store leaves every address it does not write. -/
theorem store_strided_n_frame (x : Register α) (ptr stride : Int) (n : Nat) (mem : Memory α)
    (a : Int) (h : ∀ l, l < n → ptr + (l : Int) * stride ≠ a) :
    Register.store_strided_n x ptr stride n mem a = mem a := by
  unfold Register.store_strided_n
  exact forLoop_frame (fun m : Memory α => m a) _ 0 n
    (fun i _ hi s => by
      show Function.update s (ptr + (i : Int) * stride) (x i) a = s a
      exact Function.update_noteq (Ne.symm (h i hi)) _ _) mem

/-- A register store puts lane `l` at its address, provided no later lane is written there. -/
theorem store_strided_n_hit (x : Register α) (ptr stride : Int) (n : Nat) (mem : Memory α)
    (l : Nat) (hl : l < n)
    (h : ∀ k, l < k → k < n → ptr + (k : Int) * stride ≠ ptr + (l : Int) * stride) :
    Register.store_strided_n x ptr stride n mem (ptr + (l : Int) * stride) = x l := by
  unfold Register.store_strided_n
  exact forLoop_hit (fun m : Memory α => m (ptr + (l : Int) * stride)) _ 0 l (x l)
    (Nat.zero_le l)
    (fun s => by
      show Function.update s (ptr + (l : Int) * stride) (x l) (ptr + (l : Int) * stride) = x l
      exact Function.update_same _ _ _) n hl
    (fun k hk1 hk2 s => by
      show Function.update s (ptr + (k : Int) * stride) (x k) (ptr + (l : Int) * stride) =
        s (ptr + (l : Int) * stride)
      exact Function.update_noteq (Ne.symm (h k hk1 hk2)) _ _) mem

/-- Storing `n` registers of `w` lanes, register `k` at `ptr + k*so` with lane stride `si`:
when the `n*w` addresses are pairwise distinct, lane `l` of register `k` is found at
`ptr + k*so + l*si`. -/
theorem store_registers_hit (regs : Nat → Register α) (ptr so si : Int) (n w : Nat)
    (mem : Memory α)
    (hd : ∀ k, k < n → ∀ k2, k2 < n → ∀ l, l < w → ∀ l2, l2 < w →
      (k : Int) * so + (l : Int) * si = (k2 : Int) * so + (l2 : Int) * si → k = k2 ∧ l = l2)
    (k l : Nat) (hk : k < n) (hl : l < w) :
    forLoop 0 n (fun i m => Register.store_strided_n (regs i) (ptr + (i : Int) * so) si w m) mem
      (ptr + (k : Int) * so + (l : Int) * si) = regs k l := by
  refine forLoop_hit (fun m : Memory α => m (ptr + (k : Int) * so + (l : Int) * si)) _ 0 k
    (regs k l) (Nat.zero_le k) (fun s => ?_) n hk (fun i hi1 hi2 s => ?_) mem
  · exact store_strided_n_hit (regs k) (ptr + (k : Int) * so) si w s l hl
      (fun l2 h1 h2 heq => by
        have := hd k hk k hk l2 h2 l hl (by linarith)
        omega)
  · exact store_strided_n_frame (regs i) (ptr + (i : Int) * so) si w s _
      (fun l2 h2 heq => by
        have := hd i hi2 k hk l2 h2 l hl (by linarith)
        omega)

/-- Storing registers leaves every address outside the written set. -/
theorem store_registers_frame (regs : Nat → Register α) (ptr so si : Int) (n w : Nat)
    (mem : Memory α) (a : Int)
    (h : ∀ k, k < n → ∀ l, l < w → ptr + (k : Int) * so + (l : Int) * si ≠ a) :
    forLoop 0 n (fun i m => Register.store_strided_n (regs i) (ptr + (i : Int) * so) si w m) mem
      a = mem a := by
  refine forLoop_frame (fun m : Memory α => m a) _ 0 n (fun i _ hi s => ?_) mem
  exact store_strided_n_frame (regs i) (ptr + (i : Int) * so) si w s a (fun l hl => h i hi l hl)

/-- With one register per row (row-major) or per column (column-major) the register count is
the extent of the other dimension. -/
theorem one_register_per_dim (hW : 0 < t.s_register_width)
    (h1 : t.s_reg_matrix_size = t.s_register_width) :
    t.s_num_registers = if t.layout.is_row_major then t.ROW_SIZE else t.COL_SIZE := by
  unfold TensorType.s_num_registers
  unfold TensorType.s_reg_matrix_size at h1
  split_ifs with h
  · rw [if_pos h] at h1
    rw [h1]; exact Nat.mul_div_cancel _ hW
  · rw [if_neg h] at h1
    rw [h1]; exact Nat.mul_div_cancel_left _ hW

/-- C6. Strided full-tile round trip: for a matrix with one register per row (row-major) or per
column (column-major) and strides addressing distinct locations,
`x.store_strided(ptr, row_stride, col_stride)` writes `x.get(i,j)` to
`ptr[i*row_stride + j*col_stride]` for all valid `(i,j)`, and
`y.load_strided(ptr, row_stride, col_stride)` then gives `y == x`, register by register, for
both layouts. -/
theorem store_strided_load_strided (hW : 0 < t.s_register_width)
    (h1 : t.s_reg_matrix_size = t.s_register_width)
    (x y : TensorRegister α t) (ptr row_stride col_stride : Int) (mem : Memory α)
    (hd : ∀ i, i < t.ROW_SIZE → ∀ i2, i2 < t.ROW_SIZE → ∀ j, j < t.COL_SIZE →
      ∀ j2, j2 < t.COL_SIZE →
      (i : Int) * row_stride + (j : Int) * col_stride =
        (i2 : Int) * row_stride + (j2 : Int) * col_stride → i = i2 ∧ j = j2) :
    (∀ i j, i < t.ROW_SIZE → j < t.COL_SIZE →
      x.store_strided ptr row_stride col_stride mem
        (ptr + (i : Int) * row_stride + (j : Int) * col_stride) = x.get i j) ∧
    (∀ k l, k < t.s_num_registers → l < t.s_register_width →
      (y.load_strided (x.store_strided ptr row_stride col_stride mem)
        ptr row_stride col_stride).m_registers k l = x.m_registers k l) := by
  have hN := one_register_per_dim hW h1
  unfold TensorType.s_reg_matrix_size at h1
  by_cases hrm : t.layout.is_row_major = true
  · rw [if_pos hrm] at h1 hN
    have hd2 : ∀ k, k < t.s_num_registers → ∀ k2, k2 < t.s_num_registers →
        ∀ l, l < t.s_register_width → ∀ l2, l2 < t.s_register_width →
        (k : Int) * row_stride + (l : Int) * col_stride =
          (k2 : Int) * row_stride + (l2 : Int) * col_stride → k = k2 ∧ l = l2 := by
      intro k hk k2 hk2 l hl l2 hl2 he
      exact hd k (hN ▸ hk) k2 (hN ▸ hk2) l (h1 ▸ hl) l2 (h1 ▸ hl2) he
    have hs : ∀ k l, k < t.s_num_registers → l < t.s_register_width →
        x.store_strided ptr row_stride col_stride mem
          (ptr + (k : Int) * row_stride + (l : Int) * col_stride) = x.m_registers k l := by
      intro k l hk hl
      simp only [store_strided, hrm, if_true, Register.store_strided]
      exact store_registers_hit x.m_registers ptr row_stride col_stride _ _ mem hd2 k l hk hl
    refine ⟨fun i j hi hj => ?_, fun k l hk hl => ?_⟩
    · rw [hs i j (hN ▸ hi) (h1 ▸ hj)]
      simp [get, hrm, Register.get]
    · simp only [load_strided, hrm, if_true, forLoop_setReg, Nat.zero_le, true_and, hk,
        Register.load_strided]
      exact hs k l hk hl
  · rw [if_neg hrm] at h1 hN
    have hd2 : ∀ k, k < t.s_num_registers → ∀ k2, k2 < t.s_num_registers →
        ∀ l, l < t.s_register_width → ∀ l2, l2 < t.s_register_width →
        (k : Int) * col_stride + (l : Int) * row_stride =
          (k2 : Int) * col_stride + (l2 : Int) * row_stride → k = k2 ∧ l = l2 := by
      intro k hk k2 hk2 l hl l2 hl2 he
      have := hd l (h1 ▸ hl) l2 (h1 ▸ hl2) k (hN ▸ hk) k2 (hN ▸ hk2) (by linarith)
      exact ⟨this.2, this.1⟩
    have hs : ∀ k l, k < t.s_num_registers → l < t.s_register_width →
        x.store_strided ptr row_stride col_stride mem
          (ptr + (k : Int) * col_stride + (l : Int) * row_stride) = x.m_registers k l := by
      intro k l hk hl
      simp only [store_strided, hrm, Bool.false_eq_true, if_false, Register.store_strided]
      exact store_registers_hit x.m_registers ptr col_stride row_stride _ _ mem hd2 k l hk hl
    refine ⟨fun i j hi hj => ?_, fun k l hk hl => ?_⟩
    · have e : ptr + (i : Int) * row_stride + (j : Int) * col_stride =
          ptr + (j : Int) * col_stride + (i : Int) * row_stride := by ring
      rw [e, hs j i (hN ▸ hj) (h1 ▸ hi)]
      simp [get, hrm, Register.get]
    · simp only [load_strided, hrm, Bool.false_eq_true, if_false, forLoop_setReg, Nat.zero_le,
        true_and, hk, if_true, Register.load_strided]
      exact hs k l hk hl

/-- The two loops of a `load_*_nm`: registers `[0, m)` loaded with `n` lanes each, registers
`[m, N)` cleared. -/
theorem load_nm_m_registers [Zero α] (f : Nat → Register α) (m N : Nat)
    (y : TensorRegister α t) (k : Nat) :
    (forLoop m N (fun i mm => mm.setReg i (Register.broadcast 0))
      (forLoop 0 m (fun i mm => mm.setReg i (f i)) y)).m_registers k =
      if k < m then f k else if k < N then Register.broadcast 0 else y.m_registers k := by
  rw [forLoop_setReg, forLoop_setReg]
  by_cases h : k < m
  · have h2 : ¬ (m ≤ k ∧ k < N) := by omega
    simp [h, h2]
  · by_cases h3 : k < N
    · have h2 : m ≤ k ∧ k < N := by omega
      simp [h, h2, h3]
    · have h2 : ¬ (m ≤ k ∧ k < N) := by omega
      simp [h, h2, h3]

/-- Storing the first `n` lanes of the first `m` registers and loading them back with the same
base, strides and counts returns the stored lanes, when the `m*n` addresses are distinct. -/
theorem load_nm_after_store_nm [Zero α] (regs : Nat → Register α) (y : TensorRegister α t)
    (ptr so si : Int) (m n N : Nat) (mem : Memory α)
    (hd : ∀ k, k < m → ∀ k2, k2 < m → ∀ l, l < n → ∀ l2, l2 < n →
      (k : Int) * so + (l : Int) * si = (k2 : Int) * so + (l2 : Int) * si → k = k2 ∧ l = l2)
    (k l : Nat) (hk : k < m) (hl : l < n) :
    (forLoop m N (fun i mm => mm.setReg i (Register.broadcast 0))
      (forLoop 0 m (fun i mm => mm.setReg i
        (Register.load_strided_n
          (forLoop 0 m
            (fun i mm => Register.store_strided_n (regs i) (ptr + (i : Int) * so) si n mm) mem)
          (ptr + (i : Int) * so) si n)) y)).m_registers k l = regs k l := by
  rw [load_nm_m_registers, if_pos hk]
  simp only [Register.load_strided_n, hl, if_true]
  exact store_registers_hit regs ptr so si m n mem hd k l hk hl

/-- C7 (amended). Partial-tile round trip: for a matrix `x` with one register per row/column,
both layouts, and an extent `(m,n)` with `m <= ROW_SIZE`, `n <= COL_SIZE`, storing with
`store_packed_nm` (resp. `store_strided_nm`) and loading into `y` with `load_packed_nm` (resp.
`load_strided_nm`) with the same pointer, strides and extent gives `y.get(i,j) == x.get(i,j)` for
`i < m`, `j < n`, provided the addresses the routine uses for the `m*n` tile elements are
pairwise distinct. -/
theorem store_nm_load_nm [Zero α] (_hW : 0 < t.s_register_width)
    (_h1 : t.s_reg_matrix_size = t.s_register_width)
    (x y : TensorRegister α t) (ptr row_stride col_stride : Int) (mem : Memory α)
    (m n : Nat) (_hm : m ≤ t.ROW_SIZE) (_hn : n ≤ t.COL_SIZE) :
    ((∀ i, i < m → ∀ i2, i2 < m → ∀ j, j < n → ∀ j2, j2 < n →
        (if t.layout.is_row_major then (i : Int) * row_stride + (j : Int)
          else (j : Int) * col_stride + (i : Int)) =
        (if t.layout.is_row_major then (i2 : Int) * row_stride + (j2 : Int)
          else (j2 : Int) * col_stride + (i2 : Int)) → i = i2 ∧ j = j2) →
      ∀ i j, i < m → j < n →
        (y.load_packed_nm (x.store_packed_nm ptr row_stride col_stride m n mem)
          ptr row_stride col_stride m n).get i j = x.get i j) ∧
    ((∀ i, i < m → ∀ i2, i2 < m → ∀ j, j < n → ∀ j2, j2 < n →
        (i : Int) * row_stride + (j : Int) * col_stride =
          (i2 : Int) * row_stride + (j2 : Int) * col_stride → i = i2 ∧ j = j2) →
      ∀ i j, i < m → j < n →
        (y.load_strided_nm (x.store_strided_nm ptr row_stride col_stride m n mem)
          ptr row_stride col_stride m n).get i j = x.get i j) := by
  by_cases hrm : t.layout.is_row_major = true
  · refine ⟨fun hd i j hi hj => ?_, fun hd i j hi hj => ?_⟩
    · simp only [hrm, if_true] at hd
      simp only [get, load_packed_nm, store_packed_nm, hrm, if_true, Register.get,
        store_packed_n_eq_strided, load_packed_n_eq_strided]
      exact load_nm_after_store_nm x.m_registers y ptr row_stride 1 m n _ mem
        (fun k hk k2 hk2 l hl l2 hl2 he => hd k hk k2 hk2 l hl l2 hl2 (by simpa using he))
        i j hi hj
    · simp only [get, load_strided_nm, store_strided_nm, hrm, if_true, Register.get]
      exact load_nm_after_store_nm x.m_registers y ptr row_stride col_stride m n _ mem hd
        i j hi hj
  · refine ⟨fun hd i j hi hj => ?_, fun hd i j hi hj => ?_⟩
    · simp only [hrm, Bool.false_eq_true, if_false] at hd
      simp only [get, load_packed_nm, store_packed_nm, hrm, Bool.false_eq_true, if_false,
        Register.get, store_packed_n_eq_strided, load_packed_n_eq_strided]
      exact load_nm_after_store_nm x.m_registers y ptr col_stride 1 n m _ mem
        (fun k hk k2 hk2 l hl l2 hl2 he => by
          have := hd l hl l2 hl2 k hk k2 hk2 (by simpa using he)
          exact ⟨this.2, this.1⟩)
        j i hj hi
    · simp only [get, load_strided_nm, store_strided_nm, hrm, Bool.false_eq_true, if_false,
        Register.get]
      exact load_nm_after_store_nm x.m_registers y ptr col_stride row_stride n m _ mem
        (fun k hk k2 hk2 l hl l2 hl2 he => by
          have := hd l hl l2 hl2 k hk k2 hk2 (by linarith)
          exact ⟨this.2, this.1⟩)
        j i hj hi

/-- C8. Partial zero-fill: for a matrix with one register per row/column, both layouts, whatever
it held before, after `load_packed_nm` or `load_strided_nm` with a partial extent `(m,n)`
(`m <= ROW_SIZE`, `n <= COL_SIZE`), `get(i,j) == 0` for every valid `(i,j)` outside
`[0,m) x [0,n)`, given that the Register `load_*_n` zero the lanes at or beyond `n`. -/
theorem load_nm_zero_fill [Zero α] (hW : 0 < t.s_register_width)
    (h1 : t.s_reg_matrix_size = t.s_register_width)
    (y : TensorRegister α t) (ptr row_stride col_stride : Int) (mem : Memory α)
    (m n : Nat) (_hm : m ≤ t.ROW_SIZE) (_hn : n ≤ t.COL_SIZE)
    (i j : Nat) (hi : i < t.ROW_SIZE) (hj : j < t.COL_SIZE) (hout : ¬ (i < m ∧ j < n)) :
    (y.load_packed_nm mem ptr row_stride col_stride m n).get i j = 0 ∧
    (y.load_strided_nm mem ptr row_stride col_stride m n).get i j = 0 := by
  have hN := one_register_per_dim hW h1
  by_cases hrm : t.layout.is_row_major = true
  · rw [if_pos hrm] at hN
    simp only [get, load_packed_nm, load_strided_nm, hrm, if_true, Register.get,
      load_nm_m_registers]
    have hiN : i < t.s_num_registers := hN ▸ hi
    by_cases him : i < m
    · have hjn : ¬ j < n := fun h => hout ⟨him, h⟩
      simp [him, Register.load_packed_n, Register.load_strided_n, hjn]
    · simp [him, hiN, Register.broadcast]
  · rw [if_neg hrm] at hN
    simp only [get, load_packed_nm, load_strided_nm, hrm, Bool.false_eq_true, if_false,
      Register.get, load_nm_m_registers]
    have hjN : j < t.s_num_registers := hN ▸ hj
    by_cases hjn : j < n
    · have him : ¬ i < m := fun h => hout ⟨h, hjn⟩
      simp [hjn, Register.load_packed_n, Register.load_strided_n, him]
    · simp [hjn, hjN, Register.broadcast]

theorem is_column_major_eq_not (lay : TensorLayout) :
    lay.is_column_major = !lay.is_row_major := by
  cases lay <;> rfl

theorem forLoop_one {σ : Type} (body : Nat → σ → σ) (s : σ) : forLoop 0 1 body s = body 0 s := by
  rw [forLoop_succ 0 0 (Nat.le_refl 0), forLoop_empty 0 0 (Nat.le_refl 0)]

/-- C4 (amended). Packed full-tile round trip: for a matrix with one register per row
(row-major) or per column (column-major) and strides under which the stored registers do not
overlap, `x.store_packed` followed by `y.load_packed` with the same arguments gives `y == x`
register by register, provided the load does not take its fully dense branch
(`row_stride == ROW_SIZE` row-major, `col_stride == COL_SIZE` column-major) on a non-square
matrix. -/
theorem store_packed_load_packed (hW : 0 < t.s_register_width)
    (h1 : t.s_reg_matrix_size = t.s_register_width)
    (x y : TensorRegister α t) (ptr row_stride col_stride : Int) (mem : Memory α)
    (hdense : (if t.layout.is_row_major then row_stride = (t.ROW_SIZE : Int)
      else col_stride = (t.COL_SIZE : Int)) → t.ROW_SIZE = t.COL_SIZE)
    (hd : ∀ k, k < t.s_num_registers → ∀ k2, k2 < t.s_num_registers →
      ∀ l, l < t.s_register_width → ∀ l2, l2 < t.s_register_width →
      (k : Int) * (if t.layout.is_row_major then row_stride else col_stride) + (l : Int) =
        (k2 : Int) * (if t.layout.is_row_major then row_stride else col_stride) + (l2 : Int) →
      k = k2 ∧ l = l2)
    (k l : Nat) (hk : k < t.s_num_registers) (hl : l < t.s_register_width) :
    (y.load_packed (x.store_packed ptr row_stride col_stride mem)
      ptr row_stride col_stride).m_registers k l = x.m_registers k l := by
  have hN := one_register_per_dim hW h1
  have hrpd : t.s_registers_per_dim = 1 := by
    unfold TensorType.s_registers_per_dim
    rw [h1]; exact Nat.div_self hW
  unfold TensorType.s_reg_matrix_size at h1
  by_cases hrm : t.layout.is_row_major = true
  · have hcm : t.layout.is_column_major = false := by
      rw [is_column_major_eq_not, hrm]; rfl
    rw [if_pos hrm] at h1 hN
    simp only [hrm, if_true] at hd hdense
    have hs : ∀ k l, k < t.s_num_registers → l < t.s_register_width →
        x.store_packed ptr row_stride col_stride mem
          (ptr + (k : Int) * row_stride + (l : Int)) = x.m_registers k l := by
      intro k l hk hl
      simp only [store_packed, hrm, if_true, Register.store_packed, store_packed_n_eq_strided]
      have := store_registers_hit x.m_registers ptr row_stride 1 _ _ mem
        (fun k hk k2 hk2 l hl l2 hl2 he => hd k hk k2 hk2 l hl l2 hl2 (by simpa using he))
        k l hk hl
      simpa using this
    by_cases hdn : row_stride = (t.ROW_SIZE : Int)
    · have hsq := hdense hdn
      have hdc : decide (row_stride = (t.ROW_SIZE : Int)) = true := decide_eq_true hdn
      simp only [load_packed, hrm, hcm, hdc, Bool.and_true, Bool.or_false, if_true,
        Bool.false_and, forLoop_setReg, Nat.zero_le, true_and, hk, Register.load_packed]
      have e : (t.s_register_width : Int) = row_stride := by rw [hdn, ← h1, hsq]
      rw [e]
      exact hs k l hk hl
    · simp only [load_packed, hrm, hcm, hdn, decide_False, Bool.and_false, Bool.or_false,
        Bool.false_and, Bool.false_eq_true, if_false, if_true, hrpd, ne_eq, one_ne_zero,
        not_false_eq_true, forLoop_one, Nat.zero_add, Nat.mul_one, Nat.cast_zero, zero_mul,
        add_zero, forLoop_setReg, Nat.zero_le, true_and, Register.load_packed]
      rw [if_pos (hN ▸ hk)]
      exact hs k l hk hl
  · have hcm : t.layout.is_column_major = true := by
      rw [is_column_major_eq_not, Bool.eq_false_iff.mpr hrm]; rfl
    rw [if_neg hrm] at h1 hN
    simp only [hrm, Bool.false_eq_true, if_false] at hd hdense
    have hs : ∀ k l, k < t.s_num_registers → l < t.s_register_width →
        x.store_packed ptr row_stride col_stride mem
          (ptr + (k : Int) * col_stride + (l : Int)) = x.m_registers k l := by
      intro k l hk hl
      simp only [store_packed, hrm, Bool.false_eq_true, if_false, Register.store_packed,
        store_packed_n_eq_strided]
      have := store_registers_hit x.m_registers ptr col_stride 1 _ _ mem
        (fun k hk k2 hk2 l hl l2 hl2 he => hd k hk k2 hk2 l hl l2 hl2 (by simpa using he))
        k l hk hl
      simpa using this
    by_cases hdn : col_stride = (t.COL_SIZE : Int)
    · have hsq := hdense hdn
      have hdc : decide (col_stride = (t.COL_SIZE : Int)) = true := decide_eq_true hdn
      simp only [load_packed, hrm, hcm, hdc, Bool.and_true, Bool.true_and,
        Bool.false_and, Bool.false_or, if_true,
        forLoop_setReg, Nat.zero_le, true_and, hk, Register.load_packed]
      have e : (t.s_register_width : Int) = col_stride := by rw [hdn, ← h1, hsq]
      rw [e]
      exact hs k l hk hl
    · simp only [load_packed, hrm, hcm, hdn, decide_False, Bool.and_false, Bool.or_false,
        Bool.false_and, Bool.false_eq_true, if_false, if_true, hrpd, ne_eq, one_ne_zero,
        not_false_eq_true, forLoop_one, Nat.zero_add, Nat.mul_one, Nat.cast_zero, zero_mul,
        add_zero, forLoop_setReg, Nat.zero_le, true_and, Register.load_packed]
      rw [if_pos (hN ▸ hk)]
      exact hs k l hk hl

/-- C9. Zero-cost layout flip: `A.transpose_type()` has exactly the register array of `A`
(register `k` of the view is register `k` of `A`, for every `k`) under the opposite layout
tag, and therefore `A.transpose_type().get(i,j) == A.get(j,i)` for all `(i,j)`. -/
theorem transpose_type_get (A : TensorRegister α t) :
    (∀ k, A.transpose_type.m_registers k = A.m_registers k) ∧
    t.transpose_tensor_type.layout.is_row_major = !t.layout.is_row_major ∧
    (∀ i j, A.transpose_type.get i j = A.get j i) := by
  refine ⟨fun k => rfl, ?_, fun i j => ?_⟩
  · cases hlay : t.layout <;>
      simp [TensorType.transpose_tensor_type, TensorLayout.flip, TensorLayout.is_row_major, hlay]
  · cases hlay : t.layout <;>
      simp [get, transpose_type, TensorType.transpose_tensor_type, TensorLayout.flip,
        TensorLayout.is_row_major, Register.get, hlay]

/-- The type `transpose_tensor_type` keeps `ROW_SIZE`, `COL_SIZE` and the register width of the
matrix and carries the opposite layout tag; its extents are the swapped ones exactly when the
matrix is square. -/
theorem transpose_tensor_type_keeps (t : TensorType) :
    t.transpose_tensor_type.ROW_SIZE = t.ROW_SIZE ∧
    t.transpose_tensor_type.COL_SIZE = t.COL_SIZE ∧
    t.transpose_tensor_type.s_register_width = t.s_register_width ∧
    t.transpose_tensor_type.layout = t.layout.flip ∧
    t.transpose_tensor_type.layout.is_row_major = !t.layout.is_row_major ∧
    ((t.transpose_tensor_type.ROW_SIZE = t.COL_SIZE ∧
        t.transpose_tensor_type.COL_SIZE = t.ROW_SIZE) ↔ t.ROW_SIZE = t.COL_SIZE) := by
  refine ⟨rfl, rfl, rfl, rfl, ?_, ?_⟩
  · cases hlay : t.layout <;>
      simp [TensorType.transpose_tensor_type, TensorLayout.flip, TensorLayout.is_row_major, hlay]
  · simp only [TensorType.transpose_tensor_type]
    constructor
    · intro h; exact h.1
    · intro h; exact ⟨h, h.symm⟩

/-- C10 on the code: the view type of the row-major `2 x 4` matrix (register width 4, two
registers, one per row) is column-major with `ROW_SIZE == 2` and `COL_SIZE == 4`, not the
swapped extents 4 and 2. Its index `(0,3)`, within these extents, addresses register 3 of the
two registers, while the transposed element `A(0,3)` is read at `(3,0)`, outside the row extent
of the view. -/
theorem transpose_type_view_sample :
    sampleType24.static_assert ∧
    sampleType24.layout = TensorLayout.row_major ∧
    sampleType24.s_num_registers = 2 ∧
    sampleType24.transpose_tensor_type.layout = TensorLayout.column_major ∧
    sampleType24.transpose_tensor_type.ROW_SIZE = 2 ∧
    sampleType24.transpose_tensor_type.COL_SIZE = 4 ∧
    ¬ (sampleType24.transpose_tensor_type.ROW_SIZE = sampleType24.COL_SIZE ∧
        sampleType24.transpose_tensor_type.COL_SIZE = sampleType24.ROW_SIZE) ∧
    sampleType24.transpose_tensor_type.s_num_registers = 2 ∧
    (∀ A : TensorRegister Int sampleType24,
      A.transpose_type.get 0 3 = Register.get (A.m_registers 3) 0) ∧
    (∀ A : TensorRegister Int sampleType24, A.transpose_type.get 3 0 = A.get 0 3) ∧
    (sampleMatrix sampleType24).get 0 3 = 4 :=
  ⟨by decide, by decide, by decide, by decide, by decide, by decide, by decide, by decide,
    fun _ => rfl, fun _ => rfl, by decide⟩

/-- C4, as stated, fails: a row-major `2 x 2` matrix with register width 4 (element count 4, a
multiple of 4; a single register holding both rows) stored with `store_packed` and loaded with
`load_packed` at row stride 3 (tile addresses 0, 1, 3, 4: no overlap) leaves `y` as it was,
because the semi-dense branch for several rows per register is empty. -/
theorem store_packed_load_packed_counterexample :
    sampleTypeTwoRows.static_assert ∧
    sampleTypeTwoRows.s_num_registers = 1 ∧
    (∀ i : Nat, i < 2 → ∀ i2 : Nat, i2 < 2 → ∀ j : Nat, j < 2 → ∀ j2 : Nat, j2 < 2 →
      (i : Int) * 3 + (j : Int) * 1 = (i2 : Int) * 3 + (j2 : Int) * 1 → i = i2 ∧ j = j2) ∧
    ((sampleZero sampleTypeTwoRows).load_packed
        ((sampleMatrix sampleTypeTwoRows).store_packed 0 3 1 sampleMemory) 0 3 1).m_registers 0 0
      ≠ (sampleMatrix sampleTypeTwoRows).m_registers 0 0 := by
  refine ⟨by decide, by decide, ?_, by decide⟩
  intro i hi i2 hi2 j hj j2 hj2 h
  omega

/-- C5 on the code: the row-major `8 x 4` matrix (register width 4, one register per row) loaded
with `load_packed` at `row_stride == ROW_SIZE == 8` takes the dense branch and reads register
`i` from `ptr + 4*i`: `get(1,0)` is `ptr[4]` (the value 5), not `ptr[1*row_stride + 0] = ptr[8]`
(the value 9). -/
theorem load_packed_dense_not_square :
    sampleType84.static_assert ∧
    ((sampleZero sampleType84).load_packed sampleMemory 0 8 1).get 1 0 = sampleMemory 4 ∧
    ((sampleZero sampleType84).load_packed sampleMemory 0 8 1).get 1 0 = 5 ∧
    sampleMemory (0 + 1 * 8 + 0) = 9 := by
  decide

/-- C7, as stated, fails: for the row-major `4 x 4` matrix with register width 4, the extent
`(2,2)` and `row_stride == 1`, the stored rows overlap (element `(0,1)` and element `(1,0)`
share address 1), and the loaded `get(0,1)` is the stored `get(1,0)`. -/
theorem store_nm_load_nm_counterexample :
    ((sampleZero sampleType44).load_packed_nm
        ((sampleMatrix sampleType44).store_packed_nm 0 1 1 2 2 sampleMemory) 0 1 1 2 2).get 0 1
      ≠ (sampleMatrix sampleType44).get 0 1 ∧
    ((sampleZero sampleType44).load_strided_nm
        ((sampleMatrix sampleType44).store_strided_nm 0 1 1 2 2 sampleMemory) 0 1 1 2 2).get 0 1
      ≠ (sampleMatrix sampleType44).get 0 1 := by
  decide

/-- C1 at the row-major `4 x 4` sample: element `(0,1)` of the transpose is element `(1,0)`,
the value 5. -/
theorem transpose_get_witness :
    ((sampleMatrix sampleType44).transpose (sampleZero sampleType44)).get 0 1 =
      (sampleMatrix sampleType44).get 1 0 ∧ (sampleMatrix sampleType44).get 1 0 = 5 :=
  ⟨transpose_get (Or.inr (Or.inr (Or.inl (by rfl)))) (by rfl) (by rfl)
    (sampleMatrix sampleType44) (sampleZero sampleType44) 0 1 (by decide) (by decide),
   by decide⟩

/-- C2 at the row-major `8 x 4` sample (8 registers of width 4): lane 2 of register 5. -/
theorem transpose_transpose_witness :
    (((sampleMatrix sampleType84).transpose (sampleZero sampleType84)).transpose
      (sampleZero sampleType84)).m_registers 5 2 = (sampleMatrix sampleType84).m_registers 5 2 :=
  transpose_transpose (Or.inr (Or.inr (Or.inl (by rfl)))) (by decide)
    (sampleMatrix sampleType84) (sampleZero sampleType84) (sampleZero sampleType84) 5 2
    (by decide) (by decide)

/-- C3 at the column-major `2 x 2` sample and the vector `{1, 0}`. -/
theorem right_multiply_vector_get_witness :
    Register.get ((sampleMatrix sampleType22).right_multiply_vector sampleVector
        (Register.broadcast 0)) 1 =
      ∑ j ∈ Finset.range 2, (sampleMatrix sampleType22).get 1 j * Register.get sampleVector j :=
  right_multiply_vector_get (by rfl) (by rfl) (sampleMatrix sampleType22) sampleVector
    (Register.broadcast 0) 1 (by decide)

/-- C4 (amended) at the row-major `4 x 4` sample with row stride 6 (semi-dense branch): lane 3
of register 2 survives the round trip. -/
theorem store_packed_load_packed_witness :
    ((sampleZero sampleType44).load_packed
        ((sampleMatrix sampleType44).store_packed 0 6 1 sampleMemory) 0 6 1).m_registers 2 3 =
      (sampleMatrix sampleType44).m_registers 2 3 :=
  store_packed_load_packed (by decide) (by rfl) (sampleMatrix sampleType44)
    (sampleZero sampleType44) 0 6 1 sampleMemory (fun _ => rfl)
    (by
      intro k hk k2 hk2 l hl l2 hl2 h
      have e : sampleType44.layout.is_row_major = true := rfl
      rw [e] at h
      simp only [if_true] at h
      have b1 : k < 4 := hk
      have b2 : k2 < 4 := hk2
      have b3 : l < 4 := hl
      have b4 : l2 < 4 := hl2
      omega)
    2 3 (by decide) (by decide)

/-- C6 at the column-major `2 x 2` sample with strides `(1, 2)`: element `(1,0)` lands at
address `ptr + 1`, and lane 1 of register 0 is loaded back. -/
theorem store_strided_load_strided_witness :
    (sampleMatrix sampleType22).store_strided 10 1 2 sampleMemory (10 + (1 : Nat) * 1 + (0 : Nat) * 2)
      = (sampleMatrix sampleType22).get 1 0 ∧
    ((sampleZero sampleType22).load_strided
        ((sampleMatrix sampleType22).store_strided 10 1 2 sampleMemory) 10 1 2).m_registers 0 1 =
      (sampleMatrix sampleType22).m_registers 0 1 :=
  have h := store_strided_load_strided (by decide) (by rfl) (sampleMatrix sampleType22)
    (sampleZero sampleType22) 10 1 2 sampleMemory
    (by
      intro i hi i2 hi2 j hj j2 hj2 h
      have b1 : i < 2 := hi
      have b2 : i2 < 2 := hi2
      have b3 : j < 2 := hj
      have b4 : j2 < 2 := hj2
      omega)
  ⟨h.1 1 0 (by decide) (by decide), h.2 0 1 (by decide) (by decide)⟩

/-- C7 (amended) at the row-major `4 x 4` sample, extent `(2,3)`, strides `(4, 1)`: element
`(1,2)` survives both the packed and the strided round trip. -/
theorem store_nm_load_nm_witness :
    ((sampleZero sampleType44).load_packed_nm
        ((sampleMatrix sampleType44).store_packed_nm 0 4 1 2 3 sampleMemory) 0 4 1 2 3).get 1 2
      = (sampleMatrix sampleType44).get 1 2 ∧
    ((sampleZero sampleType44).load_strided_nm
        ((sampleMatrix sampleType44).store_strided_nm 0 4 1 2 3 sampleMemory) 0 4 1 2 3).get 1 2
      = (sampleMatrix sampleType44).get 1 2 :=
  have h := store_nm_load_nm (by decide) (by rfl) (sampleMatrix sampleType44)
    (sampleZero sampleType44) 0 4 1 sampleMemory 2 3 (by decide) (by decide)
  ⟨h.1 (by
      intro i hi i2 hi2 j hj j2 hj2 h
      have e : sampleType44.layout.is_row_major = true := rfl
      rw [e] at h
      simp only [if_true] at h
      omega) 1 2 (by decide) (by decide),
   h.2 (by
      intro i hi i2 hi2 j hj j2 hj2 h
      omega) 1 2 (by decide) (by decide)⟩

/-- C8 at the row-major `4 x 4` sample, previously non-zero, extent `(2,3)`: element `(3,0)`
(row beyond the extent) is zero after either load. -/
theorem load_nm_zero_fill_witness :
    (sampleMatrix sampleType44).get 3 0 = 13 ∧
    ((sampleMatrix sampleType44).load_packed_nm sampleMemory 0 4 1 2 3).get 3 0 = 0 ∧
    ((sampleMatrix sampleType44).load_strided_nm sampleMemory 0 4 1 2 3).get 3 0 = 0 :=
  ⟨by decide,
   load_nm_zero_fill (by decide) (by rfl) (sampleMatrix sampleType44) 0 4 1 sampleMemory 2 3
     (by decide) (by decide) 3 0 (by decide) (by decide) (by decide)⟩

end TensorRegister
end RAJA

namespace RAJA
namespace TensorRegister

variable {α : Type} {t : TensorType}

/-- C11. Tile-reference dispatch: `load_ref` and `store_ref` start from
`pointer + begin[0]*stride[0] + begin[1]*stride[1]`, take the packed strategy exactly when
(`STRIDE_ONE_DIM == 1` and the matrix is row-major) or (`STRIDE_ONE_DIM == 0` and the matrix is
column-major), the full strategy exactly when the size kind is `FULL`, and in each of the four
combinations call the matching `load_*`/`store_*` routine with the reference's strides and, when
the tile is not full, its tile sizes. -/
theorem load_ref_store_ref_dispatch [Zero α] (self : TensorRegister α t) (mem : Memory α)
    (ref : TensorRef) :
    (t.is_ref_packed ref.STRIDE_ONE_DIM = true ↔
      ((ref.STRIDE_ONE_DIM = 1 ∧ t.layout = TensorLayout.row_major) ∨
        (ref.STRIDE_ONE_DIM = 0 ∧ t.layout = TensorLayout.column_major))) ∧
    self.load_ref mem ref =
      (if (ref.STRIDE_ONE_DIM = 1 ∧ t.layout = TensorLayout.row_major) ∨
          (ref.STRIDE_ONE_DIM = 0 ∧ t.layout = TensorLayout.column_major) then
        if ref.TENSOR_SIZE = TensorTileSize.TENSOR_FULL then
          self.load_packed mem
            (ref.m_pointer + ref.m_tile.m_begin 0 * ref.m_stride 0 +
              ref.m_tile.m_begin 1 * ref.m_stride 1)
            (ref.m_stride 0) (ref.m_stride 1)
        else
          self.load_packed_nm mem
            (ref.m_pointer + ref.m_tile.m_begin 0 * ref.m_stride 0 +
              ref.m_tile.m_begin 1 * ref.m_stride 1)
            (ref.m_stride 0) (ref.m_stride 1) (ref.m_tile.m_size 0) (ref.m_tile.m_size 1)
      else
        if ref.TENSOR_SIZE = TensorTileSize.TENSOR_FULL then
          self.load_strided mem
            (ref.m_pointer + ref.m_tile.m_begin 0 * ref.m_stride 0 +
              ref.m_tile.m_begin 1 * ref.m_stride 1)
            (ref.m_stride 0) (ref.m_stride 1)
        else
          self.load_strided_nm mem
            (ref.m_pointer + ref.m_tile.m_begin 0 * ref.m_stride 0 +
              ref.m_tile.m_begin 1 * ref.m_stride 1)
            (ref.m_stride 0) (ref.m_stride 1) (ref.m_tile.m_size 0) (ref.m_tile.m_size 1)) ∧
    self.store_ref ref mem =
      (if (ref.STRIDE_ONE_DIM = 1 ∧ t.layout = TensorLayout.row_major) ∨
          (ref.STRIDE_ONE_DIM = 0 ∧ t.layout = TensorLayout.column_major) then
        if ref.TENSOR_SIZE = TensorTileSize.TENSOR_FULL then
          self.store_packed
            (ref.m_pointer + ref.m_tile.m_begin 0 * ref.m_stride 0 +
              ref.m_tile.m_begin 1 * ref.m_stride 1)
            (ref.m_stride 0) (ref.m_stride 1) mem
        else
          self.store_packed_nm
            (ref.m_pointer + ref.m_tile.m_begin 0 * ref.m_stride 0 +
              ref.m_tile.m_begin 1 * ref.m_stride 1)
            (ref.m_stride 0) (ref.m_stride 1) (ref.m_tile.m_size 0) (ref.m_tile.m_size 1) mem
      else
        if ref.TENSOR_SIZE = TensorTileSize.TENSOR_FULL then
          self.store_strided
            (ref.m_pointer + ref.m_tile.m_begin 0 * ref.m_stride 0 +
              ref.m_tile.m_begin 1 * ref.m_stride 1)
            (ref.m_stride 0) (ref.m_stride 1) mem
        else
          self.store_strided_nm
            (ref.m_pointer + ref.m_tile.m_begin 0 * ref.m_stride 0 +
              ref.m_tile.m_begin 1 * ref.m_stride 1)
            (ref.m_stride 0) (ref.m_stride 1) (ref.m_tile.m_size 0) (ref.m_tile.m_size 1) mem) := by
  have hp : t.is_ref_packed ref.STRIDE_ONE_DIM = true ↔
      ((ref.STRIDE_ONE_DIM = 1 ∧ t.layout = TensorLayout.row_major) ∨
        (ref.STRIDE_ONE_DIM = 0 ∧ t.layout = TensorLayout.column_major)) := by
    unfold TensorType.is_ref_packed
    cases hlay : t.layout <;>
      simp [TensorLayout.is_row_major, TensorLayout.is_column_major]
  refine ⟨hp, ?_, ?_⟩
  · unfold load_ref
    by_cases h : t.is_ref_packed ref.STRIDE_ONE_DIM = true
    · rw [if_pos h, if_pos (hp.mp h)]
    · rw [if_neg h, if_neg (fun hc => h (hp.mpr hc))]
  · unfold store_ref
    by_cases h : t.is_ref_packed ref.STRIDE_ONE_DIM = true
    · rw [if_pos h, if_pos (hp.mp h)]
    · rw [if_neg h, if_neg (fun hc => h (hp.mpr hc))]

theorem is_row_major_of_not_column (lay : TensorLayout) (h : lay.is_column_major = false) :
    lay.is_row_major = true := by
  cases lay
  · rfl
  · exact absurd h (by decide)

/-- The dot-product branch of the matrix-vector products: lane `i` of the loop
`result.set(v.dot(m_registers[i]), i)` over `n` registers. -/
theorem set_dot_lane [CommSemiring α] (regs : Nat → Register α) (v result : Register α)
    (W n i : Nat) (hi : i < n) :
    (forLoop 0 n (fun i result => Register.set result (Register.dot W v (regs i)) i) result) i =
      ∑ j ∈ Finset.range W, v j * regs i j := by
  have h := forLoop_hit (fun r : Register α => r i)
    (fun i result => Register.set result (Register.dot W v (regs i)) i)
    0 i (Register.dot W v (regs i)) (Nat.zero_le i)
    (fun s => by simp [Register.set]) n hi
    (fun k hk1 _ s => by
      have hne : i ≠ k := by omega
      simp [Register.set, Function.update_noteq hne]) result
  rw [h, dot_eq_sum]

/-- Row-major `right_multiply_vector`: lane `i` is the dot product of `v` with register `i`. -/
theorem right_multiply_vector_row_major [CommSemiring α] (A : TensorRegister α t)
    (v result : Register α) (h : t.layout.is_row_major = true) (i : Nat)
    (hi : i < t.s_num_registers) :
    A.right_multiply_vector v result i =
      ∑ j ∈ Finset.range t.s_register_width, v j * A.m_registers i j := by
  simp only [right_multiply_vector, h, if_true]
  exact set_dot_lane A.m_registers v result _ _ i hi

/-- Column-major `right_multiply_vector`: lane `l` accumulates lane `l` of every register `i`,
scaled by `v.get(i)`. -/
theorem right_multiply_vector_column_major [CommSemiring α] (A : TensorRegister α t)
    (v result : Register α) (h : t.layout.is_row_major = false) (l : Nat) :
    A.right_multiply_vector v result l =
      ∑ i ∈ Finset.range t.s_num_registers, A.m_registers i l * v i := by
  simp only [right_multiply_vector, h, Bool.false_eq_true, if_false]
  exact accumulate_scaled A.m_registers v _ l

/-- Column-major `left_multiply_vector`: lane `i` is the dot product of `v` with register `i`. -/
theorem left_multiply_vector_column_major [CommSemiring α] (A : TensorRegister α t)
    (v result : Register α) (h : t.layout.is_column_major = true) (i : Nat)
    (hi : i < t.s_num_registers) :
    A.left_multiply_vector v result i =
      ∑ j ∈ Finset.range t.s_register_width, v j * A.m_registers i j := by
  simp only [left_multiply_vector, h, if_true]
  exact set_dot_lane A.m_registers v result _ _ i hi

/-- Row-major `left_multiply_vector`: lane `l` accumulates lane `l` of every register `i`,
scaled by `v.get(i)`. -/
theorem left_multiply_vector_row_major [CommSemiring α] (A : TensorRegister α t)
    (v result : Register α) (h : t.layout.is_column_major = false) (l : Nat) :
    A.left_multiply_vector v result l =
      ∑ i ∈ Finset.range t.s_num_registers, A.m_registers i l * v i := by
  simp only [left_multiply_vector, h, Bool.false_eq_true, if_false]
  exact accumulate_scaled A.m_registers v _ l

end TensorRegister
end RAJA

namespace RAJA
namespace TensorRegister

/-- C13. Concrete 4x4 scenario: for the row-major `4 x 4` matrix `A` of register width 4 loaded
by `load_packed` from the packed array `{1,...,16}` (row stride 4), whatever the matrix held
before, `A.transpose()` has row 0 equal to `{1,5,9,13}`, `A.transpose_type().get(0,1) == 5` on
the very registers of `A` (no data is moved, the array is not written), and
`A.right_multiply_vector({1,0,0,0})` is `{1,5,9,13}`. -/
theorem scenario_four_by_four (prior tmp : TensorRegister Int sampleType44)
    (result : Register Int) :
    (∀ a : Int, 0 ≤ a → a < 16 → sampleMemory a = a + 1) ∧
    ((prior.load_packed sampleMemory 0 4 1).transpose tmp).get 0 0 = 1 ∧
    ((prior.load_packed sampleMemory 0 4 1).transpose tmp).get 0 1 = 5 ∧
    ((prior.load_packed sampleMemory 0 4 1).transpose tmp).get 0 2 = 9 ∧
    ((prior.load_packed sampleMemory 0 4 1).transpose tmp).get 0 3 = 13 ∧
    (prior.load_packed sampleMemory 0 4 1).transpose_type.get 0 1 = 5 ∧
    (∀ k, (prior.load_packed sampleMemory 0 4 1).transpose_type.m_registers k =
      (prior.load_packed sampleMemory 0 4 1).m_registers k) ∧
    Register.get ((prior.load_packed sampleMemory 0 4 1).right_multiply_vector
      sampleVector result) 0 = 1 ∧
    Register.get ((prior.load_packed sampleMemory 0 4 1).right_multiply_vector
      sampleVector result) 1 = 5 ∧
    Register.get ((prior.load_packed sampleMemory 0 4 1).right_multiply_vector
      sampleVector result) 2 = 9 ∧
    Register.get ((prior.load_packed sampleMemory 0 4 1).right_multiply_vector
      sampleVector result) 3 = 13 := by
  refine ⟨fun a _ _ => rfl, ?_, ?_, ?_, ?_, ?_, fun k => rfl, ?_, ?_, ?_, ?_⟩ <;> rfl

end TensorRegister
end RAJA

namespace RAJA

theorem foldl_add_eq {α : Type} [AddCommMonoid α] (l : List α) (a : α) :
    l.foldl (fun x y => x + y) a = a + l.sum := by
  induction l generalizing a with
  | nil => simp
  | cons b rest ih => simp [ih, add_assoc]

theorem foldl_sum_eq_sum {α : Type} [AddCommMonoid α] (l : List α) : foldl_sum l = l.sum := by
  cases l with
  | nil => rfl
  | cons a rest => simp [foldl_sum, foldl_add_eq]

theorem num_elem_eq_sum (vt : VectorType) : vt.num_elem = vt.num_elems.sum :=
  foldl_sum_eq_sum vt.num_elems

/-- An accumulating loop `result = 0; for i < n: result += f i`. -/
theorem forLoop_add_eq_sum {α : Type} [AddCommMonoid α] (f : Nat → α) (n : Nat) :
    forLoop 0 n (fun i acc => acc + f i) 0 = ∑ i ∈ Finset.range n, f i := by
  induction n with
  | zero => simp [forLoop_empty]
  | succ n ih => rw [forLoop_succ _ _ (Nat.zero_le n), ih, Finset.sum_range_succ]

namespace detail

variable {α : Type}

theorem VectorGetByIndex_out_of_range [Zero α] (regs : Nat → Register α) :
    ∀ (ws : List Nat) (k i : Nat), ws.sum ≤ i → VectorGetByIndex regs ws k i = 0 := by
  intro ws
  induction ws with
  | nil => intro k i _; rfl
  | cons w rest ih =>
    intro k i h
    simp only [List.sum_cons] at h
    have h1 : ¬ i < w := by omega
    simp only [VectorGetByIndex, h1, if_false]
    exact ih (k + 1) (i - w) (by omega)

theorem VectorSetByIndex_out_of_range (v : α) :
    ∀ (ws : List Nat) (k i : Nat) (regs : Nat → Register α), ws.sum ≤ i →
      VectorSetByIndex v ws k i regs = regs := by
  intro ws
  induction ws with
  | nil => intro k i regs _; rfl
  | cons w rest ih =>
    intro k i regs h
    simp only [List.sum_cons] at h
    have h1 : ¬ i < w := by omega
    simp only [VectorSetByIndex, h1, if_false]
    exact ih (k + 1) (i - w) regs (by omega)

/-- Index resolution: an index below the capacity lies in exactly one register `j`, at lane
`l = i - (w_0 + ... + w_{j-1})`; `VectorGetByIndex` reads that lane and `VectorSetByIndex`
writes it. -/
theorem index_resolution [Zero α] :
    ∀ (ws : List Nat) (i : Nat), i < ws.sum →
      ∃ j l, j < ws.length ∧ l < ws.getD j 0 ∧ (ws.take j).sum + l = i ∧
        (∀ (regs : Nat → Register α) (k : Nat),
          VectorGetByIndex regs ws k i = regs (k + j) l) ∧
        (∀ (v : α) (regs : Nat → Register α) (k : Nat),
          VectorSetByIndex v ws k i regs =
            Function.update regs (k + j) (Register.set (regs (k + j)) v l)) := by
  intro ws
  induction ws with
  | nil => intro i h; simp at h
  | cons w rest ih =>
    intro i h
    simp only [List.sum_cons] at h
    by_cases h1 : i < w
    · refine ⟨0, i, by simp, by simpa using h1, by simp, ?_, ?_⟩
      · intro regs k
        simp [VectorGetByIndex, h1, Register.get]
      · intro v regs k
        simp [VectorSetByIndex, h1]
    · obtain ⟨j, l, hj, hl, hsum, hget, hset⟩ := ih (i - w) (by omega)
      refine ⟨j + 1, l, by simpa using hj, by simpa using hl, ?_, ?_, ?_⟩
      · simp only [List.take_succ_cons, List.sum_cons]; omega
      · intro regs k
        have e : k + (j + 1) = k + 1 + j := by omega
        simp only [VectorGetByIndex, h1, if_false, hget, e]
      · intro v regs k
        have e : k + (j + 1) = k + 1 + j := by omega
        simp only [VectorSetByIndex, h1, if_false, hset, e]

/-- The lane ranges of distinct registers are disjoint: an index has one resolution only. -/
theorem index_resolution_unique :
    ∀ (ws : List Nat) (j l j2 l2 : Nat), j < ws.length → j2 < ws.length →
      l < ws.getD j 0 → l2 < ws.getD j2 0 →
      (ws.take j).sum + l = (ws.take j2).sum + l2 → j = j2 ∧ l = l2 := by
  intro ws
  induction ws with
  | nil => intro j l j2 l2 hj; simp at hj
  | cons w rest ih =>
    intro j l j2 l2 hj hj2 hl hl2 h
    cases j with
    | zero =>
      cases j2 with
      | zero => simp at h; exact ⟨rfl, h⟩
      | succ b =>
        simp only [List.take_zero, List.sum_nil, List.take_succ_cons, List.sum_cons,
          List.getD_cons_zero] at h hl
        omega
    | succ a =>
      cases j2 with
      | zero =>
        simp only [List.take_zero, List.sum_nil, List.take_succ_cons, List.sum_cons,
          List.getD_cons_zero] at h hl2
        omega
      | succ b =>
        simp only [List.take_succ_cons, List.sum_cons, List.getD_cons_succ,
          List.length_cons] at h hl hl2 hj hj2
        have := ih a l b l2 (by omega) (by omega) hl hl2 (by omega)
        omega

/-- When every register but the last has the lane count of register 0, register `j` starts at
element `j * w_0`. -/
theorem sum_take_full (ws : List Nat)
    (hfull : ∀ k, k < ws.length - 1 → ws.getD k 0 = ws.headD 0) :
    ∀ j, j < ws.length → (ws.take j).sum = j * ws.headD 0 := by
  intro j
  induction j with
  | zero => intro _; simp
  | succ n ih =>
    intro hj
    have hn : n < ws.length := by omega
    rw [List.sum_take_succ ws n hn, ih hn, ← List.getD_eq_getElem ws 0 hn,
      hfull n (by omega)]
    ring

end detail
end RAJA

namespace RAJA
namespace VectorImpl

variable {α : Type} {vt : VectorType}

theorem setReg_vector_m_registers (x : VectorImpl α vt) (k : Nat) (v : Register α) (k2 : Nat) :
    (x.setReg k v).m_registers k2 = if k2 = k then v else x.m_registers k2 := by
  simp [setReg, Function.update_apply]

/-- A register-filling pack expansion `camp::get<k>(m_registers) = f k` for `k` in `[lo, hi)`,
read back at register `k`; the length is not touched. -/
theorem forLoop_setReg_vector (f : Nat → Register α) (lo hi : Nat) (x : VectorImpl α vt)
    (k : Nat) :
    (forLoop lo hi (fun i m => m.setReg i (f i)) x).m_registers k =
      (if lo ≤ k ∧ k < hi then f k else x.m_registers k) ∧
    (forLoop lo hi (fun i m => m.setReg i (f i)) x).m_length = x.m_length := by
  constructor
  · split_ifs with h
    · exact forLoop_hit (fun m : VectorImpl α vt => m.m_registers k) _ lo k (f k) h.1
        (fun s => by simp [setReg_vector_m_registers]) hi h.2
        (fun i hi1 _ s => by simp [setReg_vector_m_registers]; omega) x
    · exact forLoop_frame (fun m : VectorImpl α vt => m.m_registers k) _ lo hi
        (fun i hi1 hi2 s => by simp [setReg_vector_m_registers]; omega) x
  · exact forLoop_frame (fun m : VectorImpl α vt => m.m_length)
      (fun i m => m.setReg i (f i)) lo hi (fun i _ _ s => rfl) x

/-- Index resolution at the level of the vector: element `i < num_elem()` is lane `l` of
register `j`. -/
theorem get_set_resolution [Zero α] (i : Nat) (hi : i < vt.num_elem) :
    ∃ j l, j < vt.num_registers ∧ l < vt.register_num_elem j ∧
      (vt.num_elems.take j).sum + l = i ∧
      (∀ x : VectorImpl α vt, x.get i = x.m_registers j l) ∧
      (∀ (x : VectorImpl α vt) (v : α), (x.set i v).m_registers =
        Function.update x.m_registers j (Register.set (x.m_registers j) v l)) := by
  rw [num_elem_eq_sum] at hi
  obtain ⟨j, l, hj, hl, hsum, hget, hset⟩ := detail.index_resolution (α := α) vt.num_elems i hi
  refine ⟨j, l, hj, hl, hsum, fun x => ?_, fun x v => ?_⟩
  · have := hget x.m_registers 0
    simpa [get] using this
  · have := hset v x.m_registers 0
    simpa [set] using this

theorem get_set_same [Zero α] (x : VectorImpl α vt) (i : Nat) (v : α) (hi : i < vt.num_elem) :
    (x.set i v).get i = v := by
  obtain ⟨j, l, _, _, _, hget, hset⟩ := get_set_resolution (α := α) i hi
  rw [hget, hset]
  simp [Register.set]

theorem get_set_other [Zero α] (x : VectorImpl α vt) (i j : Nat) (v : α) (hne : j ≠ i) :
    (x.set i v).get j = x.get j := by
  by_cases hi : i < vt.num_elem
  · by_cases hj : j < vt.num_elem
    · obtain ⟨a, l, ha, hl, hsum, _, hset⟩ := get_set_resolution (α := α) i hi
      obtain ⟨b, l2, hb, hl2, hsum2, hget2, _⟩ := get_set_resolution (α := α) j hj
      rw [hget2, hget2, hset]
      by_cases hab : b = a
      · subst hab
        have hll : l2 ≠ l := by
          intro h; subst h; exact hne (hsum2.symm.trans hsum)
        simp [Register.set, Function.update_noteq hll]
      · simp [Function.update_noteq hab]
    · have hj2 : vt.num_elems.sum ≤ j := by rw [← num_elem_eq_sum]; omega
      simp only [get]
      rw [detail.VectorGetByIndex_out_of_range _ _ _ _ hj2,
        detail.VectorGetByIndex_out_of_range _ _ _ _ hj2]
  · have hi2 : vt.num_elems.sum ≤ i := by rw [← num_elem_eq_sum]; omega
    simp only [get, set]
    rw [detail.VectorSetByIndex_out_of_range _ _ _ _ _ hi2]

/-- C19. Vector get/set index resolution: for a vector built from registers of widths
`w_0..w_{R-1}` and every `i` below the sum of the widths, `set(i, v)` writes lane
`i - (w_0+...+w_{k-1})` of the unique register `k` containing `i`, so that afterwards
`get(i) == v` and `get(j)` is unchanged for every `j != i` in range; the logical length is
unchanged. -/
theorem set_get_resolution [Zero α] (x : VectorImpl α vt) (i : Nat) (v : α)
    (hi : i < vt.num_elem) :
    (∃ k l, k < vt.num_registers ∧ l < vt.register_num_elem k ∧
      l = i - (vt.num_elems.take k).sum ∧ (vt.num_elems.take k).sum ≤ i ∧
      (∀ k2 l2, k2 < vt.num_registers → l2 < vt.register_num_elem k2 →
        (vt.num_elems.take k2).sum + l2 = i → k2 = k ∧ l2 = l) ∧
      (x.set i v).m_registers =
        Function.update x.m_registers k (Register.set (x.m_registers k) v l)) ∧
    (x.set i v).get i = v ∧
    (∀ j, j < vt.num_elem → j ≠ i → (x.set i v).get j = x.get j) ∧
    (x.set i v).size = x.size := by
  refine ⟨?_, get_set_same x i v hi, fun j _ hne => get_set_other x i j v hne, rfl⟩
  obtain ⟨k, l, hk, hl, hsum, _, hset⟩ := get_set_resolution (α := α) i hi
  refine ⟨k, l, hk, hl, by omega, by omega, fun k2 l2 hk2 hl2 h2 => ?_, hset x v⟩
  exact detail.index_resolution_unique vt.num_elems k2 l2 k l hk2 hk hl2 hl (h2.trans hsum.symm)

/-- C20. Silent out-of-range access: for every vector and every index `i >= num_elem()` (the
sum of all register widths), `get(i)` returns the default-constructed element value (zero) and
`set(i, v)` performs no write, leaving every register and the length unchanged. -/
theorem get_set_out_of_range [Zero α] (x : VectorImpl α vt) (i : Nat) (v : α)
    (hi : vt.num_elem ≤ i) :
    x.get i = 0 ∧ (x.set i v).m_registers = x.m_registers ∧
      (x.set i v).m_length = x.m_length := by
  have hi2 : vt.num_elems.sum ≤ i := by rw [← num_elem_eq_sum]; exact hi
  refine ⟨detail.VectorGetByIndex_out_of_range _ _ _ _ hi2, ?_, rfl⟩
  simp only [set]
  exact detail.VectorSetByIndex_out_of_range _ _ _ _ _ hi2

end VectorImpl
end RAJA

namespace RAJA
namespace VectorImpl

variable {α : Type} {vt : VectorType}

/-- After the per-register path of `load`, element `i` is `ptr[i*stride]` for every `i` below
the capacity, and the length is the one asked for. -/
theorem load_registers_get [Zero α] (hfull : vt.full_registers) (x : VectorImpl α vt)
    (mem : Memory α) (ptr stride : Int) (length : Nat)
    (hfast : (vt.s_is_fixed || decide (length = vt.num_elem)) = true)
    (i : Nat) (hi : i < vt.num_elem) :
    (x.load mem ptr stride length).get i = mem (ptr + (i : Int) * stride) ∧
      (x.load mem ptr stride length).m_length = length := by
  obtain ⟨j, l, hj, _, hsum, hget, _⟩ := get_set_resolution (α := α) i hi
  have hpre := detail.sum_take_full vt.num_elems hfull j hj
  simp only [load, hfast, if_true]
  refine ⟨?_, (forLoop_setReg_vector _ 0 _ _ 0).2⟩
  rw [hget, (forLoop_setReg_vector _ 0 _ _ j).1, if_pos ⟨Nat.zero_le j, hj⟩]
  simp only [Register.load, Register.load_strided]
  congr 1
  have e : (i : Int) = (j : Int) * (vt.register0_num_elem : Int) + (l : Int) := by
    rw [← hsum, hpre]; push_cast; rfl
  rw [e]; ring

/-- After the element-by-element path of `load`, element `i` is `ptr[i*stride]` for every `i`
below the length, and the length is the one asked for. -/
theorem load_scalar_get [Zero α] (x : VectorImpl α vt)
    (mem : Memory α) (ptr stride : Int) (length : Nat) (hlen : length ≤ vt.num_elem)
    (hslow : (vt.s_is_fixed || decide (length = vt.num_elem)) = false)
    (i : Nat) (hi : i < length) :
    (x.load mem ptr stride length).get i = mem (ptr + (i : Int) * stride) ∧
      (x.load mem ptr stride length).m_length = length := by
  simp only [load, hslow, Bool.false_eq_true, if_false]
  constructor
  · exact forLoop_hit (fun v : VectorImpl α vt => v.get i)
      (fun i v => v.set i (mem (ptr + (i : Int) * stride))) 0 i _ (Nat.zero_le i)
      (fun s => get_set_same s i _ (by omega)) length hi
      (fun k hk _ s => get_set_other s k i _ (by omega)) _
  · exact forLoop_frame (fun v : VectorImpl α vt => v.m_length)
      (fun i v => v.set i (mem (ptr + (i : Int) * stride))) 0 length (fun i _ _ s => rfl) _

theorem load_m_length (x : VectorImpl α vt) (mem : Memory α) (ptr stride : Int)
    (length : Nat) : (x.load mem ptr stride length).m_length = length := by
  unfold load
  split_ifs
  · exact (forLoop_setReg_vector _ 0 _ _ 0).2
  · exact forLoop_frame (fun v : VectorImpl α vt => v.m_length)
      (fun i v => v.set i (mem (ptr + (i : Int) * stride))) 0 length (fun i _ _ s => rfl) _

/-- Both paths of `load`: element `i` is `ptr[i*stride]` for every `i` below the length. -/
theorem load_get_of_lt [Zero α] (hfull : vt.full_registers) (x : VectorImpl α vt)
    (mem : Memory α) (ptr stride : Int) (length : Nat) (hlen : length ≤ vt.num_elem)
    (i : Nat) (hi : i < length) :
    (x.load mem ptr stride length).get i = mem (ptr + (i : Int) * stride) := by
  cases hpath : (vt.s_is_fixed || decide (length = vt.num_elem))
  · exact (load_scalar_get x mem ptr stride length hlen hpath i hi).1
  · exact (load_registers_get hfull x mem ptr stride length hpath i (by omega)).1

/-- C14. Vector load: for every vector, fixed or streaming, of the Vector data model (every
register but the last of full width), every stride and every `length <= capacity`, after
`load(ptr, stride, length)` `size() == length` and `get(i) == ptr[i*stride]` for every
`i < length`, on the per-register path (fixed, or `length == capacity`, register `k` loading
from `ptr + k*stride*W`) as on the element-by-element path. -/
theorem load_size_get [Zero α] (hfull : vt.full_registers) (x : VectorImpl α vt)
    (mem : Memory α) (ptr stride : Int) (length : Nat) (hlen : length ≤ vt.num_elem) :
    (x.load mem ptr stride length).size = length ∧
    (∀ i, i < length → (x.load mem ptr stride length).get i = mem (ptr + (i : Int) * stride)) ∧
    ((vt.s_is_fixed || decide (length = vt.num_elem)) = true →
      ∀ k, k < vt.num_registers → (x.load mem ptr stride length).m_registers k =
        Register.load mem (ptr + (k : Int) * stride * (vt.register0_num_elem : Int)) stride) := by
  refine ⟨load_m_length x mem ptr stride length,
    fun i hi => load_get_of_lt hfull x mem ptr stride length hlen i hi, fun hfast k hk => ?_⟩
  simp only [load, hfast, if_true]
  rw [(forLoop_setReg_vector _ 0 _ _ k).1, if_pos ⟨Nat.zero_le k, hk⟩]

end VectorImpl
end RAJA

namespace RAJA
namespace VectorImpl

variable {α : Type} {vt : VectorType}

theorem stride_address_ne (ptr stride : Int) (a b : Nat) (hs : 1 ≤ stride) (hab : a ≠ b) :
    ptr + (a : Int) * stride ≠ ptr + (b : Int) * stride := by
  intro h
  have h2 : (a : Int) * stride = (b : Int) * stride := by linarith
  have h3 : (a : Int) = (b : Int) := mul_right_cancel₀ (by omega : stride ≠ 0) h2
  exact hab (by exact_mod_cast h3)

/-- After the per-register path of `store` with a positive stride, `ptr[i*stride]` holds
element `i`, for every `i` below the capacity. -/
theorem store_registers_get [Zero α] (hfull : vt.full_registers) (x : VectorImpl α vt)
    (mem : Memory α) (ptr stride : Int) (hs : 1 ≤ stride)
    (hfast : (vt.s_is_fixed || decide (x.m_length = vt.num_elem)) = true)
    (i : Nat) (hi : i < vt.num_elem) :
    x.store ptr stride mem (ptr + (i : Int) * stride) = x.get i := by
  obtain ⟨j, l, hj, hl, hsum, hget, _⟩ := get_set_resolution (α := α) i hi
  have hpre := detail.sum_take_full vt.num_elems hfull j hj
  have hi2 : i = j * vt.register0_num_elem + l := by rw [← hsum, hpre]; rfl
  have haddr : ∀ (k l2 : Nat),
      ptr + (k : Int) * stride * (vt.register0_num_elem : Int) + (l2 : Int) * stride =
        ptr + ((k * vt.register0_num_elem + l2 : Nat) : Int) * stride := by
    intro k l2; push_cast; ring
  simp only [store, hfast, if_true, Register.store, Register.store_strided]
  rw [hget]
  refine forLoop_hit (fun m : Memory α => m (ptr + (i : Int) * stride)) _ 0 j
    (x.m_registers j l) (Nat.zero_le j) (fun s => ?_) vt.num_registers hj
    (fun k hk1 hk2 s => ?_) mem
  · have e : ptr + (i : Int) * stride =
        ptr + (j : Int) * stride * (vt.register0_num_elem : Int) + (l : Int) * stride := by
      rw [haddr, ← hi2]
    show Register.store_strided_n _ _ _ _ s (ptr + (i : Int) * stride) = _
    rw [e]
    exact TensorRegister.store_strided_n_hit (x.m_registers j) _ stride _ s l hl
      (fun k hk1 _ => stride_address_ne _ stride k l hs (by omega))
  · show Register.store_strided_n _ _ _ _ s (ptr + (i : Int) * stride) = _
    refine TensorRegister.store_strided_n_frame (x.m_registers k) _ stride _ s _ (fun l2 _ => ?_)
    rw [haddr]
    refine stride_address_ne ptr stride _ i hs ?_
    have hwj : vt.register_num_elem j = vt.register0_num_elem :=
      hfull j (by omega)
    have hmul : (j + 1) * vt.register0_num_elem ≤ k * vt.register0_num_elem :=
      Nat.mul_le_mul_right _ (by omega)
    rw [Nat.succ_mul] at hmul
    rw [hwj] at hl
    omega

/-- After the element-by-element path of `store` with a positive stride, `ptr[i*stride]` holds
element `i`, for every `i` below the length. -/
theorem store_scalar_get [Zero α] (x : VectorImpl α vt)
    (mem : Memory α) (ptr stride : Int) (hs : 1 ≤ stride)
    (hslow : (vt.s_is_fixed || decide (x.m_length = vt.num_elem)) = false)
    (i : Nat) (hi : i < x.m_length) :
    x.store ptr stride mem (ptr + (i : Int) * stride) = x.get i := by
  simp only [store, hslow, Bool.false_eq_true, if_false]
  exact forLoop_hit (fun m : Memory α => m (ptr + (i : Int) * stride))
    (fun i m => Function.update m (ptr + (i : Int) * stride) (x.get i)) 0 i (x.get i)
    (Nat.zero_le i) (fun s => Function.update_same _ _ _) x.m_length hi
    (fun k hk _ s => Function.update_noteq
      (Ne.symm (stride_address_ne ptr stride k i hs (by omega))) _ _) mem

/-- C15. Vector store/load round trip: for every vector `x` of the Vector data model with
`length <= capacity` and every `stride >= 1`, `x.store(ptr, stride)` writes `x.get(i)` to
`ptr[i*stride]` for every `i < length`, and `y.load(ptr, stride, x.size())` then gives
`y.size() == x.size()` and `y.get(i) == x.get(i)` for every `i < length`. -/
theorem store_load_round_trip [Zero α] (hfull : vt.full_registers) (x y : VectorImpl α vt)
    (mem : Memory α) (ptr stride : Int) (hlen : x.m_length ≤ vt.num_elem) (hs : 1 ≤ stride) :
    (∀ i, i < x.m_length → x.store ptr stride mem (ptr + (i : Int) * stride) = x.get i) ∧
    (y.load (x.store ptr stride mem) ptr stride x.size).size = x.size ∧
    (∀ i, i < x.m_length →
      (y.load (x.store ptr stride mem) ptr stride x.size).get i = x.get i) := by
  have hst : ∀ i, i < x.m_length →
      x.store ptr stride mem (ptr + (i : Int) * stride) = x.get i := by
    intro i hi
    cases hpath : (vt.s_is_fixed || decide (x.m_length = vt.num_elem))
    · exact store_scalar_get x mem ptr stride hs hpath i hi
    · exact store_registers_get hfull x mem ptr stride hs hpath i (by omega)
  refine ⟨hst, load_m_length y _ ptr stride x.size, fun i hi => ?_⟩
  rw [load_get_of_lt hfull y _ ptr stride x.size hlen i hi]
  exact hst i hi

end VectorImpl
end RAJA

namespace RAJA
namespace detail

variable {α : Type}

theorem register_sum_eq [AddCommMonoid α] (w : Nat) (x : Register α) :
    Register.sum w x = ∑ l ∈ Finset.range w, x l :=
  forLoop_add_eq_sum x w

/-- The per-register sums, added up, are the sum of the elements in index order. -/
theorem registerPack_sum [AddCommMonoid α] (regs : Nat → Register α) :
    ∀ (ws : List Nat) (k : Nat),
      (registerPack Register.sum regs ws k).sum =
        ∑ i ∈ Finset.range ws.sum, VectorGetByIndex regs ws k i := by
  intro ws
  induction ws with
  | nil => intro k; simp [registerPack]
  | cons w rest ih =>
    intro k
    simp only [registerPack, List.sum_cons, ih, register_sum_eq, Finset.sum_range_add]
    congr 1
    · refine Finset.sum_congr rfl (fun i hi => ?_)
      have hi2 : i < w := Finset.mem_range.mp hi
      simp [VectorGetByIndex, hi2, Register.get]
    · refine Finset.sum_congr rfl (fun i _ => ?_)
      have h1 : ¬ (w + i < w) := by omega
      simp [VectorGetByIndex, h1]

end detail

namespace VectorImpl

variable {α : Type} {vt : VectorType}

theorem sum_registers_eq [AddCommMonoid α] (x : VectorImpl α vt) :
    x.sum_registers = ∑ i ∈ Finset.range vt.num_elem, x.get i := by
  unfold sum_registers
  rw [foldl_sum_eq_sum, detail.registerPack_sum, num_elem_eq_sum]
  rfl

theorem sum_scalar_eq [AddCommMonoid α] (x : VectorImpl α vt) :
    x.sum_scalar = ∑ i ∈ Finset.range x.m_length, x.get i :=
  forLoop_add_eq_sum (fun i => x.get i) x.m_length

/-- C16. Vector sum: for every vector with `length <= capacity`, `sum()` equals the sum of
`get(i)` over `i < length` in exact arithmetic; the register-level fold, taken when
`length == capacity`, and the scalar loop, taken otherwise, agree whenever both apply. -/
theorem sum_eq_sum_get [AddCommMonoid α] (x : VectorImpl α vt)
    (_hlen : x.m_length ≤ vt.num_elem) :
    x.sum = ∑ i ∈ Finset.range x.m_length, x.get i ∧
    (x.m_length = vt.num_elem → x.sum = x.sum_registers) ∧
    (x.m_length ≠ vt.num_elem → x.sum = x.sum_scalar) ∧
    (x.m_length = vt.num_elem → x.sum_registers = x.sum_scalar) := by
  refine ⟨?_, fun h => by simp [sum, h], fun h => by simp [sum, h], fun h => ?_⟩
  · unfold sum
    split_ifs with h
    · rw [sum_registers_eq, h]
    · exact sum_scalar_eq x
  · rw [sum_registers_eq, sum_scalar_eq, h]

end VectorImpl
end RAJA

namespace RAJA
namespace VectorImpl

variable {α : Type} {vt : VectorType}

/-- The scalar loop of `max()`: `result = f 0; for i in [1, n): result = result > f i ? result
: f i` ends with the largest of `f 0, ..., f (n-1)`. -/
theorem forLoop_max_spec [LinearOrder α] (f : Nat → α) :
    ∀ n, 1 ≤ n →
      (∃ i, i < n ∧ forLoop 1 n (fun i r => if f i < r then r else f i) (f 0) = f i) ∧
      (∀ i, i < n → f i ≤ forLoop 1 n (fun i r => if f i < r then r else f i) (f 0)) := by
  intro n
  induction n with
  | zero => intro h; omega
  | succ n ih =>
    intro _
    by_cases hn : n = 0
    · subst hn
      rw [forLoop_empty 1 1 (Nat.le_refl 1)]
      exact ⟨⟨0, by omega, rfl⟩, fun i hi => by
        have : i = 0 := by omega
        subst this; exact le_refl _⟩
    · have h1 : 1 ≤ n := by omega
      obtain ⟨⟨a, ha, hMa⟩, hub⟩ := ih h1
      rw [forLoop_succ 1 n h1]
      by_cases hc : f n < forLoop 1 n (fun i r => if f i < r then r else f i) (f 0)
      · simp only [hc, if_true]
        refine ⟨⟨a, by omega, hMa⟩, fun i hi => ?_⟩
        by_cases hin : i = n
        · subst hin; exact le_of_lt hc
        · exact hub i (by omega)
      · simp only [hc, if_false]
        refine ⟨⟨n, by omega, rfl⟩, fun i hi => ?_⟩
        by_cases hin : i = n
        · subst hin; exact le_refl _
        · exact le_trans (hub i (by omega)) (not_lt.mp hc)

/-- The scalar loop of `min()` ends with the smallest of `f 0, ..., f (n-1)`. -/
theorem forLoop_min_spec [LinearOrder α] (f : Nat → α) :
    ∀ n, 1 ≤ n →
      (∃ i, i < n ∧ forLoop 1 n (fun i r => if r < f i then r else f i) (f 0) = f i) ∧
      (∀ i, i < n → forLoop 1 n (fun i r => if r < f i then r else f i) (f 0) ≤ f i) := by
  intro n
  induction n with
  | zero => intro h; omega
  | succ n ih =>
    intro _
    by_cases hn : n = 0
    · subst hn
      rw [forLoop_empty 1 1 (Nat.le_refl 1)]
      exact ⟨⟨0, by omega, rfl⟩, fun i hi => by
        have : i = 0 := by omega
        subst this; exact le_refl _⟩
    · have h1 : 1 ≤ n := by omega
      obtain ⟨⟨a, ha, hMa⟩, hlb⟩ := ih h1
      rw [forLoop_succ 1 n h1]
      by_cases hc : forLoop 1 n (fun i r => if r < f i then r else f i) (f 0) < f n
      · simp only [hc, if_true]
        refine ⟨⟨a, by omega, hMa⟩, fun i hi => ?_⟩
        by_cases hin : i = n
        · subst hin; exact le_of_lt hc
        · exact hlb i (by omega)
      · simp only [hc, if_false]
        refine ⟨⟨n, by omega, rfl⟩, fun i hi => ?_⟩
        by_cases hin : i = n
        · subst hin; exact le_refl _
        · exact le_trans (not_lt.mp hc) (hlb i (by omega))

/-- C17 (amended). Vector max/min honour the logical length of a streaming vector: for every
streaming vector with `1 <= length < capacity`, `max()` is the maximum and `min()` the minimum
of `get(i)` over `i < length` only (the scalar loop is taken). -/
theorem max_min_streaming [LinearOrder α] [Zero α] (x : VectorImpl α vt)
    (hstream : vt.s_is_fixed = false) (h1 : 1 ≤ x.m_length) (h2 : x.m_length < vt.num_elem) :
    ((∃ i, i < x.m_length ∧ x.max = x.get i) ∧ (∀ i, i < x.m_length → x.get i ≤ x.max)) ∧
    ((∃ i, i < x.m_length ∧ x.min = x.get i) ∧ (∀ i, i < x.m_length → x.min ≤ x.get i)) := by
  have hne : ¬ x.m_length = vt.num_elem := by omega
  constructor
  · simp only [max, hstream, hne, decide_False, Bool.or_false, Bool.false_eq_true, if_false]
    exact forLoop_max_spec (fun i => x.get i) x.m_length h1
  · simp only [min, hstream, hne, decide_False, Bool.or_false, Bool.false_eq_true, if_false]
    exact forLoop_min_spec (fun i => x.get i) x.m_length h1

/-- C17, as stated, fails for fixed vectors: the fixed vector of one 4-lane register loaded with
`load(ptr, 1, 3)` from `{1,2,3,4}` has length 3 below its capacity 4 and elements `1,2,3`, yet
`max()` is 4, the lane past the length; loaded from `{4,3,2,1}` (stride -1 from address 3) it
has elements `4,3,2` and `min()` is 1. -/
theorem max_min_fixed_counterexample :
    sampleFixedFour.s_is_fixed = true ∧ sampleFixedFour.num_elem = 4 ∧
    ((sampleVectorZero sampleFixedFour).load sampleMemory 0 1 3).size = 3 ∧
    (∀ i, i < 3 → ((sampleVectorZero sampleFixedFour).load sampleMemory 0 1 3).get i < 4) ∧
    ((sampleVectorZero sampleFixedFour).load sampleMemory 0 1 3).max = 4 ∧
    ((sampleVectorZero sampleFixedFour).load sampleMemory 3 (-1) 3).size = 3 ∧
    (∀ i, i < 3 → 1 < ((sampleVectorZero sampleFixedFour).load sampleMemory 3 (-1) 3).get i) ∧
    ((sampleVectorZero sampleFixedFour).load sampleMemory 3 (-1) 3).min = 1 := by
  decide

/-- C17 (amended) at the streaming sample of capacity 8 loaded with 3 elements `{1,2,3}`:
`max()` is 3 and `min()` is 1, both among the first three elements. -/
theorem max_min_streaming_witness :
    (∀ i, i < 3 → ((sampleVectorIota sampleStream).load sampleMemory 0 1 3).get i ≤
      ((sampleVectorIota sampleStream).load sampleMemory 0 1 3).max) ∧
    (∀ i, i < 3 → ((sampleVectorIota sampleStream).load sampleMemory 0 1 3).min ≤
      ((sampleVectorIota sampleStream).load sampleMemory 0 1 3).get i) ∧
    ((sampleVectorIota sampleStream).load sampleMemory 0 1 3).max = 3 ∧
    ((sampleVectorIota sampleStream).load sampleMemory 0 1 3).min = 1 :=
  have h := max_min_streaming ((sampleVectorIota sampleStream).load sampleMemory 0 1 3)
    (by rfl) (by decide) (by decide)
  ⟨h.1.2, h.2.2, by decide, by decide⟩

end VectorImpl
end RAJA

namespace RAJA
namespace VectorImpl

variable {α : Type} {vt : VectorType}

/-- Element `i` of a register-by-register binary operation is lane `l` of `op` applied to the
registers `j` holding element `i` of the operands. -/
theorem elementwise_get [Zero α] (op : Register α → Register α → Register α)
    (a b : VectorImpl α vt) (fresh : Nat → Register α) (i : Nat) (hi : i < vt.num_elem) :
    ∃ j l, a.get i = a.m_registers j l ∧ b.get i = b.m_registers j l ∧
      (elementwise op a b fresh).get i = op (a.m_registers j) (b.m_registers j) l := by
  obtain ⟨j, l, hj, _, _, hget, _⟩ := get_set_resolution (α := α) i hi
  refine ⟨j, l, hget a, hget b, ?_⟩
  rw [hget]
  simp only [elementwise]
  rw [(forLoop_setReg_vector _ 0 _ _ j).1, if_pos ⟨Nat.zero_le j, hj⟩]

/-- Element `i` of a register-by-register ternary operation. -/
theorem elementwise3_get [Zero α] (op : Register α → Register α → Register α → Register α)
    (a b c : VectorImpl α vt) (fresh : Nat → Register α) (i : Nat) (hi : i < vt.num_elem) :
    ∃ j l, a.get i = a.m_registers j l ∧ b.get i = b.m_registers j l ∧
      c.get i = c.m_registers j l ∧
      (elementwise3 op a b c fresh).get i =
        op (a.m_registers j) (b.m_registers j) (c.m_registers j) l := by
  obtain ⟨j, l, hj, _, _, hget, _⟩ := get_set_resolution (α := α) i hi
  refine ⟨j, l, hget a, hget b, hget c, ?_⟩
  rw [hget]
  simp only [elementwise3]
  rw [(forLoop_setReg_vector _ 0 _ _ j).1, if_pos ⟨Nat.zero_le j, hj⟩]

/-- C18. Vector arithmetic narrows to the shorter operand: for all vectors `a`, `b` (and `c`),
`add`, `subtract`, `multiply`, `divide`, `vmax` and `vmin` return a vector `r` with
`r.size() == min(a.size(), b.size())` and `r.get(i) == a.get(i) op b.get(i)` for every
`i < capacity`; `fused_multiply_add(b,c)` and `fused_multiply_subtract(b,c)` return size
`min(a.size(), b.size(), c.size())` with `r.get(i) == a.get(i)*b.get(i) + c.get(i)`, respectively `- c.get(i)`. -/
theorem arithmetic_size_get [Add α] [Sub α] [Mul α] [Div α] [Max α] [Min α] [Zero α]
    (a b c : VectorImpl α vt) (fresh : Nat → Register α) (i : Nat) (hi : i < vt.num_elem) :
    ((a.add b fresh).size = Nat.min a.size b.size ∧
      (a.add b fresh).get i = a.get i + b.get i) ∧
    ((a.subtract b fresh).size = Nat.min a.size b.size ∧
      (a.subtract b fresh).get i = a.get i - b.get i) ∧
    ((a.multiply b fresh).size = Nat.min a.size b.size ∧
      (a.multiply b fresh).get i = a.get i * b.get i) ∧
    ((a.divide b fresh).size = Nat.min a.size b.size ∧
      (a.divide b fresh).get i = a.get i / b.get i) ∧
    ((a.vmax b fresh).size = Nat.min a.size b.size ∧
      (a.vmax b fresh).get i = Max.max (a.get i) (b.get i)) ∧
    ((a.vmin b fresh).size = Nat.min a.size b.size ∧
      (a.vmin b fresh).get i = Min.min (a.get i) (b.get i)) ∧
    ((a.fused_multiply_add b c fresh).size = Nat.min (Nat.min a.size b.size) c.size ∧
      (a.fused_multiply_add b c fresh).get i = a.get i * b.get i + c.get i) ∧
    ((a.fused_multiply_subtract b c fresh).size = Nat.min (Nat.min a.size b.size) c.size ∧
      (a.fused_multiply_subtract b c fresh).get i = a.get i * b.get i - c.get i) := by
  refine ⟨⟨rfl, ?_⟩, ⟨rfl, ?_⟩, ⟨rfl, ?_⟩, ⟨rfl, ?_⟩, ⟨rfl, ?_⟩, ⟨rfl, ?_⟩, ⟨rfl, ?_⟩, ⟨rfl, ?_⟩⟩
  · obtain ⟨j, l, ha, hb, hr⟩ := elementwise_get Register.add a b fresh i hi
    rw [ha, hb]; exact hr
  · obtain ⟨j, l, ha, hb, hr⟩ := elementwise_get Register.subtract a b fresh i hi
    rw [ha, hb]; exact hr
  · obtain ⟨j, l, ha, hb, hr⟩ := elementwise_get Register.multiply a b fresh i hi
    rw [ha, hb]; exact hr
  · obtain ⟨j, l, ha, hb, hr⟩ := elementwise_get Register.divide a b fresh i hi
    rw [ha, hb]; exact hr
  · obtain ⟨j, l, ha, hb, hr⟩ := elementwise_get Register.vmax a b fresh i hi
    rw [ha, hb]; exact hr
  · obtain ⟨j, l, ha, hb, hr⟩ := elementwise_get Register.vmin a b fresh i hi
    rw [ha, hb]; exact hr
  · obtain ⟨j, l, ha, hb, hc, hr⟩ :=
      elementwise3_get Register.fused_multiply_add a b c fresh i hi
    rw [ha, hb, hc]; exact hr
  · obtain ⟨j, l, ha, hb, hc, hr⟩ :=
      elementwise3_get Register.fused_multiply_subtract a b c fresh i hi
    rw [ha, hb, hc]; exact hr

end VectorImpl
end RAJA

namespace RAJA
namespace VectorImpl

/-- C14 at the fixed sample (registers of 4 and 2 lanes) loaded with stride 2 and length 3:
the size is 3 and element 1 is `ptr[2]`. -/
theorem load_size_get_witness :
    ((sampleVectorZero sampleFixed).load sampleMemory 0 2 3).size = 3 ∧
    ((sampleVectorZero sampleFixed).load sampleMemory 0 2 3).get 1 =
      sampleMemory (0 + ((1 : Nat) : Int) * 2) :=
  have h := load_size_get (by decide) (sampleVectorZero sampleFixed) sampleMemory 0 2 3
    (by decide)
  ⟨h.1, h.2.1 1 (by decide)⟩

/-- C15 at the streaming sample holding 5 elements, stored with stride 3 from address 100 and
loaded back: element 4. -/
theorem store_load_round_trip_witness :
    ((sampleVectorIota sampleStream).load sampleMemory 0 1 5).store 100 3 sampleMemory
        (100 + ((4 : Nat) : Int) * 3) =
      ((sampleVectorIota sampleStream).load sampleMemory 0 1 5).get 4 ∧
    ((sampleVectorZero sampleStream).load
        (((sampleVectorIota sampleStream).load sampleMemory 0 1 5).store 100 3 sampleMemory)
        100 3 ((sampleVectorIota sampleStream).load sampleMemory 0 1 5).size).get 4 =
      ((sampleVectorIota sampleStream).load sampleMemory 0 1 5).get 4 :=
  have h := store_load_round_trip (by decide)
    ((sampleVectorIota sampleStream).load sampleMemory 0 1 5) (sampleVectorZero sampleStream)
    sampleMemory 100 3 (by decide) (by decide)
  ⟨h.1 4 (by decide), h.2.2 4 (by decide)⟩

/-- C16 at the streaming sample holding the 5 elements `{1,...,5}`: the sum is 15. -/
theorem sum_eq_sum_get_witness :
    ((sampleVectorIota sampleStream).load sampleMemory 0 1 5).sum =
      ∑ i ∈ Finset.range 5, ((sampleVectorIota sampleStream).load sampleMemory 0 1 5).get i ∧
    ((sampleVectorIota sampleStream).load sampleMemory 0 1 5).sum = 15 :=
  ⟨(sum_eq_sum_get ((sampleVectorIota sampleStream).load sampleMemory 0 1 5) (by decide)).1,
   by decide⟩

/-- C18 at the fixed sample: a vector of length 3 added to one of length 6 has length 3, and
element 4 (lane 0 of register 1) is the sum of the two elements. -/
theorem arithmetic_size_get_witness :
    (((sampleVectorZero sampleFixed).load sampleMemory 0 2 3).add (sampleVectorIota sampleFixed)
        (fun _ => Register.broadcast 0)).size = 3 ∧
    (((sampleVectorZero sampleFixed).load sampleMemory 0 2 3).add (sampleVectorIota sampleFixed)
        (fun _ => Register.broadcast 0)).get 4 =
      ((sampleVectorZero sampleFixed).load sampleMemory 0 2 3).get 4 +
        (sampleVectorIota sampleFixed).get 4 :=
  have h := arithmetic_size_get ((sampleVectorZero sampleFixed).load sampleMemory 0 2 3)
    (sampleVectorIota sampleFixed) (sampleVectorIota sampleFixed)
    (fun _ => Register.broadcast 0) 4 (by decide)
  ⟨h.1.1, h.1.2⟩

/-- C19 at the fixed sample: writing element 5 (lane 1 of register 1) is read back, and element
4 keeps its value 11. -/
theorem set_get_resolution_witness :
    ((sampleVectorIota sampleFixed).set 5 77).get 5 = 77 ∧
    ((sampleVectorIota sampleFixed).set 5 77).get 4 = (sampleVectorIota sampleFixed).get 4 ∧
    ((sampleVectorIota sampleFixed).set 5 77).m_registers 1 1 = 77 :=
  have h := set_get_resolution (sampleVectorIota sampleFixed) 5 77 (by decide)
  ⟨h.2.1, h.2.2.1 4 (by decide) (by decide), by decide⟩

/-- C20 at the fixed sample of capacity 6: `get(6)` is zero and `set(6, 77)` changes nothing. -/
theorem get_set_out_of_range_witness :
    (sampleVectorIota sampleFixed).get 6 = 0 ∧
    ((sampleVectorIota sampleFixed).set 6 77).m_registers =
      (sampleVectorIota sampleFixed).m_registers :=
  have h := get_set_out_of_range (sampleVectorIota sampleFixed) 6 77 (by decide)
  ⟨h.1, h.2.1⟩

end VectorImpl
end RAJA
namespace RAJA
namespace TensorRegister

variable {α : Type} {t : TensorType}

/-- C25. Left matrix-vector product: for a `W x W` matrix `A` and every vector `v` of `W`
lanes, `A.left_multiply_vector(v).get(j)` is the sum over `i < W` of `v.get(i) * A.get(i,j)`
for every `j < W`, for both layouts (column-major by per-register dot products, row-major by
accumulation of scaled registers). -/
theorem left_multiply_vector_get [CommSemiring α]
    (hR : t.ROW_SIZE = t.s_register_width) (hC : t.COL_SIZE = t.s_register_width)
    (A : TensorRegister α t) (v result : Register α) (j : Nat) (hj : j < t.s_register_width) :
    Register.get (A.left_multiply_vector v result) j =
      ∑ i ∈ Finset.range t.s_register_width, Register.get v i * A.get i j := by
  have hN := square_num_registers hR hC
  simp only [Register.get, get]
  cases hcm : t.layout.is_column_major
  · have hrm := is_row_major_of_not_column t.layout hcm
    rw [left_multiply_vector_row_major A v result hcm j, hN]
    simp only [hrm, if_true]
    exact Finset.sum_congr rfl (fun i _ => mul_comm _ _)
  · have hrm : t.layout.is_row_major = false := by
      rw [is_column_major_eq_not] at hcm
      cases h : t.layout.is_row_major
      · rfl
      · rw [h] at hcm; exact absurd hcm (by decide)
    rw [left_multiply_vector_column_major A v result hcm j (hN ▸ hj)]
    simp only [hrm, Bool.false_eq_true, if_false]

/-- The register that `get(i,j)` and `set(val,i,j)` address exists, for a valid `(i,j)` of a
matrix with one register per row or column. -/
theorem get_register_lt (hW : 0 < t.s_register_width)
    (h1 : t.s_reg_matrix_size = t.s_register_width) (i j : Nat)
    (hi : i < t.ROW_SIZE) (hj : j < t.COL_SIZE) :
    (if t.layout.is_row_major then i else j) < t.s_num_registers := by
  rw [one_register_per_dim hW h1]
  split_ifs
  · exact hi
  · exact hj

/-- Element `(i,j)` of a matrix built register by register, `m_registers[k] = f k` for
`k < s_num_registers`. -/
theorem forLoop_setReg_get (f : Nat → Register α) (result : TensorRegister α t) (i j : Nat)
    (hreg : (if t.layout.is_row_major then i else j) < t.s_num_registers) :
    (forLoop 0 t.s_num_registers (fun k m => m.setReg k (f k)) result).get i j =
      if t.layout.is_row_major then f i j else f j i := by
  simp only [get, Register.get, forLoop_setReg, Nat.zero_le, true_and]
  split_ifs at hreg ⊢ <;> rfl

/-- C26. Matrix elementwise arithmetic is layout independent: for all matrices `A`, `B`, `C`
of one type, of either layout, and every `(i,j)` whose register exists (register `i` when
row-major, register `j` when column-major, below the register count),
`A.add(B).get(i,j) == A.get(i,j) + B.get(i,j)`, likewise for `subtract`, `multiply` and
`divide`, and `A.multiply_add(B, C).get(i,j) == A.get(i,j) * B.get(i,j) + C.get(i,j)`. -/
theorem elementwise_arithmetic_get [Add α] [Sub α] [Mul α] [Div α]
    (A B C result : TensorRegister α t) (i j : Nat)
    (hreg : (if t.layout.is_row_major then i else j) < t.s_num_registers) :
    (A.add B result).get i j = A.get i j + B.get i j ∧
    (A.subtract B result).get i j = A.get i j - B.get i j ∧
    (A.multiply B result).get i j = A.get i j * B.get i j ∧
    (A.divide B result).get i j = A.get i j / B.get i j ∧
    (A.multiply_add B C result).get i j = A.get i j * B.get i j + C.get i j := by
  refine ⟨?_, ?_, ?_, ?_, ?_⟩
  · unfold add
    rw [forLoop_setReg_get _ result i j hreg]
    simp only [get, Register.get, Register.add]
    split_ifs <;> rfl
  · unfold subtract
    rw [forLoop_setReg_get _ result i j hreg]
    simp only [get, Register.get, Register.subtract]
    split_ifs <;> rfl
  · unfold multiply
    rw [forLoop_setReg_get _ result i j hreg]
    simp only [get, Register.get, Register.multiply]
    split_ifs <;> rfl
  · unfold divide
    rw [forLoop_setReg_get _ result i j hreg]
    simp only [get, Register.get, Register.divide]
    split_ifs <;> rfl
  · unfold multiply_add
    rw [forLoop_setReg_get _ result i j hreg]
    simp only [get, Register.get, Register.multiply_add]
    split_ifs <;> rfl

/-- C27. Matrix get/set: for a matrix with one register per row (row-major) or per column
(column-major) and all valid `(r,c)`, `set(val, r, c)` followed by `get(r,c)` returns `val` and
`get(r2,c2)` is unchanged for every other valid `(r2,c2)`; row-major addresses register `r`
lane `c`, column-major register `c` lane `r`. -/
theorem set_get (_hW : 0 < t.s_register_width)
    (_h1 : t.s_reg_matrix_size = t.s_register_width)
    (A : TensorRegister α t) (val : α) (r c : Nat)
    (_hr : r < t.ROW_SIZE) (_hc : c < t.COL_SIZE) :
    (A.set val r c).get r c = val ∧
    (∀ r2 c2, r2 < t.ROW_SIZE → c2 < t.COL_SIZE → ¬ (r2 = r ∧ c2 = c) →
      (A.set val r c).get r2 c2 = A.get r2 c2) ∧
    (t.layout = TensorLayout.row_major →
      (A.set val r c).m_registers =
        Function.update A.m_registers r (Function.update (A.m_registers r) c val)) ∧
    (t.layout = TensorLayout.column_major →
      (A.set val r c).m_registers =
        Function.update A.m_registers c (Function.update (A.m_registers c) r val)) := by
  refine ⟨?_, fun r2 c2 _ _ hne => ?_, fun hl => ?_, fun hl => ?_⟩
  · cases hl : t.layout <;>
      simp [set, get, hl, TensorLayout.is_row_major, setReg, Register.set, Register.get]
  · cases hl : t.layout
    · simp only [set, get, hl, TensorLayout.is_row_major, if_true, setReg, Register.set,
        Register.get, Function.update_apply]
      by_cases h : r2 = r
      · have hc2 : c2 ≠ c := fun h2 => hne ⟨h, h2⟩
        simp [h, hc2]
      · simp [h]
    · simp only [set, get, hl, TensorLayout.is_row_major, Bool.false_eq_true, if_false, setReg,
        Register.set, Register.get, Function.update_apply]
      by_cases h : c2 = c
      · have hr2 : r2 ≠ r := fun h2 => hne ⟨h2, h⟩
        simp [h, hr2]
      · simp [h]
  · simp [set, hl, TensorLayout.is_row_major, setReg, Register.set]
  · simp [set, hl, TensorLayout.is_row_major, setReg, Register.set]

/-- C28. Matrix broadcast and clear: for every matrix and scalar `s`, after `broadcast(s)`
(also construction from `s` and assignment of `s`) every one of the `N` registers has every
lane equal to `s`, so `get(i,j) == s` for every `(i,j)` whose register exists (every valid
`(i,j)` when there is one register per row or column); after `clear()` every lane of every
register is 0. -/
theorem broadcast_clear [Zero α] (A fresh : TensorRegister α t) (s : α) (k l i j : Nat)
    (hk : k < t.s_num_registers)
    (hreg : (if t.layout.is_row_major then i else j) < t.s_num_registers) :
    (A.broadcast s).m_registers k l = s ∧
    (init_scalar fresh s).m_registers k l = s ∧
    (A.assign_scalar s).m_registers k l = s ∧
    (A.broadcast s).get i j = s ∧
    A.clear.m_registers k l = 0 := by
  refine ⟨?_, ?_, ?_, ?_, ?_⟩
  · simp [broadcast, forLoop_setReg, hk, Register.broadcast]
  · simp [init_scalar, broadcast, forLoop_setReg, hk, Register.broadcast]
  · simp [assign_scalar, broadcast, forLoop_setReg, hk, Register.broadcast]
  · unfold broadcast
    rw [forLoop_setReg_get _ A i j hreg]
    simp [Register.broadcast]
  · simp [clear, forLoop_setReg, hk, Register.broadcast]

/-- C29 on the code: the column-major `2 x 2` sample (register width 2) is dumped in one line
as `Matrix(2x2[ [1, 3], [2, 4] ]`, without the closing parenthesis after the counts, which is
appended together with the newline only when `one_line` is false. -/
theorem toString_one_line_sample :
    (sampleMatrix sampleType22).toString Int.repr true = "Matrix(2x2[ [1, 3], [2, 4] ]" ∧
    (sampleMatrix sampleType22).toString Int.repr false =
      "Matrix(2x2)\n[ [1, 3], \n  [2, 4] ]\n" ∧
    (sampleMatrix sampleType84).toString Int.repr true =
      "Matrix(4x4[ [1, 2, 3, 4], [5, 6, 7, 8], [9, 10, 11, 12], [13, 14, 15, 16] ]" := by
  decide

/-- C30. Tiling check: for a register width `W > 0` the shape `(ROW_SIZE, COL_SIZE)` passes the
`static_assert` `(ROW_SIZE*COL_SIZE) == ((ROW_SIZE*COL_SIZE)/W)*W` exactly when `W` divides
`ROW_SIZE*COL_SIZE`, that is when `ROW_SIZE*COL_SIZE mod W == 0`, and the matrix is backed by
`N = ROW_SIZE*COL_SIZE / W` registers, which then hold exactly `ROW_SIZE*COL_SIZE` lanes. -/
theorem tiling_check (t : TensorType) (_hW : 0 < t.s_register_width) :
    (t.static_assert ↔ t.s_register_width ∣ t.ROW_SIZE * t.COL_SIZE) ∧
    (t.static_assert ↔ (t.ROW_SIZE * t.COL_SIZE) % t.s_register_width = 0) ∧
    t.s_num_registers = (t.ROW_SIZE * t.COL_SIZE) / t.s_register_width ∧
    (t.static_assert → t.s_num_registers * t.s_register_width = t.ROW_SIZE * t.COL_SIZE) := by
  have hdvd : t.static_assert ↔ t.s_register_width ∣ t.ROW_SIZE * t.COL_SIZE := by
    unfold TensorType.static_assert TensorType.s_num_registers
    constructor
    · intro h
      exact Dvd.intro_left ((t.ROW_SIZE * t.COL_SIZE) / t.s_register_width) h.symm
    · intro h
      exact (Nat.div_mul_cancel h).symm
  refine ⟨hdvd, ?_, rfl, fun h => h.symm⟩
  rw [hdvd]
  exact Nat.dvd_iff_mod_eq_zero ..

end TensorRegister
end RAJA
namespace RAJA
namespace VectorImpl

variable {α : Type} {vt : VectorType}

/-- C21. Streaming fallback scenario: a streaming vector of capacity 8 (two registers of width
4) loaded with `load(ptr, 1, 5)` from `{1,2,3,4,5,99,99,99}` has `size() == 5`,
`get(i) == i+1` for `i < 5`, and `sum() == 15`, whatever it held before. -/
theorem scenario_streaming (prior : VectorImpl Int sampleStream) :
    sampleStream.s_is_fixed = false ∧ sampleStream.num_elems = [4, 4] ∧
    sampleStream.num_elem = 8 ∧
    (sampleArray 0 = 1 ∧ sampleArray 1 = 2 ∧ sampleArray 2 = 3 ∧ sampleArray 3 = 4 ∧
      sampleArray 4 = 5 ∧ sampleArray 5 = 99 ∧ sampleArray 6 = 99 ∧ sampleArray 7 = 99) ∧
    (prior.load sampleArray 0 1 5).size = 5 ∧
    (∀ i : Nat, i < 5 → (prior.load sampleArray 0 1 5).get i = (i : Int) + 1) ∧
    (prior.load sampleArray 0 1 5).sum = 15 := by
  refine ⟨rfl, rfl, rfl, by decide, rfl, ?_, rfl⟩
  intro i hi
  interval_cases i <;> rfl

/-- The value of `sum()`: the sum of the elements below the length. -/
theorem sum_eq_range_sum [AddCommMonoid α] (x : VectorImpl α vt) :
    x.sum = ∑ i ∈ Finset.range x.m_length, x.get i := by
  unfold sum
  split_ifs with h
  · rw [sum_registers_eq, h]
  · exact sum_scalar_eq x

/-- Element `i` of the elementwise product, for every index (zero on both sides past the
capacity). -/
theorem multiply_get [Semiring α] (a b : VectorImpl α vt) (fresh : Nat → Register α) (i : Nat) :
    (a.multiply b fresh).get i = a.get i * b.get i := by
  by_cases hi : i < vt.num_elem
  · obtain ⟨j, l, ha, hb, hr⟩ := elementwise_get Register.multiply a b fresh i hi
    rw [ha, hb]; exact hr
  · have hi2 : vt.num_elems.sum ≤ i := by rw [← num_elem_eq_sum]; omega
    simp only [get]
    rw [detail.VectorGetByIndex_out_of_range _ _ _ _ hi2,
      detail.VectorGetByIndex_out_of_range _ _ _ _ hi2, zero_mul]

/-- C22. Vector dot product: for all vectors `a` and `b`, `a.dot(b)` is the sum over
`i < min(a.size(), b.size())` of `a.get(i) * b.get(i)` in exact arithmetic, being the `sum()`
of the elementwise product. -/
theorem vector_dot_eq [Semiring α] (a b : VectorImpl α vt) (fresh : Nat → Register α) :
    a.dot b fresh = (a.multiply b fresh).sum ∧
    a.dot b fresh = ∑ i ∈ Finset.range (Nat.min a.size b.size), a.get i * b.get i := by
  refine ⟨rfl, ?_⟩
  have hlen : (a.multiply b fresh).m_length = Nat.min a.m_length b.m_length := rfl
  show (a.multiply b fresh).sum = _
  rw [sum_eq_range_sum, hlen]
  exact Finset.sum_congr rfl (fun i _ => multiply_get a b fresh i)

theorem broadcast_get [Zero α] (x : VectorImpl α vt) (s : α) (i : Nat) (hi : i < vt.num_elem) :
    (x.broadcast s).get i = s := by
  obtain ⟨j, l, hj, _, _, hget, _⟩ := get_set_resolution (α := α) i hi
  rw [hget]
  simp only [broadcast]
  rw [(forLoop_setReg_vector _ 0 _ _ j).1, if_pos ⟨Nat.zero_le j, hj⟩]
  rfl

/-- C23. Scalar-left operators: for every scalar `s` and vector `v` (length within the
capacity), each of `s + v`, `s - v`, `s * v` and `s / v` is the vector-vector operator applied
to the broadcast of `s` on the left and `v` on the right, so the result has
`size() == v.size()` and `get(i) == s op v.get(i)`, operand order kept, for every
`i < capacity`. -/
theorem scalar_left_operators [Add α] [Sub α] [Mul α] [Div α] [Zero α] (s : α)
    (v : VectorImpl α vt) (fresh fresh2 : Nat → Register α)
    (hlen : v.m_length ≤ vt.num_elem) (i : Nat) (hi : i < vt.num_elem) :
    (scalar_add s v fresh fresh2 = ((init fresh : VectorImpl α vt).broadcast s).add v fresh2 ∧
      (scalar_add s v fresh fresh2).size = v.size ∧
      (scalar_add s v fresh fresh2).get i = s + v.get i) ∧
    (scalar_subtract s v fresh fresh2 =
        ((init fresh : VectorImpl α vt).broadcast s).subtract v fresh2 ∧
      (scalar_subtract s v fresh fresh2).size = v.size ∧
      (scalar_subtract s v fresh fresh2).get i = s - v.get i) ∧
    (scalar_multiply s v fresh fresh2 =
        ((init fresh : VectorImpl α vt).broadcast s).multiply v fresh2 ∧
      (scalar_multiply s v fresh fresh2).size = v.size ∧
      (scalar_multiply s v fresh fresh2).get i = s * v.get i) ∧
    (scalar_divide s v fresh fresh2 =
        ((init fresh : VectorImpl α vt).broadcast s).divide v fresh2 ∧
      (scalar_divide s v fresh fresh2).size = v.size ∧
      (scalar_divide s v fresh fresh2).get i = s / v.get i) := by
  have hsize : Nat.min vt.num_elem v.m_length = v.m_length := Nat.min_eq_right hlen
  have hb := broadcast_get (init fresh : VectorImpl α vt) s i hi
  refine ⟨⟨rfl, hsize, ?_⟩, ⟨rfl, hsize, ?_⟩, ⟨rfl, hsize, ?_⟩, ⟨rfl, hsize, ?_⟩⟩
  · obtain ⟨j, l, ha, hv, hr⟩ :=
      elementwise_get Register.add ((init fresh : VectorImpl α vt).broadcast s) v fresh2
        i hi
    have e : (scalar_add s v fresh fresh2).get i =
        ((init fresh : VectorImpl α vt).broadcast s).get i + v.get i := by
      rw [ha, hv]; exact hr
    rw [e, hb]
  · obtain ⟨j, l, ha, hv, hr⟩ :=
      elementwise_get Register.subtract ((init fresh : VectorImpl α vt).broadcast s) v fresh2
        i hi
    have e : (scalar_subtract s v fresh fresh2).get i =
        ((init fresh : VectorImpl α vt).broadcast s).get i - v.get i := by
      rw [ha, hv]; exact hr
    rw [e, hb]
  · obtain ⟨j, l, ha, hv, hr⟩ :=
      elementwise_get Register.multiply ((init fresh : VectorImpl α vt).broadcast s) v fresh2
        i hi
    have e : (scalar_multiply s v fresh fresh2).get i =
        ((init fresh : VectorImpl α vt).broadcast s).get i * v.get i := by
      rw [ha, hv]; exact hr
    rw [e, hb]
  · obtain ⟨j, l, ha, hv, hr⟩ :=
      elementwise_get Register.divide ((init fresh : VectorImpl α vt).broadcast s) v fresh2
        i hi
    have e : (scalar_divide s v fresh fresh2).get i =
        ((init fresh : VectorImpl α vt).broadcast s).get i / v.get i := by
      rw [ha, hv]; exact hr
    rw [e, hb]

/-- C24. Vector length invariant: `length <= capacity` (the sum of the register widths) holds
after construction and is preserved by `broadcast`, `copy`, `set`, every elementwise
arithmetic operation and every compound assignment, and by `load` whenever its length argument
is `<= capacity`. -/
theorem length_invariant [Add α] [Sub α] [Mul α] [Div α] [Max α] [Min α]
    (a b c x : VectorImpl α vt) (fresh : Nat → Register α) (s : α) (i : Nat)
    (mem : Memory α) (ptr stride : Int) (length : Nat)
    (ha : a.m_length ≤ vt.num_elem) (_hb : b.m_length ≤ vt.num_elem)
    (_hc : c.m_length ≤ vt.num_elem) (hlen : length ≤ vt.num_elem) :
    ((init fresh : VectorImpl α vt).m_length ≤ vt.num_elem ∧
      (init_scalar fresh s : VectorImpl α vt).m_length ≤ vt.num_elem ∧
      (init_copy a).m_length ≤ vt.num_elem) ∧
    ((x.broadcast s).m_length ≤ vt.num_elem ∧ (x.assign_scalar s).m_length ≤ vt.num_elem ∧
      (x.copy a).m_length ≤ vt.num_elem ∧ (a.set i s).m_length ≤ vt.num_elem) ∧
    ((a.add b fresh).m_length ≤ vt.num_elem ∧ (a.subtract b fresh).m_length ≤ vt.num_elem ∧
      (a.multiply b fresh).m_length ≤ vt.num_elem ∧ (a.divide b fresh).m_length ≤ vt.num_elem ∧
      (a.vmax b fresh).m_length ≤ vt.num_elem ∧ (a.vmin b fresh).m_length ≤ vt.num_elem ∧
      (a.fused_multiply_add b c fresh).m_length ≤ vt.num_elem ∧
      (a.fused_multiply_subtract b c fresh).m_length ≤ vt.num_elem) ∧
    ((a.add_assign b fresh).m_length ≤ vt.num_elem ∧
      (a.subtract_assign b fresh).m_length ≤ vt.num_elem ∧
      (a.multiply_assign b fresh).m_length ≤ vt.num_elem ∧
      (a.divide_assign b fresh).m_length ≤ vt.num_elem) ∧
    (x.load mem ptr stride length).m_length ≤ vt.num_elem := by
  have h2 : Nat.min a.m_length b.m_length ≤ vt.num_elem :=
    le_trans (Nat.min_le_left _ _) ha
  have h3 : Nat.min (Nat.min a.m_length b.m_length) c.m_length ≤ vt.num_elem :=
    le_trans (Nat.min_le_left _ _) h2
  refine ⟨⟨le_refl _, le_refl _, ha⟩, ⟨le_refl _, le_refl _, ha, ha⟩,
    ⟨h2, h2, h2, h2, h2, h2, h3, h3⟩, ⟨h2, h2, h2, h2⟩, ?_⟩
  rw [load_m_length]; exact hlen

end VectorImpl
end RAJA
namespace RAJA
namespace TensorRegister

/-- C25 at the row-major `4 x 4` sample and the vector `{1, 0, 0, 0}`: lane 2. -/
theorem left_multiply_vector_get_witness :
    Register.get ((sampleMatrix sampleType44).left_multiply_vector sampleVector
        (Register.broadcast 0)) 2 =
      ∑ i ∈ Finset.range 4, Register.get sampleVector i * (sampleMatrix sampleType44).get i 2 ∧
    Register.get ((sampleMatrix sampleType44).left_multiply_vector sampleVector
        (Register.broadcast 0)) 2 = 3 :=
  ⟨left_multiply_vector_get (by rfl) (by rfl) (sampleMatrix sampleType44) sampleVector
    (Register.broadcast 0) 2 (by decide), by decide⟩

/-- C26 at the column-major `2 x 2` sample added to itself, element `(0,1)` being `3 + 3`, and
at the row-major `2 x 2` sample with register width 4 (both rows in one register) multiplied by
itself, element `(0,1)` being `2 * 2`. -/
theorem elementwise_arithmetic_get_witness :
    ((sampleMatrix sampleType22).add (sampleMatrix sampleType22) (sampleZero sampleType22)).get
        0 1 = (sampleMatrix sampleType22).get 0 1 + (sampleMatrix sampleType22).get 0 1 ∧
    (sampleMatrix sampleType22).get 0 1 = 3 ∧
    ((sampleMatrix sampleTypeTwoRows).multiply (sampleMatrix sampleTypeTwoRows)
        (sampleZero sampleTypeTwoRows)).get 0 1 =
      (sampleMatrix sampleTypeTwoRows).get 0 1 * (sampleMatrix sampleTypeTwoRows).get 0 1 ∧
    (sampleMatrix sampleTypeTwoRows).get 0 1 = 2 :=
  ⟨(elementwise_arithmetic_get (sampleMatrix sampleType22)
    (sampleMatrix sampleType22) (sampleMatrix sampleType22) (sampleZero sampleType22) 0 1
    (by decide)).1, by decide,
   (elementwise_arithmetic_get (sampleMatrix sampleTypeTwoRows)
    (sampleMatrix sampleTypeTwoRows) (sampleMatrix sampleTypeTwoRows)
    (sampleZero sampleTypeTwoRows) 0 1 (by decide)).2.2.1, by decide⟩

/-- C27 at the row-major `4 x 4` sample: writing 77 at `(1,2)` is read back, `(1,3)` keeps its
value 8, and register 1 lane 2 holds the value. -/
theorem set_get_witness :
    ((sampleMatrix sampleType44).set 77 1 2).get 1 2 = 77 ∧
    ((sampleMatrix sampleType44).set 77 1 2).get 1 3 = (sampleMatrix sampleType44).get 1 3 ∧
    ((sampleMatrix sampleType44).set 77 1 2).m_registers 1 2 = 77 :=
  have h := set_get (by decide) (by rfl) (sampleMatrix sampleType44) 77 1 2 (by decide)
    (by decide)
  ⟨h.1, h.2.1 1 3 (by decide) (by decide) (by decide), by decide⟩

/-- C28 at the row-major `8 x 4` sample: after `broadcast(7)` lane 3 of register 5 and element
`(5,3)` are 7, and after `clear()` the lane is 0. -/
theorem broadcast_clear_witness :
    ((sampleMatrix sampleType84).broadcast 7).m_registers 5 3 = 7 ∧
    ((sampleMatrix sampleType84).broadcast 7).get 5 3 = 7 ∧
    (sampleMatrix sampleType84).clear.m_registers 5 3 = 0 :=
  have h := broadcast_clear (sampleMatrix sampleType84) (sampleZero sampleType84) 7 5 3 5 3
    (by decide) (by decide)
  ⟨h.1, h.2.2.2.1, h.2.2.2.2⟩

/-- C30 at the row-major `8 x 4` shape with register width 4: accepted, 8 registers. -/
theorem tiling_check_witness :
    sampleType84.static_assert ∧ sampleType84.s_num_registers = 8 ∧
    (sampleType84.static_assert ↔ (sampleType84.ROW_SIZE * sampleType84.COL_SIZE) % 4 = 0) :=
  ⟨by decide, by decide, (tiling_check sampleType84 (by decide)).2.1⟩

end TensorRegister

namespace VectorImpl

/-- C23 at the fixed sample: `100 - v` has the size of `v` and element 4 is `100 - 11`. -/
theorem scalar_left_operators_witness :
    (scalar_subtract 100 (sampleVectorIota sampleFixed) (fun _ => Register.broadcast 0)
        (fun _ => Register.broadcast 0)).size = (sampleVectorIota sampleFixed).size ∧
    (scalar_subtract 100 (sampleVectorIota sampleFixed) (fun _ => Register.broadcast 0)
        (fun _ => Register.broadcast 0)).get 4 = 100 - (sampleVectorIota sampleFixed).get 4 ∧
    (sampleVectorIota sampleFixed).get 4 = 11 :=
  have h := scalar_left_operators (100 : Int) (sampleVectorIota sampleFixed)
    (fun _ => Register.broadcast 0) (fun _ => Register.broadcast 0) (by decide) 4 (by decide)
  ⟨h.2.1.2.1, h.2.1.2.2, by decide⟩

/-- C24 at the streaming sample: a vector loaded with 5 elements keeps `length <= 8` through
`add` with a full vector and through `load` with length 3. -/
theorem length_invariant_witness :
    (((sampleVectorZero sampleStream).load sampleArray 0 1 5).add (sampleVectorIota sampleStream)
        (fun _ => Register.broadcast 0)).m_length ≤ sampleStream.num_elem ∧
    ((sampleVectorZero sampleStream).load sampleArray 0 1 3).m_length ≤ sampleStream.num_elem :=
  have h := length_invariant ((sampleVectorZero sampleStream).load sampleArray 0 1 5)
    (sampleVectorIota sampleStream) (sampleVectorIota sampleStream)
    (sampleVectorZero sampleStream) (fun _ => Register.broadcast 0) (0 : Int) 0 sampleArray 0 1 3
    (by decide) (by decide) (by decide) (by decide)
  ⟨h.2.2.1.1, h.2.2.2.2⟩

end VectorImpl
end RAJA
namespace RAJA

/-- Two loops whose bodies agree on the index range agree. -/
theorem forLoop_congr {σ : Type} (body body2 : Nat → σ → σ) (lo : Nat) :
    ∀ (hi : Nat), (∀ i, lo ≤ i → i < hi → ∀ s, body i s = body2 i s) →
      ∀ s, forLoop lo hi body s = forLoop lo hi body2 s := by
  intro hi
  induction hi with
  | zero =>
    intro _ s
    rw [forLoop_empty lo 0 (Nat.zero_le _), forLoop_empty lo 0 (Nat.zero_le _)]
  | succ n ih =>
    intro h s
    by_cases hle : lo ≤ n
    · rw [forLoop_succ lo n hle, forLoop_succ lo n hle,
        ih (fun i h1 h2 s => h i h1 (Nat.lt_succ_of_lt h2) s) s]
      exact h n hle (Nat.lt_succ_self n) _
    · rw [forLoop_empty lo (n + 1) (by omega), forLoop_empty lo (n + 1) (by omega)]

namespace TensorRegister

variable {α : Type} {t : TensorType}

/-- C31. Accumulating matrix-vector products: `right_multiply_vector_accumulate(acc, v)` leaves
in `acc` the old `acc` plus `A.right_multiply_vector(v)` lane by lane, and
`left_multiply_vector_accumulate(acc, v)` the old `acc` plus `A.left_multiply_vector(v)`; for a
`W x W` matrix lane `j < W` of the new `acc` is `acc[j] + sum_i A(j,i) * v[i]`, respectively
`acc[j] + sum_i v[i] * A(i,j)`. The matrix and `v` are not written: the embedded functions
return the new `acc` only. -/
theorem multiply_vector_accumulate_get [CommSemiring α]
    (hR : t.ROW_SIZE = t.s_register_width) (hC : t.COL_SIZE = t.s_register_width)
    (A : TensorRegister α t) (acc v result : Register α) (j : Nat)
    (hj : j < t.s_register_width) :
    A.right_multiply_vector_accumulate acc v result =
      Register.add acc (A.right_multiply_vector v result) ∧
    A.left_multiply_vector_accumulate acc v result =
      Register.add acc (A.left_multiply_vector v result) ∧
    Register.get (A.right_multiply_vector_accumulate acc v result) j =
      Register.get acc j +
        ∑ i ∈ Finset.range t.s_register_width, A.get j i * Register.get v i ∧
    Register.get (A.left_multiply_vector_accumulate acc v result) j =
      Register.get acc j +
        ∑ i ∈ Finset.range t.s_register_width, Register.get v i * A.get i j := by
  have hN := square_num_registers hR hC
  refine ⟨rfl, rfl, ?_, ?_⟩
  · simp only [right_multiply_vector_accumulate, Register.inplace_add, Register.add,
      Register.get, get]
    congr 1
    cases hrm : t.layout.is_row_major
    · rw [right_multiply_vector_column_major A v result hrm j, hN]
      simp only [Bool.false_eq_true, if_false]
    · rw [right_multiply_vector_row_major A v result hrm j (hN ▸ hj)]
      simp only [if_true]
      exact Finset.sum_congr rfl (fun i _ => mul_comm _ _)
  · simp only [left_multiply_vector_accumulate, Register.inplace_add, Register.add,
      Register.get, get]
    congr 1
    cases hcm : t.layout.is_column_major
    · have hrm := is_row_major_of_not_column t.layout hcm
      rw [left_multiply_vector_row_major A v result hcm j, hN]
      simp only [hrm, if_true]
      exact Finset.sum_congr rfl (fun i _ => mul_comm _ _)
    · have hrm : t.layout.is_row_major = false := by
        rw [is_column_major_eq_not] at hcm
        cases h : t.layout.is_row_major
        · rfl
        · rw [h] at hcm; exact absurd hcm (by decide)
      rw [left_multiply_vector_column_major A v result hcm j (hN ▸ hj)]
      simp only [hrm, Bool.false_eq_true, if_false]

/-- The flipped view has the register count of the matrix. -/
theorem transpose_tensor_type_num_registers (t : TensorType) :
    t.transpose_tensor_type.s_num_registers = t.s_num_registers := rfl

/-- The flipped view is row-major exactly when the matrix is column-major. -/
theorem transpose_tensor_type_is_row_major (t : TensorType) :
    t.transpose_tensor_type.layout.is_row_major = t.layout.is_column_major := by
  unfold TensorType.transpose_tensor_type
  cases t.layout <;> rfl

/-- The flipped view is column-major exactly when the matrix is row-major. -/
theorem transpose_tensor_type_is_column_major (t : TensorType) :
    t.transpose_tensor_type.layout.is_column_major = t.layout.is_row_major := by
  unfold TensorType.transpose_tensor_type
  cases t.layout <;> rfl

/-- C32. Left multiply is right multiply on the flipped view: for every matrix `A` of either
layout, every vector `v` and the same contents `result` of the uninitialised local of the
dot-product branch, `A.left_multiply_vector(v)` and `A.transpose_type().right_multiply_vector(v)`
are the same register, as are `A.right_multiply_vector(v)` and
`A.transpose_type().left_multiply_vector(v)`; whatever the locals hold, the lanes below the
register count agree. -/
theorem left_multiply_is_right_multiply_flipped [Add α] [Mul α] [Zero α]
    (A : TensorRegister α t) (v result : Register α) :
    A.left_multiply_vector v result = A.transpose_type.right_multiply_vector v result ∧
    A.right_multiply_vector v result = A.transpose_type.left_multiply_vector v result ∧
    (∀ (result2 : Register α) (j : Nat), j < t.s_num_registers →
      Register.get (A.left_multiply_vector v result) j =
        Register.get (A.transpose_type.right_multiply_vector v result2) j) ∧
    (∀ (result2 : Register α) (j : Nat), j < t.s_num_registers →
      Register.get (A.right_multiply_vector v result) j =
        Register.get (A.transpose_type.left_multiply_vector v result2) j) := by
  have hset : ∀ (r1 r2 : Register α) (n j : Nat), j < n →
      forLoop 0 n (fun i result =>
        Register.set result (Register.dot t.s_register_width v (A.m_registers i)) i) r1 j =
      forLoop 0 n (fun i result =>
        Register.set result (Register.dot t.s_register_width v (A.m_registers i)) i) r2 j := by
    intro r1 r2 n j hjn
    have h := fun r => forLoop_hit (fun r : Register α => r j)
      (fun i result =>
        Register.set result (Register.dot t.s_register_width v (A.m_registers i)) i)
      0 j (Register.dot t.s_register_width v (A.m_registers j)) (Nat.zero_le j)
      (fun s => by simp [Register.set]) n hjn
      (fun k hk1 _ s => by
        have hne : j ≠ k := by omega
        simp [Register.set, Function.update_noteq hne]) r
    exact (h r1).trans (h r2).symm
  have e1 : ∀ r : Register α,
      A.transpose_type.right_multiply_vector v r =
        if t.layout.is_column_major then
          forLoop 0 t.s_num_registers (fun i result =>
            Register.set result (Register.dot t.s_register_width v (A.m_registers i)) i) r
        else
          forLoop 0 t.s_num_registers (fun i result =>
            Register.add result (Register.scale (A.m_registers i) (Register.get v i)))
            (Register.broadcast 0) := by
    intro r
    unfold right_multiply_vector
    rw [transpose_tensor_type_is_row_major, transpose_tensor_type_num_registers]
    rfl
  have e2 : ∀ r : Register α,
      A.transpose_type.left_multiply_vector v r =
        if t.layout.is_row_major then
          forLoop 0 t.s_num_registers (fun i result =>
            Register.set result (Register.dot t.s_register_width v (A.m_registers i)) i) r
        else
          forLoop 0 t.s_num_registers (fun i result =>
            Register.add result (Register.scale (A.m_registers i) (Register.get v i)))
            (Register.broadcast 0) := by
    intro r
    unfold left_multiply_vector
    rw [transpose_tensor_type_is_column_major, transpose_tensor_type_num_registers]
    rfl
  refine ⟨(e1 result).symm, (e2 result).symm, ?_, ?_⟩
  · intro result2 j hj
    rw [e1 result2]
    unfold left_multiply_vector
    simp only [Register.get]
    split_ifs
    · exact hset result result2 _ j hj
    · rfl
  · intro result2 j hj
    rw [e2 result2]
    unfold right_multiply_vector
    simp only [Register.get]
    split_ifs
    · exact hset result result2 _ j hj
    · rfl

/-- C34. Semi-dense packed load with several rows per register loads nothing: for a row-major
matrix with `COL_SIZE < W` and `row_stride != ROW_SIZE`, and for a column-major matrix with
`ROW_SIZE < W` and `col_stride != COL_SIZE`, the number of registers per row (column) is 0 and
`load_packed` returns the matrix with every register as it was before the call. -/
theorem load_packed_several_per_register (self : TensorRegister α t) (mem : Memory α)
    (ptr : Int) (row_stride col_stride : Int)
    (h : (t.layout.is_row_major = true ∧ t.COL_SIZE < t.s_register_width ∧
          row_stride ≠ (t.ROW_SIZE : Int)) ∨
         (t.layout.is_column_major = true ∧ t.ROW_SIZE < t.s_register_width ∧
          col_stride ≠ (t.COL_SIZE : Int))) :
    t.s_registers_per_dim = 0 ∧
    self.load_packed mem ptr row_stride col_stride = self ∧
    ∀ k, (self.load_packed mem ptr row_stride col_stride).m_registers k = self.m_registers k := by
  have hper : t.s_registers_per_dim = 0 := by
    unfold TensorType.s_registers_per_dim TensorType.s_reg_matrix_size
    rcases h with ⟨hrm, hlt, _⟩ | ⟨hcm, hlt, _⟩
    · rw [hrm]; exact Nat.div_eq_of_lt hlt
    · rw [is_column_major_eq_not] at hcm
      have hrm : t.layout.is_row_major = false := by
        cases h : t.layout.is_row_major
        · rfl
        · rw [h] at hcm; exact absurd hcm (by decide)
      rw [hrm]; exact Nat.div_eq_of_lt hlt
  have heq : self.load_packed mem ptr row_stride col_stride = self := by
    unfold load_packed
    rcases h with ⟨hrm, _, hs⟩ | ⟨hcm, _, hs⟩
    · have hcm : t.layout.is_column_major = false := by
        rw [is_column_major_eq_not, hrm]; rfl
      simp [hrm, hcm, hs, hper]
    · have hrm : t.layout.is_row_major = false := by
        rw [is_column_major_eq_not] at hcm
        cases h : t.layout.is_row_major
        · rfl
        · rw [h] at hcm; exact absurd hcm (by decide)
      simp [hrm, hcm, hs, hper]
  exact ⟨hper, heq, fun k => by rw [heq]⟩

/-- C35. Partial stores stay inside the tile: `store_packed_nm` and `store_strided_nm` with
extent `(m,n)` leave every memory location unchanged that is not the location of an element
`(i,j)` with `i < m` and `j < n`, that is `ptr + i*row_stride + j*col_stride`, the stride of the
stride-one dimension (columns for row-major, rows for column-major) being 1 when packed. The
matrix is not written: the embedded functions return the memory only. -/
theorem store_nm_frame (self : TensorRegister α t) (ptr : Int) (row_stride col_stride : Int)
    (m n : Nat) (mem : Memory α) (a : Int) :
    ((∀ i, i < m → ∀ j, j < n →
        ptr + (i : Int) * row_stride + (j : Int) * col_stride ≠ a) →
      self.store_strided_nm ptr row_stride col_stride m n mem a = mem a) ∧
    ((∀ i, i < m → ∀ j, j < n →
        ptr + (i : Int) * (if t.layout.is_row_major then row_stride else 1) +
          (j : Int) * (if t.layout.is_row_major then 1 else col_stride) ≠ a) →
      self.store_packed_nm ptr row_stride col_stride m n mem a = mem a) := by
  constructor
  · intro hstrided
    unfold store_strided_nm
    split_ifs
    · exact store_registers_frame self.m_registers ptr row_stride col_stride m n mem a hstrided
    · refine store_registers_frame self.m_registers ptr col_stride row_stride n m mem a ?_
      intro j hj i hi
      have := hstrided i hi j hj
      intro e; apply this; rw [← e]; ring
  · intro hpacked
    unfold store_packed_nm
    split_ifs with hrm
    · simp only [hrm, if_true] at hpacked
      simp only [store_packed_n_eq_strided]
      exact store_registers_frame self.m_registers ptr row_stride 1 m n mem a hpacked
    · simp only [hrm, Bool.false_eq_true, if_false] at hpacked
      simp only [store_packed_n_eq_strided]
      refine store_registers_frame self.m_registers ptr col_stride 1 n m mem a ?_
      intro j hj i hi
      have := hpacked i hi j hj
      intro e; apply this; rw [← e]; ring

end TensorRegister

namespace VectorImpl

variable {α : Type} {vt : VectorType}

/-- C37. Streaming short load keeps the tail: for a streaming vector and `length < capacity`,
after `load(ptr, stride, length)` every `get(j)` with `j >= length` has the value it had
before the load, the elements below `length` are `ptr[i*stride]`, and the result depends on
memory only through `ptr[i*stride]` for `i < length`. -/
theorem load_short_keeps_tail [Zero α] (x : VectorImpl α vt) (mem : Memory α)
    (ptr stride : Int) (length : Nat)
    (hstream : vt.s_is_fixed = false) (hlen : length < vt.num_elem) :
    (∀ j, length ≤ j → (x.load mem ptr stride length).get j = x.get j) ∧
    (∀ i, i < length → (x.load mem ptr stride length).get i = mem (ptr + (i : Int) * stride)) ∧
    (∀ mem2 : Memory α,
      (∀ i : Nat, i < length → mem2 (ptr + (i : Int) * stride) = mem (ptr + (i : Int) * stride)) →
      x.load mem2 ptr stride length = x.load mem ptr stride length) := by
  have hslow : (vt.s_is_fixed || decide (length = vt.num_elem)) = false := by
    rw [hstream]
    simp only [Bool.false_or, decide_eq_false_iff_not]
    omega
  refine ⟨?_, ?_, ?_⟩
  · intro j hj
    unfold load
    rw [hslow]
    simp only [Bool.false_eq_true, if_false]
    exact forLoop_frame (fun v : VectorImpl α vt => v.get j)
      (fun i v => v.set i (mem (ptr + (i : Int) * stride))) 0 length
      (fun i _ hi s => get_set_other s i j _ (by omega)) _
  · intro i hi
    exact (load_scalar_get x mem ptr stride length (Nat.le_of_lt hlen) hslow i hi).1
  · intro mem2 h
    unfold load
    rw [hslow]
    simp only [Bool.false_eq_true, if_false]
    exact forLoop_congr _ _ 0 length (fun i _ hi s => by rw [h i hi]) _

end VectorImpl
end RAJA
namespace RAJA

/-- A loop that starts below its bound runs its first iteration and then the rest. -/
theorem forLoop_first {σ : Type} (lo hi : Nat) (h : lo < hi) (body : Nat → σ → σ) (s : σ) :
    forLoop lo hi body s = forLoop (lo + 1) hi body (body lo s) := by
  unfold forLoop
  have e : hi - lo = (hi - (lo + 1)) + 1 := by omega
  rw [e, List.range'_succ]
  rfl

namespace VectorTypeHelper

/-- The partial lane count is the remainder of the element count by the register width. -/
theorem num_partial_elem_eq_mod (W n : Nat) : num_partial_elem W n = n % W := by
  unfold num_partial_elem num_full_registers
  have h := Nat.div_add_mod n W
  have h2 : n / W * W = W * (n / W) := Nat.mul_comm _ _
  omega

/-- The register count is the quotient, plus one when there is a remainder. -/
theorem num_registers_eq (W n : Nat) :
    num_registers W n = n / W + (if n % W = 0 then 0 else 1) := by
  unfold num_registers
  rw [num_partial_elem_eq_mod]
  unfold num_full_registers
  by_cases h : n % W = 0
  · simp [h]
  · have : n % W > 0 := Nat.pos_of_ne_zero h
    simp [h, this]

/-- The register list of the fixed type: the full registers, then the partial one if any. -/
theorem fixed_register_list_eq (W n : Nat) :
    fixed_register_list_t W n =
      List.replicate (n / W) W ++ (if n % W = 0 then [] else [n % W]) := by
  unfold fixed_register_list_t fixed_partial_register_list partial_register_type
    fixed_full_registers list_of_n full_register_type
  rw [num_partial_elem_eq_mod]
  unfold num_full_registers
  by_cases h : n % W = 0
  · simp [h]
  · simp [h]

/-- C36. Vector type sizing: for an element count `n >= 1` and a register width `W >= 1`,
`num_registers` is `ceil(n / W)` (`(n + W - 1) / W`, the least `r` with `n <= r * W`); the
fixed type is built from `n / W` full registers and, when `n mod W != 0`, one register of
`n mod W` lanes, has `num_registers` registers and capacity exactly `n`; the streaming type has
`num_registers` full registers, capacity `num_registers * W`, at least `n` and below `n + W`. -/
theorem vector_type_sizing (W n : Nat) (hW : 1 ≤ W) (hn : 1 ≤ n) :
    num_registers W n = (n + W - 1) / W ∧
    (num_registers W n - 1) * W < n ∧ n ≤ num_registers W n * W ∧
    (fixed_type W n).num_elems =
      List.replicate (n / W) W ++ (if n % W = 0 then [] else [n % W]) ∧
    (fixed_type W n).num_registers = num_registers W n ∧
    (fixed_type W n).num_elem = n ∧
    (stream_type W n).num_elems = List.replicate (num_registers W n) W ∧
    (stream_type W n).num_registers = num_registers W n ∧
    (stream_type W n).num_elem = num_registers W n * W ∧
    n ≤ (stream_type W n).num_elem ∧ (stream_type W n).num_elem < n + W := by
  have hdm := Nat.div_add_mod n W
  have hmod : n % W < W := Nat.mod_lt n hW
  have hcomm : n / W * W = W * (n / W) := Nat.mul_comm _ _
  have hreg := num_registers_eq W n
  have hstream : (stream_type W n).num_elem = num_registers W n * W := by
    rw [num_elem_eq_sum]
    simp [stream_type, stream_register_list_t, list_of_n, full_register_type]
  have hmul : num_registers W n * W = n / W * W + (if n % W = 0 then 0 else W) := by
    rw [hreg, Nat.add_mul]
    split_ifs <;> simp
  have hsub : (num_registers W n - 1) * W < n := by
    rw [hreg]
    by_cases h : n % W = 0
    · simp only [h, if_true, Nat.add_zero]
      have hq : 1 ≤ n / W := by
        rcases Nat.eq_zero_or_pos (n / W) with h0 | h0
        · rw [h0] at hdm; omega
        · exact h0
      have : (n / W - 1) * W + W = n / W * W := by
        rw [← Nat.succ_mul]; congr 1; omega
      omega
    · simp only [h, if_false, Nat.add_sub_cancel]
      have : 0 < n % W := Nat.pos_of_ne_zero h
      omega
  refine ⟨?_, hsub, ?_, ?_, ?_, ?_, ?_, ?_, hstream, ?_, ?_⟩
  · rw [hreg]
    symm
    by_cases h : n % W = 0
    · simp only [h, if_true, Nat.add_zero]
      apply Nat.div_eq_of_lt_le
      · omega
      · rw [Nat.succ_mul]; omega
    · simp only [h, if_false]
      have : 0 < n % W := Nat.pos_of_ne_zero h
      apply Nat.div_eq_of_lt_le
      · rw [Nat.add_mul]; omega
      · rw [Nat.succ_mul, Nat.add_mul]; omega
  · rw [hmul]; split_ifs with h <;> omega
  · exact fixed_register_list_eq W n
  · show (fixed_register_list_t W n).length = _
    rw [fixed_register_list_eq, hreg]
    split_ifs <;> simp
  · rw [num_elem_eq_sum]
    show (fixed_register_list_t W n).sum = n
    rw [fixed_register_list_eq]
    split_ifs with h
    · simp; omega
    · simp; omega
  · rfl
  · show (stream_register_list_t W n).length = _
    simp [stream_register_list_t, list_of_n]
  · rw [hstream, hmul]; split_ifs with h <;> omega
  · rw [hstream, hmul]; split_ifs with h <;> omega

/-- In a list of equal lane counts followed by at most one more entry, every entry but the
last is the first entry. -/
theorem replicate_append_full (q W : Nat) (tail : List Nat) (htail : tail.length ≤ 1) :
    ∀ k, k < (List.replicate q W ++ tail).length - 1 →
      (List.replicate q W ++ tail).getD k 0 = (List.replicate q W ++ tail).headD 0 := by
  intro k hk
  simp only [List.length_append, List.length_replicate] at hk
  have hkq : k < q := by omega
  have hq : 0 < q := by omega
  rw [List.getD_append _ _ _ _ (by simpa using hkq)]
  have e1 : (List.replicate q W).getD k 0 = W := by
    simp [List.getD_eq_getElem?_getD, List.getElem?_replicate, hkq]
  obtain ⟨q2, rfl⟩ : ∃ q2, q = q2 + 1 := ⟨q - 1, by omega⟩
  rw [e1]
  simp [List.replicate_succ]

/-- The types built by `VectorTypeHelper` satisfy the data model: every register but the last
is a full register. -/
theorem full_registers_helper (W n : Nat) :
    (fixed_type W n).full_registers ∧ (stream_type W n).full_registers := by
  constructor
  · intro k hk
    have h := replicate_append_full (n / W) W (if n % W = 0 then [] else [n % W])
      (by split_ifs <;> simp) k
    rw [← fixed_register_list_eq] at h
    exact h hk
  · intro k hk
    have h := replicate_append_full (num_registers W n) W [] (by simp) k
    simp only [List.append_nil] at h
    exact h hk

end VectorTypeHelper
end RAJA
namespace RAJA
namespace TensorRegister

variable {α : Type} {t : TensorType}

/-- Clearing or setting bit `lvl` of `i` keeps `i / (2^lvl * 2 * m)`: the two indices
`i - 2^lvl*b` and `i - 2^lvl*b + 2^lvl`, with `b` bit `lvl` of `i`, are in the block of `i`. -/
theorem bit_flip_same_block (p m i : Nat) (hp : 0 < p) :
    (i - p * (i / p % 2)) / (p * 2 * m) = i / (p * 2 * m) ∧
    (i - p * (i / p % 2) + p) / (p * 2 * m) = i / (p * 2 * m) := by
  have hle : p * (i / p % 2) ≤ i := by
    calc p * (i / p % 2) ≤ p * (i / p) := Nat.mul_le_mul_left p (Nat.mod_le _ _)
      _ ≤ i := Nat.mul_div_le i p
  have h1 : (i - p * (i / p % 2)) / p = i / p - i / p % 2 := Nat.sub_mul_div i p _ hle
  have h2 : (i - p * (i / p % 2) + p) / p = i / p - i / p % 2 + 1 := by
    rw [Nat.add_div_right _ hp, h1]
  have hd : ∀ x : Nat, x / (p * 2 * m) = x / p / 2 / m := by
    intro x
    rw [Nat.div_div_eq_div_mul, Nat.div_div_eq_div_mul, Nat.mul_assoc]
  rw [hd, hd, hd, h1, h2]
  generalize i / p = a
  constructor
  · congr 1; omega
  · congr 1; omega

/-- A power of two above `2^lvl` is `2^lvl * 2 * 2^(k - lvl - 1)`. -/
theorem two_pow_split (k lvl : Nat) (h : 2 ^ lvl < 2 ^ k) :
    lvl < k ∧ 2 ^ k = 2 ^ lvl * 2 * 2 ^ (k - lvl - 1) := by
  have hlt : lvl < k := (Nat.pow_lt_pow_iff_right (by norm_num)).mp h
  refine ⟨hlt, ?_⟩
  rw [← pow_succ, ← pow_add]
  congr 1
  omega

/-- The level loop of `transpose()` on a register width `2^k` exits with `lvl = k`. -/
theorem transposeLevels_pow (k : Nat) :
    ∀ (fuel lvl : Nat), lvl ≤ k → k ≤ lvl + fuel → transposeLevels (2 ^ k) fuel lvl = k := by
  intro fuel
  induction fuel with
  | zero =>
    intro lvl h1 h2
    unfold transposeLevels
    omega
  | succ n ih =>
    intro lvl h1 h2
    unfold transposeLevels
    rw [Nat.one_shiftLeft]
    by_cases hlt : lvl < k
    · have : 2 ^ lvl < 2 ^ k := (Nat.pow_lt_pow_iff_right (by norm_num)).mpr hlt
      rw [if_pos this]
      exact ih (lvl + 1) hlt (by omega)
    · have : ¬ 2 ^ lvl < 2 ^ k := by
        intro h
        exact hlt ((Nat.pow_lt_pow_iff_right (by norm_num)).mp h)
      rw [if_neg this]
      omega

/-- The level loop of `transpose()` on a register width `2^k` is the sequence of the levels
`lvl, ..., k-1`. -/
theorem transposeFrom_pow (k : Nat) (hW : t.s_register_width = 2 ^ k)
    (tmp : TensorRegister α t) :
    ∀ (fuel lvl : Nat) (result : TensorRegister α t), lvl ≤ k → k ≤ lvl + fuel →
      transposeFrom tmp fuel lvl result =
        forLoop lvl k (fun l r => transposeLevel l r tmp) result := by
  intro fuel
  induction fuel with
  | zero =>
    intro lvl result h1 h2
    rw [forLoop_empty lvl k (by omega)]
    rfl
  | succ n ih =>
    intro lvl result h1 h2
    rw [transposeFrom_succ, Nat.one_shiftLeft, hW]
    by_cases hlt : lvl < k
    · have : 2 ^ lvl < 2 ^ k := (Nat.pow_lt_pow_iff_right (by norm_num)).mpr hlt
      rw [if_pos this, ih (lvl + 1) _ hlt (by omega), forLoop_first lvl k hlt]
    · have : ¬ 2 ^ lvl < 2 ^ k := by
        intro h
        exact hlt ((Nat.pow_lt_pow_iff_right (by norm_num)).mp h)
      rw [if_neg this, forLoop_empty lvl k (by omega)]

/-- C33. Transpose register indexing is in bounds: when the register width `W` is `2^k` and
the register count `N` is a multiple of `W`, for every level `lvl` with `2^lvl < W` and every
`i < N` the two indices read by `transpose()`, `i - (i & 2^lvl)` and
`i - (i & 2^lvl) + 2^lvl`, are below `N` and in the aligned block of `W` registers of `i`, and
register `i` of the level depends on no other register; the level loop runs exactly
`k = log2(W)` levels, `lvl = 0, ..., k-1`. -/
theorem transpose_index_in_bounds (α : Type) (k lvl i : Nat) (hW : t.s_register_width = 2 ^ k)
    (hN : t.s_register_width ∣ t.s_num_registers) (hlvl : 2 ^ lvl < t.s_register_width)
    (hi : i < t.s_num_registers) :
    transpose_index_low lvl i < t.s_num_registers ∧
    transpose_index_high lvl i < t.s_num_registers ∧
    transpose_index_low lvl i / t.s_register_width = i / t.s_register_width ∧
    transpose_index_high lvl i / t.s_register_width = i / t.s_register_width ∧
    (∀ vals vals2 tmp : TensorRegister α t,
      vals.m_registers (transpose_index_low lvl i) =
        vals2.m_registers (transpose_index_low lvl i) →
      vals.m_registers (transpose_index_high lvl i) =
        vals2.m_registers (transpose_index_high lvl i) →
      (transposeLevel lvl vals tmp).m_registers i =
        (transposeLevel lvl vals2 tmp).m_registers i) ∧
    transposeLevels t.s_register_width t.s_register_width 0 = k ∧
    Nat.log2 t.s_register_width = k ∧
    (∀ A tmp : TensorRegister α t,
      A.transpose tmp = forLoop 0 k (fun l r => transposeLevel l r tmp) A) := by
  have hkW : k ≤ t.s_register_width := by
    rw [hW]; exact Nat.le_of_lt (Nat.lt_two_pow k)
  have hpos : 0 < t.s_register_width := by rw [hW]; exact Nat.pos_pow_of_pos _ (by norm_num)
  have hlow : transpose_index_low lvl i = i - 2 ^ lvl * (i / 2 ^ lvl % 2) := by
    unfold transpose_index_low; rw [and_one_shiftLeft]
  have hhigh : transpose_index_high lvl i = i - 2 ^ lvl * (i / 2 ^ lvl % 2) + 2 ^ lvl := by
    unfold transpose_index_high; rw [and_one_shiftLeft, Nat.one_shiftLeft]
  rw [hW] at hlvl
  obtain ⟨_, hsplit⟩ := two_pow_split k lvl hlvl
  have hblock := bit_flip_same_block (2 ^ lvl) (2 ^ (k - lvl - 1)) i
    (Nat.pos_pow_of_pos _ (by norm_num))
  rw [← hsplit, ← hW] at hblock
  rw [← hhigh, ← hlow] at hblock
  obtain ⟨c, hc⟩ := hN
  have hbound : ∀ x, x / t.s_register_width = i / t.s_register_width →
      x < t.s_num_registers := by
    intro x hx
    have h1 : i / t.s_register_width < c := by
      apply Nat.div_lt_of_lt_mul
      rw [← hc]; exact hi
    rw [← hx] at h1
    rw [hc, Nat.mul_comm]
    exact (Nat.div_lt_iff_lt_mul hpos).mp h1
  refine ⟨hbound _ hblock.1, hbound _ hblock.2, hblock.1, hblock.2, ?_, ?_, ?_, ?_⟩
  · intro vals vals2 tmp e1 e2
    rw [hlow] at e1
    rw [hhigh] at e2
    funext l
    rw [transposeLevel_m_registers, transposeLevel_m_registers, e1, e2]
  · rw [hW]
    exact transposeLevels_pow k (2 ^ k) 0 (Nat.zero_le _) (by rw [← hW]; omega)
  · rw [hW]
    exact Nat.log2_two_pow
  · intro A tmp
    unfold transpose
    exact transposeFrom_pow k hW tmp t.s_register_width 0 A (Nat.zero_le _) (by omega)

end TensorRegister
end RAJA
namespace RAJA

/-- A loop over `[lo, hi)` is the loop over `[lo, mid)` followed by the loop over `[mid, hi)`. -/
theorem forLoop_append {σ : Type} (body : Nat → σ → σ) (lo mid : Nat) (hlm : lo ≤ mid) :
    ∀ (hi : Nat), mid ≤ hi → ∀ s,
      forLoop lo hi body s = forLoop mid hi body (forLoop lo mid body s) := by
  intro hi
  induction hi with
  | zero =>
    intro h s
    have hm : mid = 0 := by omega
    have hl : lo = 0 := by omega
    subst hm hl
    rw [forLoop_empty 0 0 (Nat.le_refl _), forLoop_empty 0 0 (Nat.le_refl _)]
  | succ n ih =>
    intro h s
    by_cases hmn : mid ≤ n
    · rw [forLoop_succ lo n (by omega), forLoop_succ mid n hmn, ih hmn s]
    · have hm : mid = n + 1 := by omega
      subst hm
      rw [forLoop_empty (n + 1) (n + 1) (Nat.le_refl _)]

/-- A loop whose index enters the body shifted by `c` is the loop over the shifted range. -/
theorem forLoop_shift {σ : Type} (f : Nat → σ → σ) (c : Nat) :
    ∀ (n : Nat) (s : σ), forLoop 0 n (fun i s => f (c + i) s) s = forLoop c (c + n) f s := by
  intro n
  induction n with
  | zero =>
    intro s
    rw [forLoop_empty 0 0 (Nat.le_refl _), forLoop_empty c (c + 0) (Nat.le_refl _)]
  | succ n ih =>
    intro s
    rw [forLoop_succ 0 n (Nat.zero_le _), ← Nat.add_assoc, forLoop_succ c (c + n) (by omega), ih s]

/-- A loop over blocks of `B` indices each is the loop over the flattened index. -/
theorem forLoop_flatten {σ : Type} (f : Nat → σ → σ) (B : Nat) :
    ∀ (G : Nat) (s : σ),
      forLoop 0 G (fun b s => forLoop 0 B (fun i s => f (b * B + i) s) s) s =
        forLoop 0 (G * B) f s := by
  intro G
  induction G with
  | zero =>
    intro s
    rw [Nat.zero_mul, forLoop_empty 0 0 (Nat.le_refl _), forLoop_empty 0 0 (Nat.le_refl _)]
  | succ n ih =>
    intro s
    rw [forLoop_succ 0 n (Nat.zero_le _), ih s, forLoop_shift f (n * B) B,
      forLoop_append f 0 (n * B) (Nat.zero_le _) ((n + 1) * B) (by rw [Nat.succ_mul]; omega) s,
      Nat.succ_mul]

/-- A loop over `[0, M)` whose body is guarded by `i < L` is the loop over `[0, L)`. -/
theorem forLoop_guard {σ : Type} (g : Nat → σ → σ) (L M : Nat) (h : L ≤ M) (s : σ) :
    forLoop 0 M (fun i s => if i < L then g i s else s) s = forLoop 0 L g s := by
  rw [forLoop_append _ 0 L (Nat.zero_le _) M h s]
  rw [forLoop_frame (fun s : σ => s) (fun i s => if i < L then g i s else s) L M
    (fun i hi _ s => by
      have : ¬ i < L := by omega
      simp only [this, if_false])]
  exact forLoop_congr _ _ 0 L (fun i _ hi s => by simp only [hi, if_true]) s

/-- A property kept by every iteration of the body holds after the loop. -/
theorem forLoop_invariant {σ : Type} (P : σ → Prop) (body : Nat → σ → σ)
    (hbody : ∀ i s, P s → P (body i s)) (lo : Nat) :
    ∀ (hi : Nat) (s : σ), P s → P (forLoop lo hi body s) := by
  intro hi
  induction hi with
  | zero =>
    intro s hs
    rw [forLoop_empty lo 0 (Nat.zero_le _)]
    exact hs
  | succ n ih =>
    intro s hs
    by_cases hle : lo ≤ n
    · rw [forLoop_succ lo n hle]
      exact hbody n _ (ih s hs)
    · rw [forLoop_empty lo (n + 1) (by omega)]
      exact hs

/-- The loop that records its index, run over `[0, n)` from the empty trace, records
`0, ..., n-1`. -/
theorem forLoop_record (n : Nat) :
    forLoop 0 n (fun i trace => impl.recordBody (id i) trace) [] = List.range n := by
  induction n with
  | zero => rw [forLoop_empty 0 0 (Nat.le_refl _)]; rfl
  | succ n ih =>
    rw [forLoop_succ 0 n (Nat.zero_le _), ih, List.range_succ]
    rfl

namespace impl

/-- An `unsigned int` value below `2^32` is not changed by the wrap. -/
theorem uint_of_lt (n : Nat) (h : n < 2 ^ 32) : uint n = n := Nat.mod_eq_of_lt h

/-- Every `unsigned int` value is below `2^32`. -/
theorem uint_lt (n : Nat) : uint n < 2 ^ 32 := Nat.mod_lt _ (by norm_num)

/-- A property kept by every thread holds after the launch. -/
theorem cudaLaunch_invariant {σ : Type} (P : σ → Prop) (gridDim blockDim : dim3)
    (kernel : dim3 → dim3 → dim3 → σ → σ)
    (hk : ∀ bd bi ti s, P s → P (kernel bd bi ti s)) (s : σ) (hs : P s) :
    P (cudaLaunch gridDim blockDim kernel s) := by
  unfold cudaLaunch
  refine forLoop_invariant P _ (fun _ s hs => ?_) 0 _ s hs
  refine forLoop_invariant P _ (fun _ s hs => ?_) 0 _ s hs
  refine forLoop_invariant P _ (fun _ s hs => ?_) 0 _ s hs
  refine forLoop_invariant P _ (fun _ s hs => ?_) 0 _ s hs
  refine forLoop_invariant P _ (fun _ s hs => ?_) 0 _ s hs
  refine forLoop_invariant P _ (fun _ s hs => ?_) 0 _ s hs
  exact hk _ _ _ s hs

/-- A one-dimensional launch of `G` blocks of `B` threads, `G * B` below `2^32`, of the
`forall` kernel is the sequential loop over the positions below the length. -/
theorem cudaLaunch_forall_cuda_kernel {ι σ : Type} (loop_body : ι → σ → σ) (idx : Nat → ι)
    (n G B : Nat) (hfit : G * B < 2 ^ 32) (hcover : n ≤ G * B) (s : σ) :
    cudaLaunch { x := G, y := 1, z := 1 } { x := B, y := 1, z := 1 }
      (forall_cuda_kernel loop_body idx (n : Int)) s =
      forLoop 0 n (fun ii s => loop_body (idx ii) s) s := by
  unfold cudaLaunch
  simp only [TensorRegister.forLoop_one]
  have hthread : ∀ b, b < G → ∀ i, i < B → ∀ s : σ,
      forall_cuda_kernel loop_body idx (n : Int) { x := B, y := 1, z := 1 }
        { x := b, y := 0, z := 0 } { x := i, y := 0, z := 0 } s =
      (fun ii s => if ii < n then loop_body (idx ii) s else s) (b * B + i) s := by
    intro b hb i hi s
    have h1 : b * B + i < G * B := by
      calc b * B + i < b * B + B := by omega
        _ = (b + 1) * B := (Nat.succ_mul b B).symm
        _ ≤ G * B := Nat.mul_le_mul_right B hb
    have h2 : b * B < 2 ^ 32 := by omega
    have h3 : b * B + i < 2 ^ 32 := by omega
    simp only [forall_cuda_kernel, INTERNAL.getGlobalIdx_1D_1D, uint_of_lt _ h2,
      uint_of_lt _ h3, Nat.cast_lt, Int.toNat_ofNat]
  rw [forLoop_congr _
    (fun b s => forLoop 0 B
      (fun i s => (fun ii s => if ii < n then loop_body (idx ii) s else s) (b * B + i) s) s)
    0 G (fun b _ hb s => forLoop_congr _ _ 0 B (fun i _ hi s => hthread b hb i hi s) s) s]
  rw [forLoop_flatten (fun ii s => if ii < n then loop_body (idx ii) s else s) B G s]
  exact forLoop_guard _ n (G * B) hcover s

/-- The rounded-up quotient times the divisor covers the dividend. -/
theorem RAJA_DIVIDE_CEILING_INT_covers (n B : Nat) (hB : 0 < B) :
    n ≤ RAJA_DIVIDE_CEILING_INT n B * B ∧ RAJA_DIVIDE_CEILING_INT n B * B < n + B := by
  unfold RAJA_DIVIDE_CEILING_INT
  have h := Nat.div_add_mod (n + B - 1) B
  have hm := Nat.mod_lt (n + B - 1) hB
  have hc : (n + B - 1) / B * B = B * ((n + B - 1) / B) := Nat.mul_comm _ _
  constructor <;> omega

/-- C38 (amended). CUDA `forall` covers the range exactly once when the thread count fits in
32 bits: for `len > 0` and `BLOCK_SIZE > 0` with `gridSize * BLOCK_SIZE < 2^32`,
`gridSize = ceil(len / BLOCK_SIZE)`, the launch of `gridSize` blocks of `BLOCK_SIZE` threads
acts as the loop invoking the body with `idx[ii]` for `ii = 0, ..., len-1`: the recorded
positions contain every `ii < len` exactly once and no `ii >= len`. When `len <= 0` or
`BLOCK_SIZE == 0` nothing is launched and the state is unchanged. -/
theorem forall_cuda_exec_covers {ι σ : Type} (BLOCK_SIZE : Nat) (idx : Nat → ι) (len : Int)
    (loop_body : ι → σ → σ) (s : σ) :
    (0 < len → 0 < BLOCK_SIZE →
      RAJA_DIVIDE_CEILING_INT len.toNat BLOCK_SIZE * BLOCK_SIZE < 2 ^ 32 →
      forall_cuda_exec BLOCK_SIZE idx len loop_body s =
        forLoop 0 len.toNat (fun ii s => loop_body (idx ii) s) s ∧
      forall_cuda_exec BLOCK_SIZE id len recordBody [] = List.range len.toNat ∧
      ∀ ii : Nat, (forall_cuda_exec BLOCK_SIZE id len recordBody []).count ii =
        if (ii : Int) < len then 1 else 0) ∧
    ((len ≤ 0 ∨ BLOCK_SIZE = 0) → forall_cuda_exec BLOCK_SIZE idx len loop_body s = s) := by
  constructor
  · intro hlen hB hfit
    have hcov := RAJA_DIVIDE_CEILING_INT_covers len.toNat BLOCK_SIZE hB
    have hn : 0 < len.toNat := by omega
    have hG : 0 < RAJA_DIVIDE_CEILING_INT len.toNat BLOCK_SIZE := by
      rcases Nat.eq_zero_or_pos (RAJA_DIVIDE_CEILING_INT len.toNat BLOCK_SIZE) with h0 | h0
      · rw [h0] at hcov; omega
      · exact h0
    have hGlt : RAJA_DIVIDE_CEILING_INT len.toNat BLOCK_SIZE < 2 ^ 32 :=
      lt_of_le_of_lt (Nat.le_mul_of_pos_right _ hB) hfit
    have hBlt : BLOCK_SIZE < 2 ^ 32 :=
      lt_of_le_of_lt (Nat.le_mul_of_pos_left _ hG) hfit
    have hcast : ((len.toNat : Nat) : Int) = len := Int.toNat_of_nonneg (le_of_lt hlen)
    have hrun : ∀ {ι2 σ2 : Type} (idx2 : Nat → ι2) (body2 : ι2 → σ2 → σ2) (s2 : σ2),
        forall_cuda_exec BLOCK_SIZE idx2 len body2 s2 =
          forLoop 0 len.toNat (fun ii s => body2 (idx2 ii) s) s2 := by
      intro ι2 σ2 idx2 body2 s2
      unfold forall_cuda_exec
      rw [if_pos ⟨hlen, hB⟩]
      simp only [dim3.ofNat, uint_of_lt _ hGlt, uint_of_lt _ hBlt]
      have h := cudaLaunch_forall_cuda_kernel body2 idx2 len.toNat
        (RAJA_DIVIDE_CEILING_INT len.toNat BLOCK_SIZE) BLOCK_SIZE hfit hcov.1 s2
      rw [hcast] at h
      exact h
    have htrace : forall_cuda_exec BLOCK_SIZE id len recordBody [] = List.range len.toNat := by
      rw [hrun id recordBody []]
      exact forLoop_record len.toNat
    refine ⟨hrun idx loop_body s, htrace, ?_⟩
    intro ii
    rw [htrace]
    by_cases hii : (ii : Int) < len
    · rw [if_pos hii]
      exact List.count_eq_one_of_mem (List.nodup_range _) (List.mem_range.mpr (by omega))
    · rw [if_neg hii]
      exact List.count_eq_zero_of_not_mem (fun h => hii (by have := List.mem_range.mp h; omega))
  · intro h
    unfold forall_cuda_exec
    rw [if_neg]
    rintro ⟨h1, h2⟩
    rcases h with h | h <;> omega

/-- C38, as stated, fails when the thread count passes `2^32`: with `len = 2^32 + 1` and
`BLOCK_SIZE = 1024` (`gridSize = 4194305` blocks) position `2^32` is below `len`, yet the body
is never invoked with it, every global index being an `unsigned int`. -/
theorem forall_cuda_exec_covers_counterexample :
    ((4294967296 : Nat) : Int) < 4294967297 ∧
    RAJA_DIVIDE_CEILING_INT (4294967297 : Int).toNat 1024 = 4194305 ∧
    dim3.ofNat 4194305 = { x := 4194305, y := 1, z := 1 } ∧
    (forall_cuda_exec 1024 id 4294967297 recordBody []).count 4294967296 = 0 := by
  refine ⟨by norm_num, by decide, by decide, ?_⟩
  apply List.count_eq_zero_of_not_mem
  have hinv : ∀ x ∈ forall_cuda_exec 1024 id 4294967297 recordBody [], x < 2 ^ 32 := by
    unfold forall_cuda_exec
    rw [if_pos ⟨by norm_num, by norm_num⟩]
    refine cudaLaunch_invariant (fun trace : List Nat => ∀ x ∈ trace, x < 2 ^ 32) _ _ _ ?_ []
      (fun x hx => absurd hx (List.not_mem_nil x))
    intro bd bi ti trace htrace
    unfold forall_cuda_kernel
    simp only
    split_ifs
    · intro x hx
      rw [recordBody, List.mem_append, List.mem_singleton] at hx
      rcases hx with hx | hx
      · exact htrace x hx
      · rw [hx, id, Int.toNat_ofNat]
        exact uint_lt _
    · exact htrace
  intro hmem
  have := hinv _ hmem
  omega

end impl
end RAJA
namespace RAJA
namespace impl

/-- Two-digit mixed radix: a digit below `A` plus `A` times a digit below `B` is below `A*B`. -/
theorem radix_lt (a b A B : Nat) (ha : a < A) (hb : b < B) : a + b * A < A * B := by
  calc a + b * A < A + b * A := by omega
    _ = (b + 1) * A := by rw [Nat.succ_mul]; omega
    _ ≤ B * A := Nat.mul_le_mul_right A hb
    _ = A * B := Nat.mul_comm _ _

/-- Two-digit mixed radix: the digits are determined by the value. -/
theorem radix_inj (a b a2 b2 A : Nat) (ha : a < A) (ha2 : a2 < A)
    (h : a + b * A = a2 + b2 * A) : a = a2 ∧ b = b2 := by
  have h1 : (a + b * A) % A = a := by
    rw [Nat.add_mul_mod_self_right]; exact Nat.mod_eq_of_lt ha
  have h2 : (a2 + b2 * A) % A = a2 := by
    rw [Nat.add_mul_mod_self_right]; exact Nat.mod_eq_of_lt ha2
  have hA : 0 < A := by omega
  have h3 : (a + b * A) / A = b := by
    rw [Nat.add_mul_div_right _ _ hA, Nat.div_eq_of_lt ha, Nat.zero_add]
  have h4 : (a2 + b2 * A) / A = b2 := by
    rw [Nat.add_mul_div_right _ _ hA, Nat.div_eq_of_lt ha2, Nat.zero_add]
  constructor
  · rw [← h1, ← h2, h]
  · rw [← h3, ← h4, h]

/-- The value of `getGlobalIdx_3D_3D` without wrap. -/
theorem getGlobalIdx_3D_3D_eq (gridDim blockDim blockIdx threadIdx : dim3)
    (hfit : dim3.numThreads gridDim blockDim < 2 ^ 32)
    (hbi : dim3.within blockIdx gridDim) (hti : dim3.within threadIdx blockDim) :
    INTERNAL.getGlobalIdx_3D_3D gridDim blockDim blockIdx threadIdx =
      (blockIdx.x + blockIdx.y * gridDim.x + gridDim.x * gridDim.y * blockIdx.z) *
          (blockDim.x * blockDim.y * blockDim.z) +
        threadIdx.z * (blockDim.x * blockDim.y) + threadIdx.y * blockDim.x + threadIdx.x ∧
    INTERNAL.getGlobalIdx_3D_3D gridDim blockDim blockIdx threadIdx <
      dim3.numThreads gridDim blockDim := by
  obtain ⟨gx, gy, gz⟩ := gridDim
  obtain ⟨bx, by_, bz⟩ := blockDim
  obtain ⟨ix, iy, iz⟩ := blockIdx
  obtain ⟨tx, ty, tz⟩ := threadIdx
  obtain ⟨hix, hiy, hiz⟩ := hbi
  obtain ⟨htx, hty, htz⟩ := hti
  simp only [dim3.numThreads] at hfit ⊢
  simp only at hix hiy hiz htx hty htz
  -- the block number
  have e1 : ix + iy * gx < gx * gy := radix_lt ix iy gx gy hix hiy
  have e2 : ix + iy * gx + gx * gy * iz < gx * gy * gz := by
    have := radix_lt (ix + iy * gx) iz (gx * gy) gz e1 hiz
    rw [Nat.mul_comm iz] at this
    exact this
  -- the thread number within the block
  have w1 : tx + ty * bx < bx * by_ := radix_lt tx ty bx by_ htx hty
  have w2 : tx + ty * bx + tz * (bx * by_) < bx * by_ * bz :=
    radix_lt (tx + ty * bx) tz (bx * by_) bz w1 htz
  have hT : 0 < bx * by_ * bz := by omega
  have hG : 0 < gx * gy * gz := by omega
  have hN : bx * by_ * bz * gx * gy * gz = gx * gy * gz * (bx * by_ * bz) := by ring
  have e3 : (ix + iy * gx + gx * gy * iz) * (bx * by_ * bz) +
      (tx + ty * bx + tz * (bx * by_)) < gx * gy * gz * (bx * by_ * bz) := by
    have := radix_lt (tx + ty * bx + tz * (bx * by_)) (ix + iy * gx + gx * gy * iz)
      (bx * by_ * bz) (gx * gy * gz) w2 e2
    rw [Nat.mul_comm (bx * by_ * bz) (gx * gy * gz)] at this
    omega
  rw [hN] at hfit ⊢
  have hGle : gx * gy * gz ≤ gx * gy * gz * (bx * by_ * bz) := Nat.le_mul_of_pos_right _ hT
  have hTle : bx * by_ * bz ≤ gx * gy * gz * (bx * by_ * bz) := Nat.le_mul_of_pos_left _ hG
  have hgz : 0 < gz := by omega
  have hbz : 0 < bz := by omega
  have hAle : gx * gy ≤ gx * gy * gz := Nat.le_mul_of_pos_right _ hgz
  have hPle : bx * by_ ≤ bx * by_ * bz := Nat.le_mul_of_pos_right _ hbz
  have hmul : (ix + iy * gx + gx * gy * iz) * (bx * by_ * bz) <
      gx * gy * gz * (bx * by_ * bz) := by omega
  have u1 : uint (iy * gx) = iy * gx := uint_of_lt _ (by omega)
  have u2 : uint (ix + iy * gx) = ix + iy * gx := uint_of_lt _ (by omega)
  have u3 : uint (gx * gy) = gx * gy := uint_of_lt _ (by omega)
  have u4 : uint (gx * gy * iz) = gx * gy * iz := uint_of_lt _ (by omega)
  have u5 : uint (ix + iy * gx + gx * gy * iz) = ix + iy * gx + gx * gy * iz :=
    uint_of_lt _ (by omega)
  have u6 : uint (bx * by_) = bx * by_ := uint_of_lt _ (by omega)
  have u7 : uint (bx * by_ * bz) = bx * by_ * bz := uint_of_lt _ (by omega)
  have u8 : uint ((ix + iy * gx + gx * gy * iz) * (bx * by_ * bz)) =
      (ix + iy * gx + gx * gy * iz) * (bx * by_ * bz) := uint_of_lt _ (by omega)
  have u9 : uint (tz * (bx * by_)) = tz * (bx * by_) := uint_of_lt _ (by omega)
  have u10 : uint ((ix + iy * gx + gx * gy * iz) * (bx * by_ * bz) + tz * (bx * by_)) =
      (ix + iy * gx + gx * gy * iz) * (bx * by_ * bz) + tz * (bx * by_) :=
    uint_of_lt _ (by omega)
  have u11 : uint (ty * bx) = ty * bx := uint_of_lt _ (by omega)
  have u12 : uint ((ix + iy * gx + gx * gy * iz) * (bx * by_ * bz) + tz * (bx * by_) +
      ty * bx) =
      (ix + iy * gx + gx * gy * iz) * (bx * by_ * bz) + tz * (bx * by_) + ty * bx :=
    uint_of_lt _ (by omega)
  have u13 : uint ((ix + iy * gx + gx * gy * iz) * (bx * by_ * bz) + tz * (bx * by_) +
      ty * bx + tx) =
      (ix + iy * gx + gx * gy * iz) * (bx * by_ * bz) + tz * (bx * by_) + ty * bx + tx :=
    uint_of_lt _ (by omega)
  have hval : INTERNAL.getGlobalIdx_3D_3D ⟨gx, gy, gz⟩ ⟨bx, by_, bz⟩ ⟨ix, iy, iz⟩
      ⟨tx, ty, tz⟩ =
      (ix + iy * gx + gx * gy * iz) * (bx * by_ * bz) + tz * (bx * by_) + ty * bx + tx := by
    simp only [INTERNAL.getGlobalIdx_3D_3D, u1, u2, u3, u4, u5, u6, u7, u8, u9, u10, u11, u12,
      u13]
  rw [hval]
  exact ⟨rfl, by omega⟩

/-- C39. The 3D global thread index is a bijection: for a grid and a block of positive
dimensions whose thread count `bx*by*bz*gx*gy*gz` fits in 32 bits, `getGlobalNumThreads_3D_3D`
is that count, and `getGlobalIdx_3D_3D` maps the block coordinates within the grid and thread
coordinates within the block into `[0, count)`, distinct coordinates to distinct indices, and
reaches every index below the count. -/
theorem getGlobalIdx_3D_3D_bijection (gridDim blockDim : dim3)
    (hg : 0 < gridDim.x ∧ 0 < gridDim.y ∧ 0 < gridDim.z)
    (hb : 0 < blockDim.x ∧ 0 < blockDim.y ∧ 0 < blockDim.z)
    (hfit : blockDim.x * blockDim.y * blockDim.z * gridDim.x * gridDim.y * gridDim.z <
      2 ^ 32) :
    INTERNAL.getGlobalNumThreads_3D_3D gridDim blockDim =
      blockDim.x * blockDim.y * blockDim.z * gridDim.x * gridDim.y * gridDim.z ∧
    (∀ blockIdx threadIdx : dim3, dim3.within blockIdx gridDim →
      dim3.within threadIdx blockDim →
      INTERNAL.getGlobalIdx_3D_3D gridDim blockDim blockIdx threadIdx <
        INTERNAL.getGlobalNumThreads_3D_3D gridDim blockDim) ∧
    (∀ blockIdx threadIdx blockIdx2 threadIdx2 : dim3,
      dim3.within blockIdx gridDim → dim3.within threadIdx blockDim →
      dim3.within blockIdx2 gridDim → dim3.within threadIdx2 blockDim →
      INTERNAL.getGlobalIdx_3D_3D gridDim blockDim blockIdx threadIdx =
        INTERNAL.getGlobalIdx_3D_3D gridDim blockDim blockIdx2 threadIdx2 →
      blockIdx = blockIdx2 ∧ threadIdx = threadIdx2) ∧
    (∀ n : Nat, n < INTERNAL.getGlobalNumThreads_3D_3D gridDim blockDim →
      ∃ blockIdx threadIdx : dim3, dim3.within blockIdx gridDim ∧
        dim3.within threadIdx blockDim ∧
        INTERNAL.getGlobalIdx_3D_3D gridDim blockDim blockIdx threadIdx = n) := by
  have hfit2 : dim3.numThreads gridDim blockDim < 2 ^ 32 := hfit
  have hnum : INTERNAL.getGlobalNumThreads_3D_3D gridDim blockDim =
      dim3.numThreads gridDim blockDim := by
    obtain ⟨gx, gy, gz⟩ := gridDim
    obtain ⟨bx, by_, bz⟩ := blockDim
    obtain ⟨hgx, hgy, hgz⟩ := hg
    obtain ⟨hbx, hby, hbz⟩ := hb
    simp only [dim3.numThreads] at hfit2 ⊢
    simp only at hgx hgy hgz hbx hby hbz
    have h5 : bx * by_ * bz * gx * gy ≤ bx * by_ * bz * gx * gy * gz :=
      Nat.le_mul_of_pos_right _ hgz
    have h4 : bx * by_ * bz * gx ≤ bx * by_ * bz * gx * gy := Nat.le_mul_of_pos_right _ hgy
    have h3 : bx * by_ * bz ≤ bx * by_ * bz * gx := Nat.le_mul_of_pos_right _ hgx
    have h2 : bx * by_ ≤ bx * by_ * bz := Nat.le_mul_of_pos_right _ hbz
    simp only [INTERNAL.getGlobalNumThreads_3D_3D,
      uint_of_lt (bx * by_) (by omega), uint_of_lt (bx * by_ * bz) (by omega),
      uint_of_lt (bx * by_ * bz * gx) (by omega),
      uint_of_lt (bx * by_ * bz * gx * gy) (by omega),
      uint_of_lt (bx * by_ * bz * gx * gy * gz) (by omega)]
  rw [hnum]
  refine ⟨rfl, ?_, ?_, ?_⟩
  · intro blockIdx threadIdx hbi hti
    exact (getGlobalIdx_3D_3D_eq gridDim blockDim blockIdx threadIdx hfit2 hbi hti).2
  · intro blockIdx threadIdx blockIdx2 threadIdx2 hbi hti hbi2 hti2 heq
    rw [(getGlobalIdx_3D_3D_eq gridDim blockDim blockIdx threadIdx hfit2 hbi hti).1,
      (getGlobalIdx_3D_3D_eq gridDim blockDim blockIdx2 threadIdx2 hfit2 hbi2 hti2).1] at heq
    obtain ⟨gx, gy, gz⟩ := gridDim
    obtain ⟨bx, by_, bz⟩ := blockDim
    obtain ⟨ix, iy, iz⟩ := blockIdx
    obtain ⟨tx, ty, tz⟩ := threadIdx
    obtain ⟨ix2, iy2, iz2⟩ := blockIdx2
    obtain ⟨tx2, ty2, tz2⟩ := threadIdx2
    obtain ⟨hix, hiy, hiz⟩ := hbi
    obtain ⟨htx, hty, htz⟩ := hti
    obtain ⟨hix2, hiy2, hiz2⟩ := hbi2
    obtain ⟨htx2, hty2, htz2⟩ := hti2
    simp only at hix hiy hiz htx hty htz hix2 hiy2 hiz2 htx2 hty2 htz2 heq
    have w1 : tx + ty * bx < bx * by_ := radix_lt tx ty bx by_ htx hty
    have w2 : tx + ty * bx + tz * (bx * by_) < bx * by_ * bz :=
      radix_lt (tx + ty * bx) tz (bx * by_) bz w1 htz
    have w12 : tx2 + ty2 * bx < bx * by_ := radix_lt tx2 ty2 bx by_ htx2 hty2
    have w22 : tx2 + ty2 * bx + tz2 * (bx * by_) < bx * by_ * bz :=
      radix_lt (tx2 + ty2 * bx) tz2 (bx * by_) bz w12 htz2
    have e1 : ix + iy * gx < gx * gy := radix_lt ix iy gx gy hix hiy
    have e12 : ix2 + iy2 * gx < gx * gy := radix_lt ix2 iy2 gx gy hix2 hiy2
    have hsplit := radix_inj (tx + ty * bx + tz * (bx * by_))
      (ix + iy * gx + gx * gy * iz) (tx2 + ty2 * bx + tz2 * (bx * by_))
      (ix2 + iy2 * gx + gx * gy * iz2) (bx * by_ * bz) w2 w22 (by omega)
    obtain ⟨hwithin, hblock⟩ := hsplit
    obtain ⟨hw, hz⟩ := radix_inj (tx + ty * bx) tz (tx2 + ty2 * bx) tz2 (bx * by_) w1 w12
      hwithin
    obtain ⟨hx, hy⟩ := radix_inj tx ty tx2 ty2 bx htx htx2 hw
    obtain ⟨hb1, hbz⟩ := radix_inj (ix + iy * gx) iz (ix2 + iy2 * gx) iz2 (gx * gy) e1 e12
      (by rw [Nat.mul_comm iz, Nat.mul_comm iz2]; exact hblock)
    obtain ⟨hbx, hby⟩ := radix_inj ix iy ix2 iy2 gx hix hix2 hb1
    subst hx hy hz hbx hby hbz
    exact ⟨rfl, rfl⟩
  · intro n hn
    obtain ⟨gx, gy, gz⟩ := gridDim
    obtain ⟨bx, by_, bz⟩ := blockDim
    obtain ⟨hgx, hgy, hgz⟩ := hg
    obtain ⟨hbx, hby, hbz⟩ := hb
    simp only at hgx hgy hgz hbx hby hbz
    have hT : 0 < bx * by_ * bz := Nat.mul_pos (Nat.mul_pos hbx hby) hbz
    have hP : 0 < bx * by_ := Nat.mul_pos hbx hby
    have hA : 0 < gx * gy := Nat.mul_pos hgx hgy
    have hN : dim3.numThreads ⟨gx, gy, gz⟩ ⟨bx, by_, bz⟩ =
        gx * gy * gz * (bx * by_ * bz) := by
      simp only [dim3.numThreads]; ring
    rw [hN] at hn
    have hblk : n / (bx * by_ * bz) < gx * gy * gz := Nat.div_lt_of_lt_mul (by
      rw [Nat.mul_comm]; exact hn)
    have hwit : n % (bx * by_ * bz) < bx * by_ * bz := Nat.mod_lt _ hT
    have hiz : n / (bx * by_ * bz) / (gx * gy) < gz := Nat.div_lt_of_lt_mul hblk
    have hixy : n / (bx * by_ * bz) % (gx * gy) < gx * gy := Nat.mod_lt _ hA
    have hiy : n / (bx * by_ * bz) % (gx * gy) / gx < gy := Nat.div_lt_of_lt_mul hixy
    have hix : n / (bx * by_ * bz) % (gx * gy) % gx < gx := Nat.mod_lt _ hgx
    have htz : n % (bx * by_ * bz) / (bx * by_) < bz := Nat.div_lt_of_lt_mul hwit
    have htxy : n % (bx * by_ * bz) % (bx * by_) < bx * by_ := Nat.mod_lt _ hP
    have hty : n % (bx * by_ * bz) % (bx * by_) / bx < by_ := Nat.div_lt_of_lt_mul htxy
    have htx : n % (bx * by_ * bz) % (bx * by_) % bx < bx := Nat.mod_lt _ hbx
    refine ⟨⟨n / (bx * by_ * bz) % (gx * gy) % gx, n / (bx * by_ * bz) % (gx * gy) / gx,
        n / (bx * by_ * bz) / (gx * gy)⟩,
      ⟨n % (bx * by_ * bz) % (bx * by_) % bx, n % (bx * by_ * bz) % (bx * by_) / bx,
        n % (bx * by_ * bz) / (bx * by_)⟩, ⟨hix, hiy, hiz⟩, ⟨htx, hty, htz⟩, ?_⟩
    rw [(getGlobalIdx_3D_3D_eq ⟨gx, gy, gz⟩ ⟨bx, by_, bz⟩ _ _ hfit2 ⟨hix, hiy, hiz⟩
      ⟨htx, hty, htz⟩).1]
    simp only
    have d1 := Nat.mod_add_div (n / (bx * by_ * bz) % (gx * gy)) gx
    have d2 := Nat.mod_add_div (n / (bx * by_ * bz)) (gx * gy)
    have d3 := Nat.mod_add_div (n % (bx * by_ * bz) % (bx * by_)) bx
    have d4 := Nat.mod_add_div (n % (bx * by_ * bz)) (bx * by_)
    have d5 := Nat.mod_add_div n (bx * by_ * bz)
    have c1 : n / (bx * by_ * bz) % (gx * gy) / gx * gx =
        gx * (n / (bx * by_ * bz) % (gx * gy) / gx) := Nat.mul_comm _ _
    have c3 : n % (bx * by_ * bz) % (bx * by_) / bx * bx =
        bx * (n % (bx * by_ * bz) % (bx * by_) / bx) := Nat.mul_comm _ _
    have c4 : n % (bx * by_ * bz) / (bx * by_) * (bx * by_) =
        bx * by_ * (n % (bx * by_ * bz) / (bx * by_)) := Nat.mul_comm _ _
    have hblockval : n / (bx * by_ * bz) % (gx * gy) % gx +
        n / (bx * by_ * bz) % (gx * gy) / gx * gx +
        gx * gy * (n / (bx * by_ * bz) / (gx * gy)) = n / (bx * by_ * bz) := by omega
    rw [hblockval, Nat.mul_comm (n / (bx * by_ * bz)) (bx * by_ * bz)]
    omega

end impl
end RAJA
namespace RAJA
namespace TensorRegister

/-- C31 at the row-major `4 x 4` sample, `acc = v = {1, 0, 0, 0}`: lane 2 of the new `acc` is
`0 + 9` after the right product and `0 + 3` after the left product. -/
theorem multiply_vector_accumulate_get_witness :
    Register.get ((sampleMatrix sampleType44).right_multiply_vector_accumulate sampleVector
        sampleVector (Register.broadcast 0)) 2 =
      Register.get sampleVector 2 +
        ∑ i ∈ Finset.range 4, (sampleMatrix sampleType44).get 2 i * Register.get sampleVector i ∧
    Register.get ((sampleMatrix sampleType44).right_multiply_vector_accumulate sampleVector
        sampleVector (Register.broadcast 0)) 2 = 9 ∧
    Register.get ((sampleMatrix sampleType44).left_multiply_vector_accumulate sampleVector
        sampleVector (Register.broadcast 0)) 2 = 3 :=
  ⟨(multiply_vector_accumulate_get (by rfl) (by rfl) (sampleMatrix sampleType44) sampleVector
    sampleVector (Register.broadcast 0) 2 (by decide)).2.2.1, by decide, by decide⟩

/-- C32 at the column-major `2 x 2` sample and `v = {1, 0}`: lane 1 of the left product is
lane 1 of the right product of the flipped view, whatever the locals hold. -/
theorem left_multiply_is_right_multiply_flipped_witness :
    Register.get ((sampleMatrix sampleType22).left_multiply_vector sampleVector
        (Register.broadcast 0)) 1 =
      Register.get ((sampleMatrix sampleType22).transpose_type.right_multiply_vector sampleVector
        (Register.broadcast 7)) 1 ∧
    Register.get ((sampleMatrix sampleType22).left_multiply_vector sampleVector
        (Register.broadcast 0)) 1 = 3 :=
  ⟨(left_multiply_is_right_multiply_flipped (sampleMatrix sampleType22) sampleVector
    (Register.broadcast 0)).2.2.1 (Register.broadcast 7) 1 (by decide), by decide⟩

/-- C33 at the row-major `8 x 4` shape (`W = 4 = 2^2`, `N = 8`), level 1, register 5: the
indices read are 5 and 7, both in the block `4..7` of register 5. -/
theorem transpose_index_in_bounds_witness :
    transpose_index_low 1 5 = 5 ∧ transpose_index_high 1 5 = 7 ∧
    transpose_index_low 1 5 < sampleType84.s_num_registers ∧
    transpose_index_high 1 5 < sampleType84.s_num_registers ∧
    transpose_index_high 1 5 / sampleType84.s_register_width =
      5 / sampleType84.s_register_width ∧
    transposeLevels sampleType84.s_register_width sampleType84.s_register_width 0 = 2 :=
  have h := transpose_index_in_bounds Int 2 1 5 (rfl : sampleType84.s_register_width = 2 ^ 2)
    (by decide) (by decide) (by decide)
  ⟨by decide, by decide, h.1, h.2.1, h.2.2.2.1, h.2.2.2.2.2.1⟩

/-- C34 at the row-major `2 x 2` shape with register width 4 (two rows per register) and
`row_stride = 3`: `load_packed` returns the sample matrix as it was. -/
theorem load_packed_several_per_register_witness :
    sampleTypeTwoRows.s_registers_per_dim = 0 ∧
    (sampleMatrix sampleTypeTwoRows).load_packed sampleMemory 0 3 1 =
      sampleMatrix sampleTypeTwoRows :=
  have h := load_packed_several_per_register (sampleMatrix sampleTypeTwoRows) sampleMemory 0 3 1
    (Or.inl ⟨by rfl, by decide, by decide⟩)
  ⟨h.1, h.2.1⟩

/-- C35 at the row-major `4 x 4` sample stored with extent `(2,3)` at `ptr = 0`,
`row_stride = 4`: address 3, element `(0,3)` outside the extent, keeps its value. -/
theorem store_nm_frame_witness :
    (sampleMatrix sampleType44).store_strided_nm 0 4 1 2 3 sampleMemory 3 = sampleMemory 3 ∧
    (sampleMatrix sampleType44).store_packed_nm 0 4 1 2 3 sampleMemory 3 = sampleMemory 3 :=
  have h := store_nm_frame (sampleMatrix sampleType44) 0 4 1 2 3 sampleMemory 3
  ⟨h.1 (fun i hi j hj => by omega),
   h.2 (fun i hi j hj => by
     have e1 : sampleType44.layout.is_row_major = true := rfl
     simp only [e1, if_true]
     omega)⟩

end TensorRegister

namespace VectorTypeHelper

/-- C36 for 6 elements on registers of width 4: two registers; the fixed type has the lane
counts `[4, 2]` and capacity 6, the streaming type `[4, 4]` and capacity 8. -/
theorem vector_type_sizing_witness :
    num_registers 4 6 = 2 ∧ (fixed_type 4 6).num_elems = [4, 2] ∧ (fixed_type 4 6).num_elem = 6 ∧
    (stream_type 4 6).num_elems = [4, 4] ∧ (stream_type 4 6).num_elem = num_registers 4 6 * 4 ∧
    (stream_type 4 6).num_elem < 6 + 4 :=
  have h := vector_type_sizing 4 6 (by decide) (by decide)
  ⟨by decide, by decide, h.2.2.2.2.2.1, by decide, h.2.2.2.2.2.2.2.2.1, h.2.2.2.2.2.2.2.2.2.2⟩

end VectorTypeHelper

namespace VectorImpl

/-- C37 at the streaming sample: loading 5 elements into the vector `1, 2, 3, 4, 11, 12, 13, 14`
leaves element 6 at 13. -/
theorem load_short_keeps_tail_witness :
    ((sampleVectorIota sampleStream).load sampleArray 0 1 5).get 6 =
      (sampleVectorIota sampleStream).get 6 ∧
    (sampleVectorIota sampleStream).get 6 = 13 ∧
    ((sampleVectorIota sampleStream).load sampleArray 0 1 5).get 4 = 5 :=
  ⟨(load_short_keeps_tail (sampleVectorIota sampleStream) sampleArray 0 1 5 (by rfl)
    (by decide)).1 6 (by decide), by decide, by decide⟩

end VectorImpl

namespace impl

/-- C38 (amended) for 10 elements and `BLOCK_SIZE = 4` (3 blocks, 12 threads): the body is invoked with
the positions `0, ..., 9` and position 7 exactly once. -/
theorem forall_cuda_exec_covers_witness :
    forall_cuda_exec 4 id 10 recordBody [] = List.range 10 ∧
    (forall_cuda_exec 4 id 10 recordBody []).count 7 = 1 ∧
    (forall_cuda_exec 4 id 10 recordBody []).count 10 = 0 ∧
    forall_cuda_exec 0 id 10 recordBody [] = [] :=
  have h := (forall_cuda_exec_covers 4 id 10 recordBody []).1 (by decide) (by decide)
    (by decide)
  ⟨h.2.1, by decide, by decide,
    (forall_cuda_exec_covers 0 id 10 recordBody []).2 (Or.inr rfl)⟩

/-- C39 for a `2 x 3 x 4` grid of `4 x 2 x 2` blocks (384 threads): block `(1,2,3)`, thread
`(3,1,1)` has index 383, the last one. -/
theorem getGlobalIdx_3D_3D_bijection_witness :
    INTERNAL.getGlobalNumThreads_3D_3D { x := 2, y := 3, z := 4 } { x := 4, y := 2, z := 2 } =
      4 * 2 * 2 * 2 * 3 * 4 ∧
    INTERNAL.getGlobalIdx_3D_3D { x := 2, y := 3, z := 4 } { x := 4, y := 2, z := 2 }
      { x := 1, y := 2, z := 3 } { x := 3, y := 1, z := 1 } = 383 ∧
    INTERNAL.getGlobalIdx_3D_3D { x := 2, y := 3, z := 4 } { x := 4, y := 2, z := 2 }
      { x := 1, y := 2, z := 3 } { x := 3, y := 1, z := 1 } <
      INTERNAL.getGlobalNumThreads_3D_3D { x := 2, y := 3, z := 4 } { x := 4, y := 2, z := 2 } :=
  have h := getGlobalIdx_3D_3D_bijection { x := 2, y := 3, z := 4 } { x := 4, y := 2, z := 2 }
    (by decide) (by decide) (by decide)
  ⟨h.1, by decide, h.2.1 { x := 1, y := 2, z := 3 } { x := 3, y := 1, z := 1 } (by decide)
    (by decide)⟩

end impl
end RAJA
